import Mathlib

/-!
Verification of the toonlite codec (C++ sources under src/) against its
natural-language specification.  The C++ code is shallowly embedded:
strings are lists of characters, C++ `std::vector` contents are Lean
lists, machine integers are `Int` with explicit range checks where the
source checks ranges, and fallible code returns `Except`/`Option`.

IEEE-754 doubles are embedded abstractly: a double value is represented
by what the C++ code observes of it (its NaN/Inf classification and its
decimal renderings), never by an approximating Lean number.  Two
renderings occur in the source: `std::ostringstream << setprecision(17)`
and `std::to_string`; both are carried as data on the abstract value.
-/

set_option maxHeartbeats 1000000

namespace Toonlite

/-! ## Character-level utilities shared by the C++ translation units.

`isspace` from `<cctype>` in the C locale: space and the five control
whitespace characters 0x09..0x0d. -/

/-- C `isspace` (C locale, `static_cast<unsigned char>` argument as in all
call sites of the source). -/
def cIsSpace (c : Char) : Bool :=
  c = ' ' || c = '\t' || c = '\n' || (c.toNat = 11) || (c.toNat = 12) || c = '\r'

/-- C `isdigit`. -/
def cIsDigit (c : Char) : Bool :=
  '0' ≤ c && c ≤ '9'

/-- Strings as the C++ code manipulates them: a sequence of characters. -/
abbrev Chars := List Char

/-- Remove leading whitespace, as the `remove_prefix` loop of
`Parser::trim`, `TabularParser::trim` and `RowStreamer::trim` (the three
copies in the source are textually identical). -/
def trimLeft (s : Chars) : Chars := s.dropWhile cIsSpace

/-- Remove trailing whitespace, as the `remove_suffix` loop of the same
`trim` functions and of `Parser::trim_trailing`. -/
def trimRight (s : Chars) : Chars := (s.reverse.dropWhile cIsSpace).reverse

/-- `trim`: leading and trailing whitespace removed.  One definition for
the three textually identical source copies (toon_parser.cpp:84,
toon_df.cpp:423, toon_stream.cpp:11). -/
def ctrim (s : Chars) : Chars := trimRight (trimLeft s)

/-! ## Decimal integers.

`std::from_chars` for integers: an optional `-` (a leading `+` is
rejected), then base-10 digits; the caller always checks that the whole
input was consumed (`result.ptr == end`), so the embedding accepts the
string exactly when it is entirely a signed digit string whose value fits
the target type, and returns its value. -/

/-- Value of a digit string read left to right (the accumulation
performed by `std::from_chars`). -/
def digitsVal (l : Chars) : Nat :=
  l.foldl (fun a c => 10 * a + (c.toNat - 48)) 0

/-- `std::from_chars(first,last,v)` for `int64_t` with full-consumption
check as used at toon_parser.cpp:337 and toon_df.cpp:287: `some v` iff
the whole string is an optionally negated nonempty digit string whose
value fits in a signed 64-bit integer. -/
def fromCharsI64 (s : Chars) : Option Int :=
  match s with
  | [] => none
  | c :: rest =>
      if c = '-' then
        if rest ≠ [] ∧ rest.all cIsDigit ∧ digitsVal rest ≤ 2 ^ 63 then
          some (-(digitsVal rest : Int))
        else none
      else
        if (c :: rest).all cIsDigit ∧ digitsVal (c :: rest) ≤ 2 ^ 63 - 1 then
          some (digitsVal (c :: rest))
        else none

/-- Decimal digit character for a value below ten. -/
def decDigit (d : Nat) : Char := Char.ofNat (48 + d)

/-- Digits of a natural number, most significant first; the fuel
argument makes the recursion structural and any `fuel > n` computes the
digits (`natDec` below supplies it). -/
def decDigitsGo : Nat → Nat → Chars
  | 0, _ => []
  | fuel + 1, n =>
      if n < 10 then [decDigit n]
      else decDigitsGo fuel (n / 10) ++ [decDigit (n % 10)]

/-- Decimal text of a natural number, as produced by `std::to_string`. -/
def natDec (n : Nat) : Chars := decDigitsGo (n + 1) n

/-- Decimal text of an integer, as produced by `std::to_string` on
signed integer types. -/
def intDec (n : Int) : Chars :=
  if n < 0 then '-' :: natDec n.natAbs else natDec n.toNat

/-! ## Abstract doubles.

`DV` is the value produced by the three ways toon_df.cpp manufactures a
`double`: parsing text with `double_from_chars` (toon_charconv.h), the
`static_cast<double>` of a stored `int`, the literals `0.0`/`1.0` (and
casts of logical values), and the `NA_REAL` sentinel.  The embedding
keeps the provenance; equal provenance implies equal C++ value, which is
all the theorems below rely on. -/

/-- Abstract C++ `double` value of the column-builder translation unit,
identified by its provenance. -/
inductive DV : Type
  | ofText (s : Chars)
  | ofInt (n : Int)
  | ofLgl (v : Int)
  | naReal
deriving DecidableEq, Repr

/-- `std::to_string(double)` as used by `ColBuilder::promote_to` when
promoting DOUBLE to STRING.  The exact "%f" text of the platform is
abstracted: it is some fixed function of the value, and no theorem below
depends on its particular characters. -/
def DV.toStdString : DV → Chars
  | .ofText s => s
  | .ofInt n => intDec n
  | .ofLgl v => intDec v
  | .naReal => []

/-! Syntax accepted by `double_from_chars` (toon_charconv.h), i.e.
`std::from_chars` for `double` in the general format: an optional `-`
(leading `+` rejected, hexadecimal rejected), then either a decimal
mantissa (digits with at most one point, at least one digit) with an
optional exponent, or an infinity/NaN literal.  The callers always check
full consumption.  A syntactically valid number whose magnitude
overflows the double range yields `result_out_of_range` in C++ and is
rejected by the callers; the embedding abstracts from that (it treats
every syntactically valid mantissa/exponent as in range), which is
exact on every input any theorem below evaluates. -/

/-- Mantissa: digits with at most one decimal point, at least one
digit. -/
def validMantissa (s : Chars) : Bool :=
  let intPart := s.takeWhile cIsDigit
  let rest := s.dropWhile cIsDigit
  match rest with
  | [] => !intPart.isEmpty
  | '.' :: frac => (!intPart.isEmpty || !frac.isEmpty) && frac.all cIsDigit
  | _ => false

/-- Exponent part: empty, or `e`/`E`, optional sign, nonempty digits. -/
def validExpPart (s : Chars) : Bool :=
  match s with
  | [] => true
  | e :: rest =>
      (e = 'e' || e = 'E') &&
      (match rest with
       | '+' :: ds => !ds.isEmpty && ds.all cIsDigit
       | '-' :: ds => !ds.isEmpty && ds.all cIsDigit
       | ds => !ds.isEmpty && ds.all cIsDigit)

/-- Split point between mantissa and exponent: the mantissa is the
longest prefix of digits and points. -/
def mantissaSpan (s : Chars) : Chars × Chars :=
  (s.takeWhile (fun c => cIsDigit c || c = '.'), s.dropWhile (fun c => cIsDigit c || c = '.'))

/-- Case-insensitive match of an infinity or NaN literal (accepted by
`std::from_chars` in general format). -/
def isInfNanText (s : Chars) : Bool :=
  let low := s.map Char.toLower
  low = ['i', 'n', 'f'] || low = ['i', 'n', 'f', 'i', 'n', 'i', 't', 'y'] ||
    low = ['n', 'a', 'n']

/-- Whole-string validity for `double_from_chars` with the callers'
full-consumption check. -/
def validDoubleText (s : Chars) : Bool :=
  let body := match s with
    | '-' :: rest => rest
    | l => l
  (match s with | '+' :: _ => false | _ => true) &&
  (isInfNanText body ||
    (let (m, e) := mantissaSpan body
     validMantissa m && validExpPart e))

/-- `double_from_chars` over a whole string: the abstract parsed value,
or `none` when the syntax is rejected. -/
def doubleFromChars (s : Chars) : Option DV :=
  if validDoubleText s then some (DV.ofText s) else none

/-! ## Column types and the column builder (toon_df.cpp).

`NA_LOGICAL` and `NA_INTEGER` are both `INT_MIN` in R's C API. -/

/-- `ColType` from toon_df.h. -/
inductive ColType : Type
  | UNKNOWN | LOGICAL | INTEGER | DOUBLE | STRING
deriving DecidableEq, Repr

/-- R's `NA_INTEGER` sentinel, `INT32_MIN`. -/
def NA_INTEGER : Int := -(2 ^ 31)

/-- R's `NA_LOGICAL` sentinel (same bit pattern as `NA_INTEGER`). -/
def NA_LOGICAL : Int := NA_INTEGER

/-- Position of a type in the spec's promotion lattice chain
UNKNOWN ⊑ LOGICAL ⊑ INTEGER ⊑ DOUBLE ⊑ STRING. -/
def ColType.rank : ColType → Nat
  | .UNKNOWN => 0
  | .LOGICAL => 1
  | .INTEGER => 2
  | .DOUBLE => 3
  | .STRING => 4

/-- `std::vector::resize(n, fill)`: truncates when the vector is longer
than `n`, extends with `fill` otherwise. -/
def vecResize (l : List α) (n : Nat) (fill : α) : List α :=
  if n ≤ l.length then l.take n else l ++ List.replicate (n - l.length) fill

/-- `v[i] = x` on a `std::vector`.  An out-of-bounds write is undefined
behaviour in C++; the embedding makes it a no-op (the vector's length
never changes), which is what the invariant theorems below observe. -/
def vecWrite (l : List α) (i : Nat) (x : α) : List α := l.set i x

/-- `ColBuilder` state (toon_df.h): name, current type, row count, the
four typed backing arrays and the NA mask.  Capacity bookkeeping
(`ensure_capacity`) only calls `reserve` and is unobservable, so it is
not carried. -/
structure ColBuilder where
  name : Chars
  type : ColType := .UNKNOWN
  size : Nat := 0
  lgl : List Int := []
  int : List Int := []
  dbl : List DV := []
  str : List Chars := []
  na : List Bool := []
deriving DecidableEq, Repr

/-- A freshly constructed `ColBuilder(name, capacity)` (the capacity
argument only reserves). -/
def ColBuilder.fresh (name : Chars) : ColBuilder := { name := name }

/-- `ColBuilder::promote_to` (toon_df.cpp:41).  Note that the trailing
`type_ = new_type;` runs for every combination, including those the
switch does not convert (e.g. DOUBLE to INTEGER, or any type to
LOGICAL). -/
def ColBuilder.promote_to (b : ColBuilder) (newType : ColType) : ColBuilder :=
  if newType = b.type then b
  else
    let b1 :=
      match newType with
      | ColType.INTEGER =>
          if b.type = ColType.LOGICAL then
            { b with
              int := (List.range b.size).map fun i =>
                if b.na.getD i false then NA_INTEGER else b.lgl.getD i 0
              lgl := [] }
          else b
      | ColType.DOUBLE =>
          if b.type = ColType.LOGICAL then
            { b with
              dbl := (List.range b.size).map fun i =>
                if b.na.getD i false then DV.naReal else DV.ofLgl (b.lgl.getD i 0)
              lgl := [] }
          else if b.type = ColType.INTEGER then
            { b with
              dbl := (List.range b.size).map fun i =>
                if b.na.getD i false then DV.naReal else DV.ofInt (b.int.getD i 0)
              int := [] }
          else b
      | ColType.STRING =>
          let str0 := vecResize b.str b.size []
          if b.type = ColType.LOGICAL then
            { b with
              str := (List.range b.size).map fun i =>
                if b.na.getD i false then []
                else if b.lgl.getD i 0 ≠ 0 then ['t', 'r', 'u', 'e'] else ['f', 'a', 'l', 's', 'e']
              lgl := [] }
          else if b.type = ColType.INTEGER then
            { b with
              str := (List.range b.size).map fun i =>
                if b.na.getD i false then [] else intDec (b.int.getD i 0)
              int := [] }
          else if b.type = ColType.DOUBLE then
            { b with
              str := (List.range b.size).map fun i =>
                if b.na.getD i false then [] else (b.dbl.getD i DV.naReal).toStdString
              dbl := [] }
          else { b with str := str0 }
      | _ => b
    { b1 with type := newType }

/-- `ColBuilder::force_type` (toon_df.cpp:123). -/
def ColBuilder.force_type (b : ColBuilder) (t : ColType) : ColBuilder :=
  if b.type = ColType.UNKNOWN then { b with type := t }
  else if b.type ≠ t then b.promote_to t
  else b

/-- The `while (size_ <= row)` extension loop of `ColBuilder::set_null`
(toon_df.cpp:135): pushes the type's NA sentinel and a `true` mask bit
until the column covers `row`. -/
def ColBuilder.extendNull (b : ColBuilder) (row : Nat) : ColBuilder :=
  if b.size ≤ row then
    let k := row + 1 - b.size
    { b with
      size := row + 1
      na := b.na ++ List.replicate k true
      lgl := match b.type with
        | ColType.LOGICAL | ColType.UNKNOWN => b.lgl ++ List.replicate k NA_LOGICAL
        | _ => b.lgl
      int := match b.type with
        | ColType.INTEGER => b.int ++ List.replicate k NA_INTEGER
        | _ => b.int
      dbl := match b.type with
        | ColType.DOUBLE => b.dbl ++ List.replicate k DV.naReal
        | _ => b.dbl
      str := match b.type with
        | ColType.STRING => b.str ++ List.replicate k []
        | _ => b.str }
  else b

/-- `ColBuilder::set_null` (toon_df.cpp:131): extend to cover `row`,
then mark NA and write the type's sentinel at `row`. -/
def ColBuilder.set_null (b : ColBuilder) (row : Nat) : ColBuilder :=
  let b1 := b.extendNull row
  { b1 with
    na := vecWrite b1.na row true
    lgl := match b1.type with
      | ColType.LOGICAL | ColType.UNKNOWN => vecWrite b1.lgl row NA_LOGICAL
      | _ => b1.lgl
    int := match b1.type with
      | ColType.INTEGER => vecWrite b1.int row NA_INTEGER
      | _ => b1.int
    dbl := match b1.type with
      | ColType.DOUBLE => vecWrite b1.dbl row DV.naReal
      | _ => b1.dbl
    str := match b1.type with
      | ColType.STRING => vecWrite b1.str row []
      | _ => b1.str }

/-- `if (row >= size_) size_ = row + 1;` -/
def ColBuilder.bumpSize (b : ColBuilder) (row : Nat) : ColBuilder :=
  if b.size ≤ row then { b with size := row + 1 } else b

/-- The escape-processing loop of the quoted-string branch of
`ColBuilder::parse_and_store` (toon_df.cpp:252), applied to the
characters strictly between the quotes.  The `i + 1 < value.size() - 1`
guard means a backslash whose successor would be the closing quote is
copied verbatim; an unrecognised escape keeps the backslash and does not
skip the next character. -/
def dfUnquoteGo : Chars → Chars
  | [] => []
  | [c] => [c]
  | c :: d :: rest =>
      if c = '\\' then
        match d with
        | '"' => '"' :: dfUnquoteGo rest
        | '\\' => '\\' :: dfUnquoteGo rest
        | 'n' => '\n' :: dfUnquoteGo rest
        | 'r' => '\r' :: dfUnquoteGo rest
        | 't' => '\t' :: dfUnquoteGo rest
        | _ => c :: dfUnquoteGo (d :: rest)
      else c :: dfUnquoteGo (d :: rest)

/-- Common tail of the `true`/`false` LOGICAL path
(toon_df.cpp:204 and 239): resize both arrays, store the bit, clear the
mask, bump the size. -/
def ColBuilder.storeLgl (b : ColBuilder) (row : Nat) (v : Int) : ColBuilder :=
  let b := { b with
    lgl := vecResize b.lgl (row + 1) NA_LOGICAL
    na := vecResize b.na (row + 1) true }
  let b := { b with lgl := vecWrite b.lgl row v, na := vecWrite b.na row false }
  b.bumpSize row

/-- `ColBuilder::parse_and_store` (toon_df.cpp:160), translated branch
by branch in source order.  Note two slips preserved from the source:
the `true`/`false` branches for INTEGER and DOUBLE columns resize the
data array but never the NA mask (the C++ then writes `na_mask_[row]`
out of bounds when the row is new; here the write is the no-op of
`vecWrite`), and the integer branch admits `INT32_MIN` (`int_val >=
INT32_MIN`), R's NA sentinel. -/
def ColBuilder.parse_and_store (b : ColBuilder) (row : Nat) (value0 : Chars) : ColBuilder :=
  let value := ctrim value0
  if value = ['n', 'u', 'l', 'l'] then b.set_null row
  else if value = ['t', 'r', 'u', 'e'] then
    match b.type with
    | .UNKNOWN =>
        let b := { b with
          type := ColType.LOGICAL
          lgl := vecResize b.lgl (row + 1) NA_LOGICAL
          na := vecResize b.na (row + 1) true }
        b.storeLgl row 1
    | .LOGICAL => b.storeLgl row 1
    | .INTEGER =>
        let b := b.promote_to .INTEGER
        let b := { b with int := vecResize b.int (row + 1) NA_INTEGER }
        let b := { b with int := vecWrite b.int row 1, na := vecWrite b.na row false }
        b.bumpSize row
    | .DOUBLE =>
        let b := { b with dbl := vecResize b.dbl (row + 1) DV.naReal }
        let b := { b with dbl := vecWrite b.dbl row (DV.ofLgl 1), na := vecWrite b.na row false }
        b.bumpSize row
    | .STRING =>
        let b := b.promote_to .STRING
        let b := { b with str := vecResize b.str (row + 1) [] }
        let b := { b with
          str := vecWrite b.str row ['t', 'r', 'u', 'e']
          na := vecWrite b.na row false }
        b.bumpSize row
  else if value = ['f', 'a', 'l', 's', 'e'] then
    match b.type with
    | .UNKNOWN =>
        let b := { b with
          type := ColType.LOGICAL
          lgl := vecResize b.lgl (row + 1) NA_LOGICAL
          na := vecResize b.na (row + 1) true }
        b.storeLgl row 0
    | .LOGICAL => b.storeLgl row 0
    | .INTEGER =>
        let b := { b with int := vecResize b.int (row + 1) NA_INTEGER }
        let b := { b with int := vecWrite b.int row 0, na := vecWrite b.na row false }
        b.bumpSize row
    | .DOUBLE =>
        let b := { b with dbl := vecResize b.dbl (row + 1) DV.naReal }
        let b := { b with dbl := vecWrite b.dbl row (DV.ofLgl 0), na := vecWrite b.na row false }
        b.bumpSize row
    | .STRING =>
        let b := b.promote_to .STRING
        let b := { b with str := vecResize b.str (row + 1) [] }
        let b := { b with
          str := vecWrite b.str row ['f', 'a', 'l', 's', 'e']
          na := vecWrite b.na row false }
        b.bumpSize row
  else if 2 ≤ value.length ∧ value.headD ' ' = '"' ∧ value.getLastD ' ' = '"' then
    let unquoted := dfUnquoteGo ((value.drop 1).take (value.length - 2))
    let b := b.promote_to .STRING
    let b := { b with
      str := vecResize b.str (row + 1) []
      na := vecResize b.na (row + 1) true }
    let b := { b with str := vecWrite b.str row unquoted, na := vecWrite b.na row false }
    b.bumpSize row
  else
    let hasDecimal := value.contains '.'
    let hasExp := value.contains 'e' || value.contains 'E'
    let intTaken :=
      if !hasDecimal && !hasExp then
        match fromCharsI64 value with
        | some iv => if -(2 ^ 31) ≤ iv ∧ iv ≤ 2 ^ 31 - 1 then some iv else none
        | none => none
      else none
    match intTaken with
    | some iv =>
        match b.type with
        | .UNKNOWN =>
            let b := { b with
              type := ColType.INTEGER
              int := vecResize b.int (row + 1) NA_INTEGER
              na := vecResize b.na (row + 1) true }
            let b := { b with
              int := vecResize b.int (row + 1) NA_INTEGER
              na := vecResize b.na (row + 1) true }
            let b := { b with int := vecWrite b.int row iv, na := vecWrite b.na row false }
            b.bumpSize row
        | .LOGICAL =>
            let b := b.promote_to .INTEGER
            let b := { b with
              int := vecResize b.int (row + 1) NA_INTEGER
              na := vecResize b.na (row + 1) true }
            let b := { b with
              int := vecResize b.int (row + 1) NA_INTEGER
              na := vecResize b.na (row + 1) true }
            let b := { b with int := vecWrite b.int row iv, na := vecWrite b.na row false }
            b.bumpSize row
        | .DOUBLE =>
            let b := { b with
              dbl := vecResize b.dbl (row + 1) DV.naReal
              na := vecResize b.na (row + 1) true }
            let b := { b with dbl := vecWrite b.dbl row (DV.ofInt iv), na := vecWrite b.na row false }
            b.bumpSize row
        | .STRING =>
            let b := { b with
              str := vecResize b.str (row + 1) []
              na := vecResize b.na (row + 1) true }
            let b := { b with str := vecWrite b.str row value, na := vecWrite b.na row false }
            b.bumpSize row
        | .INTEGER =>
            let b := { b with
              int := vecResize b.int (row + 1) NA_INTEGER
              na := vecResize b.na (row + 1) true }
            let b := { b with int := vecWrite b.int row iv, na := vecWrite b.na row false }
            b.bumpSize row
    | none =>
        match doubleFromChars value with
        | some dv =>
            match b.type with
            | .STRING =>
                let b := { b with
                  str := vecResize b.str (row + 1) []
                  na := vecResize b.na (row + 1) true }
                let b := { b with str := vecWrite b.str row value, na := vecWrite b.na row false }
                b.bumpSize row
            | .DOUBLE =>
                let b := { b with
                  dbl := vecResize b.dbl (row + 1) DV.naReal
                  na := vecResize b.na (row + 1) true }
                let b := { b with dbl := vecWrite b.dbl row dv, na := vecWrite b.na row false }
                b.bumpSize row
            | _ =>
                let b := b.promote_to .DOUBLE
                let b := { b with
                  dbl := vecResize b.dbl (row + 1) DV.naReal
                  na := vecResize b.na (row + 1) true }
                let b := { b with
                  dbl := vecResize b.dbl (row + 1) DV.naReal
                  na := vecResize b.na (row + 1) true }
                let b := { b with dbl := vecWrite b.dbl row dv, na := vecWrite b.na row false }
                b.bumpSize row
        | none =>
            let b := b.promote_to .STRING
            let b := { b with
              str := vecResize b.str (row + 1) []
              na := vecResize b.na (row + 1) true }
            let b := { b with str := vecWrite b.str row value, na := vecWrite b.na row false }
            b.bumpSize row

/-- `ColBuilder::set` (toon_df.cpp:358): `ensure_capacity` only
reserves, then `parse_and_store`. -/
def ColBuilder.set (b : ColBuilder) (row : Nat) (value : Chars) : ColBuilder :=
  b.parse_and_store row value

/-! ## Finalized columns (`ColBuilder::finalize`, `build_dataframe`). -/

/-- One finalized cell of an R vector.  `Cell.null` is the respective NA
(`NA_LOGICAL`, `NA_INTEGER`, `NA_REAL`, `NA_STRING`); the carried value
is what the C++ writes into the output vector otherwise. -/
inductive Cell : Type
  | null
  | i (v : Int)
  | d (v : DV)
  | s (v : Chars)
deriving DecidableEq, Repr

/-- A finalized column: the typed R vector `ColBuilder::finalize`
produces (toon_df.cpp:363), tagged with its SEXP type. -/
structure FinCol where
  name : Chars
  type : ColType
  cells : List Cell
deriving DecidableEq, Repr

/-- `ColBuilder::finalize`: an UNKNOWN column defaults to LOGICAL; cell
`k` is NA when the mask says so, else the active array's value.  Reads
beyond an array's length (possible only in the states reached through
the mask-resize slip, undefined behaviour in C++) default to the zero
value. -/
def ColBuilder.finalize (b : ColBuilder) : FinCol :=
  let t := if b.type = ColType.UNKNOWN then ColType.LOGICAL else b.type
  { name := b.name
    type := t
    cells := (List.range b.size).map fun k =>
      if b.na.getD k false then Cell.null
      else match t with
        | ColType.LOGICAL => Cell.i (b.lgl.getD k 0)
        | ColType.INTEGER => Cell.i (b.int.getD k 0)
        | ColType.DOUBLE => Cell.d (b.dbl.getD k DV.naReal)
        | ColType.STRING => Cell.s (b.str.getD k [])
        | ColType.UNKNOWN => Cell.null }

/-! ## Errors and warnings (toon_errors.hpp). -/

/-- `ErrorType` from toon_errors.hpp. -/
inductive ErrorType : Type
  | PARSE_ERROR | VALIDATION_ERROR | IO_ERROR | TYPE_ERROR | ENCODING_ERROR
deriving DecidableEq, Repr

/-- A thrown C++ exception.  The only exception class the source defines
and throws is `ParseError`, which corresponds to `ErrorType.PARSE_ERROR`
of the taxonomy; the record carries its constructor arguments. -/
structure CppError where
  etype : ErrorType := ErrorType.PARSE_ERROR
  msg : Chars
  line : Nat := 0
  column : Nat := 0
  snippet : Chars := []
  file : Chars := []
deriving DecidableEq, Repr

/-- `Warning` from toon_errors.hpp. -/
structure Warning where
  category : Chars
  message : Chars
deriving DecidableEq, Repr

/-! ## Parser primitive scanners (toon_parser.cpp). -/

namespace Parser

/-- `Parser::parse_integer` (toon_parser.cpp:323): no decimal point or
exponent letter anywhere, full-string `from_chars`, then the 32-bit
range check `value > INT32_MIN && value <= INT32_MAX` that deliberately
excludes R's NA sentinel. -/
def parse_integer (text : Chars) : Option Int :=
  if text = [] then none
  else if text.contains '.' || (text.contains 'e' || text.contains 'E') then none
  else
    match fromCharsI64 text with
    | some v => if -(2 ^ 31) < v ∧ v ≤ 2 ^ 31 - 1 then some v else none
    | none => none

/-- Whether the double a full-string `from_chars` parse produces is
non-finite: with the full-consumption check and in-range magnitudes this
happens exactly for the infinity/NaN literal forms. -/
def textNonFinite (s : Chars) : Bool :=
  isInfNanText (match s with | '-' :: r => r | l => l)

/-- `Parser::parse_number` (toon_parser.cpp:351): full-string double
parse; in strict mode NaN and infinities are rejected. -/
def parse_number (strict : Bool) (text : Chars) : Option DV :=
  if text = [] then none
  else
    match doubleFromChars text with
    | some dv => if strict && textNonFinite text then none else some dv
    | none => none

end Parser

/-! ## Claim C2: length invariant of the column builder. -/

/-- C2 (code bug): the claimed invariant `length of active array =
length of NA mask = row count` is broken by the `true`/`false` branches
for INTEGER (and DOUBLE) columns, which resize the data array but not
the NA mask.  Concretely, on a fresh column, `set(0, "1")` makes it an
INTEGER column, and `set(1, "true")` then grows the integer array to
length 2 and the row count to 2 while the NA mask stays at length 1
(the C++ writes `na_mask_[1]` out of bounds). -/
theorem claim2_mask_length_bug :
    (let b := ((ColBuilder.fresh ['a']).set 0 ['1']).set 1 ['t', 'r', 'u', 'e']
     b.type = ColType.INTEGER ∧ b.int.length = 2 ∧ b.na.length = 1 ∧ b.size = 2) := by
  decide

/-! ## Claim C3: the reserved 32-bit NA sentinel. -/

/-- C3 (code bug): the primitive scanner rejects `-2147483648` in its
integer branch (and the double scanner accepts it), as the spec states;
but `ColBuilder::parse_and_store` uses `int_val >= INT32_MIN` and stores
the value through its integer branch, writing R's NA sentinel bit
pattern as a purportedly non-NA cell. -/
theorem claim3_na_sentinel :
    Parser.parse_integer "-2147483648".data = none ∧
    Parser.parse_number true "-2147483648".data = some (DV.ofText "-2147483648".data) ∧
    (let b := (ColBuilder.fresh ['x']).set 0 "-2147483648".data
     b.type = ColType.INTEGER ∧ b.int = [NA_INTEGER] ∧ b.na = [false]) := by
  decide

/-! ## Claim C4: monotonicity of the column type. -/

/-- One mutation of a column builder, as performed by the tabular
ingestion loops: `set` with a field text, or `set_null`. -/
inductive ColOp : Type
  | setV (row : Nat) (value : Chars)
  | setNull (row : Nat)

/-- Apply one operation. -/
def ColBuilder.applyOp (b : ColBuilder) : ColOp → ColBuilder
  | ColOp.setV r v => b.set r v
  | ColOp.setNull r => b.set_null r

/-- Apply a sequence of operations in order. -/
def ColBuilder.applyOps (b : ColBuilder) (ops : List ColOp) : ColBuilder :=
  ops.foldl ColBuilder.applyOp b

theorem ColBuilder.type_promote_to (b : ColBuilder) (t : ColType) :
    (b.promote_to t).type = t := by
  unfold promote_to
  split
  · next h => exact h.symm
  · rfl

@[simp]
theorem ColBuilder.type_bumpSize (b : ColBuilder) (r : Nat) :
    (b.bumpSize r).type = b.type := by
  unfold bumpSize; split <;> rfl

@[simp]
theorem ColBuilder.type_storeLgl (b : ColBuilder) (r : Nat) (v : Int) :
    (b.storeLgl r v).type = b.type := by
  simp [storeLgl]

@[simp]
theorem ColBuilder.type_extendNull (b : ColBuilder) (r : Nat) :
    (b.extendNull r).type = b.type := by
  unfold extendNull; split <;> rfl

@[simp]
theorem ColBuilder.type_set_null (b : ColBuilder) (r : Nat) :
    (b.set_null r).type = b.type := by
  simp [set_null]

/-- The type after a `set` is never lower in the lattice chain than the
type before it. -/
theorem ColBuilder.rank_le_set (b : ColBuilder) (r : Nat) (v : Chars) :
    b.type.rank ≤ (b.set r v).type.rank := by
  cases hb : b.type <;>
    simp only [set, parse_and_store, hb] <;>
    (repeat' split) <;>
    simp only [ColBuilder.type_bumpSize, ColBuilder.type_storeLgl,
      ColBuilder.type_set_null, ColBuilder.type_promote_to, hb] <;>
    decide

/-- C4 counterexample: a column that has seen `1.5` is DOUBLE;
`force_type(INTEGER)` then sets the type strictly lower in the lattice
chain (the `promote_to` switch converts nothing for DOUBLE to INTEGER
but still assigns `type_ = new_type`). -/
theorem claim4_counterexample :
    (let b := (ColBuilder.fresh ['x']).set 0 "1.5".data
     let b2 := b.force_type ColType.INTEGER
     b.type = ColType.DOUBLE ∧ b2.type = ColType.INTEGER ∧ b2.type.rank < b.type.rank) := by
  decide

/-- C4 as amended: under any sequence of `set`/`set_null` operations the
column type never moves down the lattice chain; the monotonicity claim
fails only for `force_type`, which assigns its argument type even when
that type is strictly lower. -/
theorem claim4_amended (b : ColBuilder) (ops : List ColOp) :
    b.type.rank ≤ (b.applyOps ops).type.rank := by
  induction ops generalizing b with
  | nil => exact Nat.le_refl _
  | cons op rest ih =>
      refine Nat.le_trans ?_ (ih (b.applyOp op))
      cases op with
      | setV r v => exact ColBuilder.rank_le_set b r v
      | setNull r => simp [ColBuilder.applyOp]

/-! ## Encoder doubles (toon_encoder.cpp).

An R `double` is embedded by what the encoder observes of it: the
NaN/Inf classification (R's `NA_real_` is a NaN, so `ISNA(val) ||
ISNAN(val)` and `std::isnan` agree) and the text that
`std::ostringstream << std::setprecision(17) << val` produces in the
default format.  For example the IEEE value 2.0 has `repr17 = "2"`
(the default format suppresses trailing zeros), and 99.5 has
`repr17 = "99.5"`. -/

/-- Decidable equality of `Except` results. -/
instance instDecEqExcept {e a : Type} [DecidableEq e] [DecidableEq a] :
    DecidableEq (Except e a)
  | Except.ok x, Except.ok y =>
      if h : x = y then isTrue (by rw [h])
      else isFalse (fun hc => h (Except.ok.inj hc))
  | Except.ok _, Except.error _ => isFalse (fun hc => Except.noConfusion hc)
  | Except.error _, Except.ok _ => isFalse (fun hc => Except.noConfusion hc)
  | Except.error x, Except.error y =>
      if h : x = y then isTrue (by rw [h])
      else isFalse (fun hc => h (Except.error.inj hc))

/-- An R double at the encoder boundary. -/
structure RDouble where
  isNan : Bool
  isInf : Bool
  repr17 : Chars
deriving DecidableEq, Repr

namespace Encoder

/-- `Encoder::check_special_double` (toon_encoder.cpp:35): in strict
mode a NaN or infinity throws `ParseError` (the only exception class of
the source; its taxonomy tag is `PARSE_ERROR`). -/
def check_special_double (strict : Bool) (d : RDouble) : Except CppError Unit :=
  if strict then
    if d.isNan then Except.error { msg := "NaN values not allowed in strict mode".data }
    else if d.isInf then Except.error { msg := "Inf/-Inf values not allowed in strict mode".data }
    else Except.ok ()
  else Except.ok ()

/-- The `format_double` lambda of `Encoder::encode_double`
(toon_encoder.cpp:116): NaN and Inf go through `check_special_double`
and render as `null`; a finite value renders as its
`setprecision(17)` text with `".0"` appended when that text contains
neither `'.'` nor `'e'`. -/
def format_double (strict : Bool) (d : RDouble) : Except CppError Chars :=
  if d.isNan then do
    let _ ← check_special_double strict d
    Except.ok "null".data
  else if d.isInf then do
    let _ ← check_special_double strict d
    Except.ok "null".data
  else
    Except.ok
      (if !d.repr17.contains '.' && !d.repr17.contains 'e' then d.repr17 ++ ['.', '0']
       else d.repr17)

/-- The REALSXP case of `Encoder::encode_dataframe_tabular`
(toon_encoder.cpp:321): same NaN/Inf handling, but a finite value is
appended as the bare `setprecision(17)` text, with no `".0"` suffix
logic. -/
def tabular_double_cell (strict : Bool) (d : RDouble) : Except CppError Chars :=
  if d.isNan then do
    let _ ← check_special_double strict d
    Except.ok "null".data
  else if d.isInf then do
    let _ ← check_special_double strict d
    Except.ok "null".data
  else Except.ok d.repr17

end Encoder

/-! ## Claim C7: doubles in the tabular writer. -/

/-- C7 counterexample: the IEEE double 2.0 (whose `setprecision(17)`
default-format text is `"2"`) renders as `2.0` under the scalar rules
but as the bare `2` in a tabular row, so the tabular writer does not
follow the scalar rules. -/
theorem claim7_counterexample :
    Encoder.tabular_double_cell true { isNan := false, isInf := false, repr17 := ['2'] } =
      Except.ok ['2'] ∧
    Encoder.format_double true { isNan := false, isInf := false, repr17 := ['2'] } =
      Except.ok "2.0".data ∧
    (['2'] : Chars) ≠ "2.0".data := by
  decide

/-- C7 as amended: the tabular writer renders every finite double as
the bare 17-significant-digit text, omitting the scalar rule's `.0`
suffix; it agrees with the scalar rendering exactly when that text
already contains a `'.'` or an `'e'`. -/
theorem claim7_amended (strict : Bool) (d : RDouble)
    (h1 : d.isNan = false) (h2 : d.isInf = false) :
    Encoder.tabular_double_cell strict d = Except.ok d.repr17 ∧
    (Encoder.tabular_double_cell strict d = Encoder.format_double strict d ↔
      (d.repr17.contains '.' || d.repr17.contains 'e') = true) := by
  have ht : Encoder.tabular_double_cell strict d = Except.ok d.repr17 := by
    simp [Encoder.tabular_double_cell, h1, h2]
  refine ⟨ht, ?_⟩
  rw [ht]
  cases hdot : d.repr17.contains '.' <;> cases he : d.repr17.contains 'e' <;>
    simp at hdot he
  · have hfd : Encoder.format_double strict d = Except.ok (d.repr17 ++ ['.', '0']) := by
      simp [Encoder.format_double, h1, h2, hdot, he]
    rw [hfd]
    constructor
    · intro hcontra
      have h4 := congrArg List.length (Except.ok.inj hcontra)
      simp at h4
    · intro hcontra
      simp at hcontra
  all_goals
    have hfd : Encoder.format_double strict d = Except.ok d.repr17 := by
      simp [Encoder.format_double, h1, h2, hdot, he]
    rw [hfd]
    simp [hdot, he]

/-- Witness for `claim7_amended` at the finite double 99.5. -/
theorem claim7_witness :
    Encoder.tabular_double_cell true { isNan := false, isInf := false, repr17 := "99.5".data } =
      Except.ok ("99.5".data : Chars) ∧
    (Encoder.tabular_double_cell true { isNan := false, isInf := false, repr17 := "99.5".data } =
        Encoder.format_double true { isNan := false, isInf := false, repr17 := "99.5".data } ↔
      (("99.5".data : Chars).contains '.' || ("99.5".data : Chars).contains 'e') = true) :=
  claim7_amended true { isNan := false, isInf := false, repr17 := "99.5".data } rfl rfl

/-! ## Claim C8: strict-mode NaN at the encoder. -/

/-- C8 counterexample: encoding a NaN double in strict mode does raise
an error, but the exception the source constructs and throws is a
`ParseError` (taxonomy tag `PARSE_ERROR`); no `EncodingError` class
exists in the source, and the `ENCODING_ERROR` taxonomy tag is never
used. -/
theorem claim8_counterexample :
    Encoder.format_double true { isNan := true, isInf := false, repr17 := "nan".data } =
      Except.error { etype := ErrorType.PARSE_ERROR,
                     msg := "NaN values not allowed in strict mode".data } ∧
    ErrorType.PARSE_ERROR ≠ ErrorType.ENCODING_ERROR := by
  decide

/-- C8 as amended: encoding a NaN double raises an error exactly when
strict mode is enabled, and that error is the `ParseError` with message
"NaN values not allowed in strict mode"; with strict disabled the
encoder emits the literal `null` and no error is raised. -/
theorem claim8_amended (strict : Bool) (d : RDouble) (h : d.isNan = true) :
    Encoder.format_double strict d =
      (if strict then
        Except.error { etype := ErrorType.PARSE_ERROR,
                       msg := "NaN values not allowed in strict mode".data }
       else Except.ok "null".data) := by
  cases strict <;>
    simp [Encoder.format_double, Encoder.check_special_double, h, Bind.bind, Except.bind]

/-- Witness for `claim8_amended` at a concrete NaN in non-strict mode. -/
theorem claim8_witness :
    Encoder.format_double false { isNan := true, isInf := false, repr17 := "nan".data } =
      (if false then
        Except.error { etype := ErrorType.PARSE_ERROR,
                       msg := "NaN values not allowed in strict mode".data }
       else Except.ok "null".data) :=
  claim8_amended false { isNan := true, isInf := false, repr17 := "nan".data } rfl

/-! ## StreamWriter (toon_stream.cpp:376). -/

namespace StreamWriter

/-- A data.frame cell as `StreamWriter::write_row` reads it, per column
SEXP type; `none` is the respective NA.  `dbl` carries the abstract
double (R's `NA_real_` is a NaN, so the `ISNA || ISNAN` test is its
`isNan` field; `write_row` performs no infinity check). -/
inductive RCell : Type
  | lgl (v : Option Bool)
  | int (v : Option Int)
  | dbl (v : RDouble)
  | str (v : Option Chars)
  | other
deriving DecidableEq, Repr

/-- The escaping loop of `write_row`'s STRSXP case
(toon_stream.cpp:454): exactly the five named escapes, all other bytes
verbatim. -/
def escapeCellChars : Chars → Chars
  | [] => []
  | c :: rest =>
      (match c with
       | '"' => ['\\', '"']
       | '\\' => ['\\', '\\']
       | '\n' => ['\\', 'n']
       | '\r' => ['\\', 'r']
       | '\t' => ['\\', 't']
       | other => [other]) ++ escapeCellChars rest

/-- One cell's text in `write_row`. -/
def renderCell : RCell → Chars
  | RCell.lgl none => "null".data
  | RCell.lgl (some b) => if b then "true".data else "false".data
  | RCell.int none => "null".data
  | RCell.int (some v) => intDec v
  | RCell.dbl d => if d.isNan then "null".data else d.repr17
  | RCell.str none => "null".data
  | RCell.str (some sv) => '"' :: (escapeCellChars sv ++ ['"'])
  | RCell.other => "null".data

/-- One row's line in `write_row` (toon_stream.cpp:408): `indent_`
spaces, the cells separated by `", "`, a final newline.  Each call
increments `rows_written_` by one. -/
def rowText (indent : Nat) (row : List RCell) : Chars :=
  List.replicate indent ' ' ++ List.intercalate [',', ' '] (row.map renderCell) ++ ['\n']

/-- `StreamWriter::write_header` (toon_stream.cpp:394): the `[0]`
placeholder, the comma-separated schema in braces, `:` and a
newline. -/
def write_header (schema : List Chars) : Chars :=
  '[' :: '0' :: ']' :: '\x7b' ::
    (List.intercalate [','] schema ++ ('\x7d' :: ':' :: '\n' :: []))

/-- File content after a `StreamWriter` session of `write_batch` calls:
the header is written by the first `write_batch` (no call, no header),
and each batch appends one line per row. -/
def fileAfterBatches (schema : List Chars) (indent : Nat)
    (batches : List (List (List RCell))) : Chars :=
  if batches = [] then []
  else write_header schema ++ (batches.flatten.map (rowText indent)).flatten

/-- The find-and-replace of `StreamWriter::close` (toon_stream.cpp:504):
replace the first occurrence of the pattern, or leave the content
unchanged when it does not occur. -/
def replaceFirstGo (pat repl : Chars) : Chars → Chars
  | [] => []
  | c :: rest =>
      if pat.isPrefixOf (c :: rest) then repl ++ (c :: rest).drop pat.length
      else c :: replaceFirstGo pat repl rest

/-- `StreamWriter::close` (toon_stream.cpp:492): re-read the file and
patch the first `[0]` occurrence with `[rows_written_]`. -/
def closePatch (content : Chars) (rowsWritten : Nat) : Chars :=
  replaceFirstGo ['[', '0', ']'] ('[' :: (natDec rowsWritten ++ [']'])) content

end StreamWriter

/-! ## Claim C9: the close-time row-count patch. -/

/-- C9: for every session with at least one `write_batch` call writing
R rows in total, `close` rewrites the file so that the header's `[0]`
placeholder (the file's first `[0]` occurrence, since the header is the
start of the file) becomes `[R]` with R the decimal row count, and the
appended row lines are byte-for-byte unchanged. -/
theorem claim9_close_patches_header (schema : List Chars) (indent : Nat)
    (batches : List (List (List StreamWriter.RCell))) (h : batches ≠ []) :
    StreamWriter.closePatch (StreamWriter.fileAfterBatches schema indent batches)
        batches.flatten.length =
      ('[' :: (natDec batches.flatten.length ++ [']'])) ++
        ('\x7b' :: (List.intercalate [','] schema ++ ('\x7d' :: ':' :: '\n' :: []))) ++
        (batches.flatten.map (StreamWriter.rowText indent)).flatten := by
  have hfc : StreamWriter.fileAfterBatches schema indent batches =
      '[' :: '0' :: ']' ::
        ('\x7b' :: (List.intercalate [','] schema ++ ('\x7d' :: ':' :: '\n' :: [])) ++
          (batches.flatten.map (StreamWriter.rowText indent)).flatten) := by
    simp [StreamWriter.fileAfterBatches, StreamWriter.write_header, h]
  rw [hfc]
  simp [StreamWriter.closePatch, StreamWriter.replaceFirstGo, List.isPrefixOf]

/-- Witness for `claim9_close_patches_header`: one batch with one
integer row. -/
theorem claim9_witness :
    StreamWriter.closePatch
        (StreamWriter.fileAfterBatches [['a']] 2 [[[StreamWriter.RCell.int (some 1)]]])
        ([[[StreamWriter.RCell.int (some 1)]]] :
          List (List (List StreamWriter.RCell))).flatten.length =
      ('[' :: (natDec ([[[StreamWriter.RCell.int (some 1)]]] :
          List (List (List StreamWriter.RCell))).flatten.length ++ [']'])) ++
        ('\x7b' :: (List.intercalate [','] [['a']] ++ ('\x7d' :: ':' :: '\n' :: []))) ++
        (([[[StreamWriter.RCell.int (some 1)]]] :
          List (List (List StreamWriter.RCell))).flatten.map (StreamWriter.rowText 2)).flatten :=
  claim9_close_patches_header [['a']] 2 [[[StreamWriter.RCell.int (some 1)]]] (by decide)

/-! ## Tabular parsing: shared machinery (toon_df.cpp, toon_stream.cpp). -/

/-- The delimiter splitter shared (textually identical) by
`TabularParser::split_row` (toon_df.cpp:508), `RowStreamer::split_row`
(toon_stream.cpp:149) and `Parser::parse_tabular_row`
(toon_parser.cpp:489): split at unquoted delimiters, tracking
double-quote state and backslash escapes inside quotes; each field is
trimmed and keeps its quote and escape characters. -/
def splitRowGo (delim : Char) : Chars → Chars → Bool → Bool → List Chars
  | [], cur, _, _ => [ctrim cur.reverse]
  | c :: rest, cur, inStr, esc =>
      if esc then splitRowGo delim rest (c :: cur) inStr false
      else if c = '\\' && inStr then splitRowGo delim rest (c :: cur) inStr true
      else if c = '"' then splitRowGo delim rest (c :: cur) (!inStr) false
      else if !inStr && c = delim then
        ctrim cur.reverse :: splitRowGo delim rest [] inStr false
      else splitRowGo delim rest (c :: cur) inStr false

/-- Split a row line at unquoted delimiters. -/
def cppSplitRow (delim : Char) (line : Chars) : List Chars :=
  splitRowGo delim line [] false false

/-- Split at every occurrence of a character (`std::string_view::find`
loop of the field lists). -/
def splitOnChar (delim : Char) : Chars → List Chars
  | [] => [[]]
  | c :: rest =>
      if c = delim then [] :: splitOnChar delim rest
      else
        match splitOnChar delim rest with
        | [] => [[c]]
        | f :: fs => (c :: f) :: fs

/-- Split at the first occurrence of a character: `some (before, after)`
or `none` when absent (`find` returning `npos`). -/
def spanUntil (delim : Char) : Chars → Option (Chars × Chars)
  | [] => none
  | c :: rest =>
      if c = delim then some ([], rest)
      else (spanUntil delim rest).map fun p => (c :: p.1, p.2)

/-- The comma-separated field-name parse of the two `parse_header`
functions: split at commas, trim, drop empties. -/
def parseFieldNames (fieldsStr : Chars) : List Chars :=
  ((splitOnChar ',' fieldsStr).map ctrim).filter (· ≠ [])

/-- The header-text parse shared (textually identical) by
`TabularParser::parse_header` (toon_df.cpp:433) and
`RowStreamer::parse_header` (toon_stream.cpp:29): `[`, optional digits
(which overwrite the stored declared row count even when the rest of
the parse fails), `]`, `{fields}`; returns the updated declared count
and the field names on success. -/
def parseHeaderCore (declared0 : Nat) (header0 : Chars) : Nat × Option (List Chars) :=
  let header := ctrim header0
  match header with
  | '[' :: rest =>
      let digits := rest.takeWhile cIsDigit
      let declared := if digits ≠ [] then digitsVal digits else declared0
      match rest.dropWhile cIsDigit with
      | ']' :: '\x7b' :: rest2 =>
          match spanUntil '\x7d' rest2 with
          | none => (declared, none)
          | some (fieldsStr, _) =>
              let names := parseFieldNames fieldsStr
              (declared, if names = [] then none else some names)
      | _ => (declared, none)
  | _ => (declared0, none)

/-- First-match `force_type` application for one `col_types` entry (the
inner loop with `break` of toon_df.cpp:496 and toon_stream.cpp:212). -/
def forceFirst (cols : List ColBuilder) (name : Chars) (t : ColType) : List ColBuilder :=
  match cols with
  | [] => []
  | c :: rest => if c.name = name then c.force_type t :: rest else c :: forceFirst rest name t

/-- Apply all caller-supplied column types in order. -/
def applyColTypes (cts : List (Chars × ColType)) (cols : List ColBuilder) : List ColBuilder :=
  cts.foldl (fun cs p => forceFirst cs p.1 p.2) cols

/-- `TabularParseOptions` (toon_df.h) and, with `batch_size` passed
separately, `StreamOptions` (toon_stream.h). -/
structure TabOpts where
  strict : Bool := true
  allow_comments : Bool := true
  allow_duplicate_keys : Bool := true
  warn : Bool := true
  ragged_rows : Chars := "expand_warn".data
  n_mismatch : Chars := "warn".data
  max_extra_cols : Nat := 2 ^ 64 - 1
  key : Option Chars := none
  col_types : List (Chars × ColType) := []

/-- The skip test for an already-trimmed line: `#` or `//` comments when
comments are allowed (the trimmed line is known nonempty at the call
sites). -/
def isCommentTrimmed (opts : TabOpts) (t : Chars) : Bool :=
  opts.allow_comments && (t.headD ' ' = '#' || t.take 2 = ['/', '/'])

/-- The row-level trailing-comment strip shared by
`TabularParser::parse_rows` (toon_df.cpp:701) and `RowStreamer::stream`
(toon_stream.cpp:244): toggle on every quote (no escape handling), cut
and trim at the first unquoted `#`. -/
def rowStripGo : Chars → Chars → Bool → Chars
  | [], acc, _ => acc.reverse
  | c :: rest, acc, inStr =>
      let inStr2 := if c = '"' then !inStr else inStr
      if !inStr2 && c = '#' then ctrim acc.reverse
      else rowStripGo rest (c :: acc) inStr2

/-- Strip a trailing `#` comment from a row line. -/
def rowStripComment (content : Chars) : Chars := rowStripGo content [] false

/-- NA backfill of a freshly expanded column for all previously seen
rows. -/
def backfillNulls (b : ColBuilder) (rows : Nat) : ColBuilder :=
  (List.range rows).foldl (fun c r => c.set_null r) b

/-- The schema-expansion loop shared by `TabularParser::parse_row_line`
(toon_df.cpp:570) and `RowStreamer::stream` (toon_stream.cpp:276): for
each index from the current width up to the observed field count append
a column `V<i+1>`, NA-backfilled for the rows already in the current
accumulation unit. -/
def expandSchema (fieldNames : List Chars) (cols : List ColBuilder) (n backRows : Nat) :
    List Chars × List ColBuilder :=
  let start := cols.length
  (List.range (n - start)).foldl
    (fun acc j =>
      let newName := 'V' :: natDec (start + j + 1)
      (acc.1 ++ [newName], acc.2 ++ [backfillNulls (ColBuilder.fresh newName) backRows]))
    (fieldNames, cols)

/-- The store loop shared by both ingest paths: column `i` takes field
`i`, or NA when the row is short. -/
def storeFields (cols : List ColBuilder) (row : Nat) (fields : List Chars) : List ColBuilder :=
  (List.range cols.length).map fun i =>
    let c := cols.getD i (ColBuilder.fresh [])
    if i < fields.length then c.set row (fields.getD i []) else c.set_null row

/-- A materialised data.frame (`build_dataframe`, toon_df.cpp:823): the
finalized columns and the row count stamped into `row.names`. -/
structure Batch where
  cols : List FinCol
  nrow : Nat
deriving DecidableEq, Repr

/-- `build_dataframe`. -/
def build_dataframe (cols : List ColBuilder) (nrow : Nat) : Batch :=
  { cols := cols.map ColBuilder.finalize, nrow := nrow }

/-- The row sequence of a materialised table: row `r` pairs every
column's name and type with its cell at `r`. -/
def Batch.rows (b : Batch) : List (List (Chars × ColType × Cell)) :=
  (List.range b.nrow).map fun r => b.cols.map fun c => (c.name, c.type, c.cells.getD r Cell.null)

/-- The per-row ingestion state shared by `TabularParser::parse_row_line`
(toon_df.cpp:547) and the row-handling block of `RowStreamer::stream`
(toon_stream.cpp:256): the loops are textually identical except that the
streamer's accumulation unit is the current batch, so `rows` is
`observed_rows_` for the one-shot parser and `batch_rows_` for the
streamer. -/
structure IngestCore where
  field_names : List Chars
  cols : List ColBuilder
  rows : Nat
  min_fields : Nat
  max_fields : Nat
  schema_expansions : Nat
deriving DecidableEq, Repr

/-- Ingest one already-stripped row line: split, track min/max widths,
handle ragged rows (fatal under the "error" policy; bounded schema
expansion with NA backfill otherwise), store every column's value or
NA, and advance the unit's row count. -/
def ingestRowFields (opts : TabOpts) (file : Chars) (c : IngestCore) (line : Chars)
    (ln : Nat) : Except CppError IngestCore :=
  let fields := cppSplitRow ',' line
  let n := fields.length
  let c := { c with min_fields := min c.min_fields n, max_fields := max c.max_fields n }
  let est : Except CppError IngestCore :=
    if n ≠ c.cols.length then
      if opts.ragged_rows = "error".data then
        Except.error { msg := "Row has ".data ++ natDec n ++ " fields but expected ".data ++
                         natDec c.cols.length,
                       line := ln, file := file }
      else if c.cols.length < n then
        let extra := n - c.cols.length
        if opts.max_extra_cols < c.schema_expansions + extra then
          Except.error { msg := "max_extra_cols exceeded".data, line := ln, file := file }
        else
          let p := expandSchema c.field_names c.cols n c.rows
          Except.ok { c with field_names := p.1, cols := p.2,
                             schema_expansions := c.schema_expansions + extra }
      else Except.ok c
    else Except.ok c
  est.map fun c2 =>
    { c2 with cols := storeFields c2.cols c2.rows fields, rows := c2.rows + 1 }

/-! ## TabularParser (toon_df.cpp). -/

namespace TabularParser

/-- Mutable state of a `TabularParser` run. -/
structure TabState where
  field_names : List Chars
  columns : List ColBuilder
  declared_rows : Nat
  observed_rows : Nat := 0
  min_fields : Nat := 2 ^ 64 - 1
  max_fields : Nat := 0
  schema_expansions : Nat := 0
deriving DecidableEq, Repr

/-- The header-scan loop of `find_tabular_array` (toon_df.cpp:640):
first non-empty, non-comment line that starts with `[` and contains
both braces; returns it trimmed with its line number and the remaining
lines. -/
def scanHeader (opts : TabOpts) : List Chars → Nat → Option (Chars × Nat × List Chars)
  | [], _ => none
  | l :: rest, ln =>
      let t := ctrim l
      if t = [] then scanHeader opts rest (ln + 1)
      else if isCommentTrimmed opts t then scanHeader opts rest (ln + 1)
      else if t.headD ' ' = '[' ∧ t.contains '\x7b' ∧ t.contains '\x7d' then some (t, ln, rest)
      else scanHeader opts rest (ln + 1)

/-- The keyed search loop of `find_tabular_array` (toon_df.cpp:605):
find the first line whose trimmed text has `key` before its first
colon.  `none`: key never found.  `some (some (value, ln), rest)`: the
key's inline value starts with `[` and becomes the header line.
`some (none, rest, nextLn)`: key found without an inline header; the
scan continues below it. -/
def findKeyLoop (opts : TabOpts) (target : Chars) :
    List Chars → Nat → Option (Option (Chars × Nat) × List Chars × Nat)
  | [], _ => none
  | l :: rest, ln =>
      let t := ctrim l
      if t = [] then findKeyLoop opts target rest (ln + 1)
      else if isCommentTrimmed opts t then findKeyLoop opts target rest (ln + 1)
      else
        match spanUntil ':' t with
        | some (before, after) =>
            if ctrim before = target then
              let value := ctrim after
              if value ≠ [] ∧ value.headD ' ' = '[' then some (some (value, ln), rest, ln + 1)
              else some (none, rest, ln + 1)
            else findKeyLoop opts target rest (ln + 1)
        | none => findKeyLoop opts target rest (ln + 1)

/-- `TabularParser::find_tabular_array` (toon_df.cpp:597), combined
with the `parse_file` caller's "No tabular array found" error. -/
def find_tabular_array (opts : TabOpts) (file : Chars) (lines : List Chars) :
    Except CppError (Chars × Nat × List Chars) :=
  match opts.key with
  | some target =>
      match findKeyLoop opts target lines 1 with
      | none => Except.error { msg := "Key not found: ".data ++ target, file := file }
      | some (some hl, rest, _) => Except.ok (hl.1, hl.2, rest)
      | some (none, rest, nextLn) =>
          match scanHeader opts rest nextLn with
          | some r => Except.ok r
          | none => Except.error { msg := "No tabular array found".data, file := file }
  | none =>
      match scanHeader opts lines 1 with
      | some r => Except.ok r
      | none => Except.error { msg := "No tabular array found".data, file := file }

/-- `TabularParser::parse_header` (toon_df.cpp:433): the shared header
parse, then one fresh builder per field and the caller-supplied column
types applied first-match. -/
def parse_header (opts : TabOpts) (header : Chars) : Option (Nat × List Chars × List ColBuilder) :=
  match parseHeaderCore 0 header with
  | (declared, some names) =>
      some (declared, names, applyColTypes opts.col_types (names.map ColBuilder.fresh))
  | (_, none) => none

/-- The indent count of `parse_rows` (toon_df.cpp:670): spaces count
one; a TAB is fatal in strict mode and counts one otherwise. -/
def indentLoop (strict : Bool) (lineNo : Nat) : Chars → Except CppError Nat
  | [] => Except.ok 0
  | c :: rest =>
      if c = ' ' then (indentLoop strict lineNo rest).map (· + 1)
      else if c = '\t' then
        if strict then
          Except.error { msg := "Tab characters not allowed in indentation".data, line := lineNo }
        else (indentLoop strict lineNo rest).map (· + 1)
      else Except.ok 0

/-- The ingestion core of a `TabState`. -/
def TabState.core (st : TabState) : IngestCore :=
  { field_names := st.field_names, cols := st.columns, rows := st.observed_rows,
    min_fields := st.min_fields, max_fields := st.max_fields,
    schema_expansions := st.schema_expansions }

/-- `TabularParser::parse_row_line` (toon_df.cpp:547): the shared
per-row ingestion on the parser's whole-run state. -/
def parse_row_line (opts : TabOpts) (file : Chars) (st : TabState) (line : Chars)
    (lineNo : Nat) : Except CppError TabState :=
  (ingestRowFields opts file st.core line lineNo).map fun c =>
    { field_names := c.field_names, columns := c.cols, declared_rows := st.declared_rows,
      observed_rows := c.rows, min_fields := c.min_fields, max_fields := c.max_fields,
      schema_expansions := c.schema_expansions }

/-- `TabularParser::parse_rows` (toon_df.cpp:664); `parse_file` calls it
with `base_indent = -1`, so the dedent break never fires there. -/
def parse_rows (opts : TabOpts) (file : Chars) (baseIndent : Int) :
    List Chars → Nat → TabState → Except CppError TabState
  | [], _, st => Except.ok st
  | l :: rest, ln, st =>
      match indentLoop opts.strict ln l with
      | Except.error e => Except.error e
      | Except.ok indent =>
          let content := ctrim (l.drop indent)
          if content = [] then parse_rows opts file baseIndent rest (ln + 1) st
          else if isCommentTrimmed opts content then
            parse_rows opts file baseIndent rest (ln + 1) st
          else if 0 ≤ baseIndent ∧ (indent : Int) ≤ baseIndent then Except.ok st
          else
            match parse_row_line opts file st
                (if opts.allow_comments then rowStripComment content else content) ln with
            | Except.error e => Except.error e
            | Except.ok st2 => parse_rows opts file baseIndent rest (ln + 1) st2

/-- A completed one-shot tabular parse. -/
structure TabResult where
  df : Batch
  warnings : List Warning
deriving DecidableEq, Repr

/-- The `n_mismatch` warning text. -/
def nMismatchWarnMsg (declared observed : Nat) : Chars :=
  "Declared [".data ++ natDec declared ++ "] but observed ".data ++ natDec observed ++
    " rows; using observed.".data

/-- The `ragged_rows` warning text; `ncols` is `columns_.size()` in the
one-shot parser and `field_names_.size()` in the streamer (always the
same number). -/
def raggedWarnMsg (minF maxF expans ncols : Nat) : Chars :=
  "Tabular rows had inconsistent field counts (min=".data ++ natDec minF ++
    ", max=".data ++ natDec maxF ++ ").".data ++
    (if 0 < expans then " Schema expanded to ".data ++ natDec ncols ++ " columns;".data
     else []) ++
    " missing values filled with NA.".data

/-- `TabularParser::parse_file`/`parse_string` (toon_df.cpp:717, 772)
over the file's lines: locate the header, parse it, ingest every
remaining line, enforce or warn about the declared row count, warn
about ragged widths, and assemble the data.frame. -/
def run (opts : TabOpts) (file : Chars) (lines : List Chars) : Except CppError TabResult :=
  match find_tabular_array opts file lines with
  | Except.error e => Except.error e
  | Except.ok (header, headerLn, rest) =>
      match parse_header opts header with
      | none =>
          Except.error { msg := "Invalid tabular header".data, line := headerLn,
                         snippet := header, file := file }
      | some (declared, names, cols) =>
          match parse_rows opts file (-1) rest (headerLn + 1)
              { field_names := names, columns := cols, declared_rows := declared } with
          | Except.error e => Except.error e
          | Except.ok st =>
              if 0 < st.declared_rows ∧ st.observed_rows ≠ st.declared_rows ∧
                  opts.n_mismatch = "error".data then
                Except.error { msg := "Declared [".data ++ natDec st.declared_rows ++
                                 "] but observed ".data ++ natDec st.observed_rows ++
                                 " rows".data,
                               file := file }
              else
                Except.ok
                  { df := build_dataframe st.columns st.observed_rows,
                    warnings :=
                      (if 0 < st.declared_rows ∧ st.observed_rows ≠ st.declared_rows ∧
                          opts.warn then
                        [{ category := "n_mismatch".data,
                           message := nMismatchWarnMsg st.declared_rows st.observed_rows }]
                       else []) ++
                      (if st.min_fields ≠ st.max_fields ∧ opts.warn then
                        [{ category := "ragged_rows".data,
                           message := raggedWarnMsg st.min_fields st.max_fields
                             st.schema_expansions st.columns.length }]
                       else []) }

end TabularParser

/-! ## RowStreamer (toon_stream.cpp). -/

namespace RowStreamer

/-- Mutable state of a `RowStreamer::stream` run; `batches` records the
data.frames handed to the callback, in emission order. -/
structure StreamState where
  field_names : List Chars
  declared_rows : Nat
  observed_rows : Nat := 0
  batch_columns : List ColBuilder
  batch_rows : Nat := 0
  min_fields : Nat := 2 ^ 64 - 1
  max_fields : Nat := 0
  schema_expansions : Nat := 0
  batches : List Batch := []
deriving DecidableEq, Repr

/-- The header scan of `RowStreamer::find_tabular_header`
(toon_stream.cpp:127): like the one-shot scan, but a candidate line is
accepted only if `parse_header` succeeds on it; a failed attempt can
still overwrite the declared row count. -/
def scanHeaderRS (opts : TabOpts) :
    List Chars → Nat → Nat → Option (Nat × List Chars × List Chars × Nat)
  | [], _, _ => none
  | l :: rest, ln, declared =>
      let t := ctrim l
      if t = [] then scanHeaderRS opts rest (ln + 1) declared
      else if isCommentTrimmed opts t then scanHeaderRS opts rest (ln + 1) declared
      else if t.headD ' ' = '[' ∧ t.contains '\x7b' ∧ t.contains '\x7d' then
        match parseHeaderCore declared t with
        | (d2, some names) => some (d2, names, rest, ln + 1)
        | (d2, none) => scanHeaderRS opts rest (ln + 1) d2
      else scanHeaderRS opts rest (ln + 1) declared

/-- The keyed search of `RowStreamer::find_tabular_header`
(toon_stream.cpp:93): on the key line, an inline `[...` value is
accepted only if `parse_header` succeeds on it; otherwise the loop
breaks and the scan continues below. -/
def findKeyRS (opts : TabOpts) (target : Chars) :
    List Chars → Nat → Nat →
    Option (Option (Nat × List Chars) × Nat × List Chars × Nat)
  | [], _, _ => none
  | l :: rest, ln, d =>
      let t := ctrim l
      if t = [] then findKeyRS opts target rest (ln + 1) d
      else if isCommentTrimmed opts t then findKeyRS opts target rest (ln + 1) d
      else
        match spanUntil ':' t with
        | some (before, after) =>
            if ctrim before = target then
              let value := ctrim after
              if value ≠ [] ∧ value.headD ' ' = '[' then
                match parseHeaderCore d value with
                | (d2, some names) => some (some (d2, names), d2, rest, ln + 1)
                | (d2, none) => some (none, d2, rest, ln + 1)
              else some (none, d, rest, ln + 1)
            else findKeyRS opts target rest (ln + 1) d
        | none => findKeyRS opts target rest (ln + 1) d

/-- `RowStreamer::find_tabular_header`, with `stream()`'s "No tabular
array found" error. -/
def find_tabular_header (opts : TabOpts) (file : Chars) (lines : List Chars) :
    Except CppError (Nat × List Chars × List Chars × Nat) :=
  match opts.key with
  | some target =>
      match findKeyRS opts target lines 1 0 with
      | none => Except.error { msg := "Key not found: ".data ++ target, file := file }
      | some (some dn, _, rest, nextLn) => Except.ok (dn.1, dn.2, rest, nextLn)
      | some (none, d, rest, nextLn) =>
          match scanHeaderRS opts rest nextLn d with
          | some r => Except.ok r
          | none => Except.error { msg := "No tabular array found".data, file := file }
  | none =>
      match scanHeaderRS opts lines 1 0 with
      | some r => Except.ok r
      | none => Except.error { msg := "No tabular array found".data, file := file }

/-- The indent count of the stream loop (toon_stream.cpp:228): spaces
and TABs both count one; no strict-mode check. -/
def indentRS : Chars → Nat
  | [] => 0
  | c :: rest => if c = ' ' || c = '\t' then indentRS rest + 1 else 0

/-- One line of `RowStreamer::stream`'s main loop (toon_stream.cpp:225):
skip blanks and comments, strip a trailing comment, split, track
widths, handle ragged rows against the *batch* columns (backfilling
only the rows of the current batch), store, and flush a full batch ---
the fresh builders are created from `field_names_` alone; the
caller-forced column types are not re-applied (`streamLine` below). -/
def StreamState.core (st : StreamState) : IngestCore :=
  { field_names := st.field_names, cols := st.batch_columns, rows := st.batch_rows,
    min_fields := st.min_fields, max_fields := st.max_fields,
    schema_expansions := st.schema_expansions }

/-- One line of the stream loop. -/
def streamLine (opts : TabOpts) (batchSize : Nat) (file : Chars) (st : StreamState)
    (l : Chars) (ln : Nat) : Except CppError StreamState :=
  let indent := indentRS l
  let content := ctrim (l.drop indent)
  if content = [] then Except.ok st
  else if isCommentTrimmed opts content then Except.ok st
  else
    let content2 := if opts.allow_comments then rowStripComment content else content
    (ingestRowFields opts file st.core content2 ln).map fun c =>
      let st3 := { st with
        field_names := c.field_names,
        batch_columns := c.cols,
        batch_rows := c.rows,
        observed_rows := st.observed_rows + 1,
        min_fields := c.min_fields,
        max_fields := c.max_fields,
        schema_expansions := c.schema_expansions }
      if batchSize ≤ st3.batch_rows then
        { st3 with
          batches := st3.batches ++ [build_dataframe st3.batch_columns st3.batch_rows],
          batch_columns := st3.field_names.map ColBuilder.fresh,
          batch_rows := 0 }
      else st3

/-- The stream loop over all remaining lines. -/
def streamLines (opts : TabOpts) (batchSize : Nat) (file : Chars) :
    List Chars → Nat → StreamState → Except CppError StreamState
  | [], _, st => Except.ok st
  | l :: rest, ln, st =>
      match streamLine opts batchSize file st l ln with
      | Except.error e => Except.error e
      | Except.ok st2 => streamLines opts batchSize file rest (ln + 1) st2

/-- A completed streaming run: the emitted batches and the end-of-run
warnings. -/
structure StreamResult where
  batches : List Batch
  warnings : List Warning
deriving DecidableEq, Repr

/-- `RowStreamer::stream` (toon_stream.cpp:201) over the file's lines:
locate the header, create the builders and apply the caller-forced
types once, ingest every line with batch flushes, emit the final
partial batch, then the row-count and ragged checks. -/
def run (opts : TabOpts) (batchSize : Nat) (file : Chars) (lines : List Chars) :
    Except CppError StreamResult :=
  match find_tabular_header opts file lines with
  | Except.error e => Except.error e
  | Except.ok (declared, names, rest, nextLn) =>
      let cols := applyColTypes opts.col_types (names.map ColBuilder.fresh)
      match streamLines opts batchSize file rest nextLn
          { field_names := names, declared_rows := declared, batch_columns := cols } with
      | Except.error e => Except.error e
      | Except.ok st0 =>
          let st :=
            if 0 < st0.batch_rows then
              { st0 with batches :=
                  st0.batches ++ [build_dataframe st0.batch_columns st0.batch_rows] }
            else st0
          if 0 < st.declared_rows ∧ st.observed_rows ≠ st.declared_rows ∧
              opts.n_mismatch = "error".data then
            Except.error { msg := "Declared [".data ++ natDec st.declared_rows ++
                             "] but observed ".data ++ natDec st.observed_rows ++
                             " rows".data,
                           file := file }
          else
            Except.ok
              { batches := st.batches,
                warnings :=
                  (if 0 < st.declared_rows ∧ st.observed_rows ≠ st.declared_rows ∧
                      opts.warn then
                    [{ category := "n_mismatch".data,
                       message := TabularParser.nMismatchWarnMsg st.declared_rows
                         st.observed_rows }]
                   else []) ++
                  (if st.min_fields ≠ st.max_fields ∧ opts.warn then
                    [{ category := "ragged_rows".data,
                       message := TabularParser.raggedWarnMsg st.min_fields st.max_fields
                         st.schema_expansions st.field_names.length }]
                   else []) }

end RowStreamer

/-- Inversion of `Except.map` at a successful result. -/
theorem except_map_eq_ok {e a b : Type} {f : a → b} {x : Except e a} {y : b}
    (h : Except.map f x = Except.ok y) : ∃ v, x = Except.ok v ∧ f v = y := by
  cases x with
  | error err => simp [Except.map] at h
  | ok v => exact ⟨v, rfl, by simpa [Except.map] using h⟩

/-! ## Claim C6: builders after a batch flush. -/

/-- C6 counterexample: with `col_types = {a: STRING}` and
`batch_size = 1` on a two-row table, the first emitted batch carries
the forced STRING type but the second batch's column `a` is INTEGER:
the builders re-created at the flush do not inherit the caller-forced
type. -/
theorem claim6_counterexample :
    (RowStreamer.run { col_types := [(['a'], ColType.STRING)] } 1 []
        ["[2]\x7ba\x7d:".data, " 1".data, " 2".data]).map
      (fun r => r.batches.map fun b => b.cols.map fun c => (c.name, c.type)) =
      Except.ok [[(['a'], ColType.STRING)], [(['a'], ColType.INTEGER)]] ∧
    ColType.INTEGER ≠ ColType.STRING := by
  decide

/-- C6 as amended: whenever a line's processing flushes a batch, the
re-initialised builders are created from the current `field_names_`
alone --- they inherit the full current schema, including columns added
by ragged expansion on that very line, but every one of them restarts
at type UNKNOWN; caller-forced column types are not re-applied. -/
theorem claim6_amended (opts : TabOpts) (batchSize : Nat) (file : Chars)
    (st st2 : RowStreamer.StreamState) (l : Chars) (ln : Nat)
    (hok : RowStreamer.streamLine opts batchSize file st l ln = Except.ok st2)
    (hflush : st.batches.length < st2.batches.length) :
    st2.batch_columns = st2.field_names.map ColBuilder.fresh ∧
    st2.batch_columns.map ColBuilder.name = st2.field_names ∧
    (∀ c ∈ st2.batch_columns, c.type = ColType.UNKNOWN) := by
  have main : st2.batches = st.batches ∨
      st2.batch_columns = st2.field_names.map ColBuilder.fresh := by
    simp only [RowStreamer.streamLine] at hok
    split at hok
    · obtain rfl := Except.ok.inj hok; left; rfl
    split at hok
    · obtain rfl := Except.ok.inj hok; left; rfl
    obtain ⟨c, hc2, hfc⟩ := except_map_eq_ok hok
    subst hfc
    split
    · right; rfl
    · left; rfl
  rcases main with hsame | hmain
  · exact absurd (hsame ▸ hflush) (Nat.lt_irrefl _)
  · refine ⟨hmain, ?_, ?_⟩
    · rw [hmain]
      simp only [List.map_map]
      exact List.map_congr_left (fun a _ => rfl) |>.trans (List.map_id _)
    · rw [hmain]
      intro c hc
      simp only [List.mem_map] at hc
      obtain ⟨n, _, rfl⟩ := hc
      rfl

/-- The streamer state just before a one-row batch flush. -/
def flushSt0 : RowStreamer.StreamState := { field_names := [['a']], declared_rows := 1, batch_columns := [ColBuilder.fresh ['a']] }

/-- The state that flush produces: the batch is emitted and the
builders restart fresh. -/
def flushSt1 : RowStreamer.StreamState := { field_names := [['a']], declared_rows := 1, observed_rows := 1, batch_columns := [ColBuilder.fresh ['a']], batch_rows := 0, min_fields := 1, max_fields := 1, batches := [build_dataframe [(ColBuilder.fresh ['a']).set 0 ['1']] 1] }

/-- Witness for `claim6_amended`: a one-row batch flush. -/
theorem claim6_witness :
    flushSt1.batch_columns = flushSt1.field_names.map ColBuilder.fresh ∧
    flushSt1.batch_columns.map ColBuilder.name = flushSt1.field_names ∧
    (∀ c ∈ flushSt1.batch_columns, c.type = ColType.UNKNOWN) :=
  claim6_amended {} 1 [] flushSt0 flushSt1 "1".data 2 (by decide) (by decide)

/-! ## Claim C5: streaming equivalence with the one-shot parser. -/

/-- Alignment between a one-shot parser state and a streamer state in
which no batch has been flushed yet: the ingestion cores coincide (in
particular the streamer's batch holds exactly the rows seen so far). -/
def simRel (st : TabularParser.TabState) (ss : RowStreamer.StreamState) : Prop :=
  ss.core = st.core ∧ ss.observed_rows = st.observed_rows ∧
  ss.declared_rows = st.declared_rows ∧ ss.batches = []

/-- On a line with no TAB in it, the strict-aware indent count of the
one-shot parser succeeds with the streamer's count. -/
theorem indent_eq_of_no_tab (strict : Bool) (ln : Nat) (l : Chars) (h : '\t' ∉ l) :
    TabularParser.indentLoop strict ln l = Except.ok (RowStreamer.indentRS l) := by
  induction l with
  | nil => rfl
  | cons c rest ih =>
      have hc : ¬ c = '\t' := fun hh => h (hh ▸ List.mem_cons_self c rest)
      have hr : '\t' ∉ rest := fun hh => h (List.mem_cons_of_mem c hh)
      by_cases hsp : c = ' '
      · simp [TabularParser.indentLoop, RowStreamer.indentRS, hsp, ih hr, Except.map]
      · simp [TabularParser.indentLoop, RowStreamer.indentRS, hsp, hc]

/-- A successful row ingestion advances the unit's row count by one. -/
theorem ingest_rows_eq {opts : TabOpts} {file : Chars} {c : IngestCore} {line : Chars}
    {ln : Nat} {c2 : IngestCore}
    (h : ingestRowFields opts file c line ln = Except.ok c2) : c2.rows = c.rows + 1 := by
  simp only [ingestRowFields] at h
  obtain ⟨v, hv, hf⟩ := except_map_eq_ok h
  have hr : v.rows = c.rows := by
    repeat' split at hv
    any_goals exact Except.noConfusion hv
    all_goals obtain rfl := Except.ok.inj hv
    all_goals rfl
  subst hf
  simp [hr]

/-- A successful `parse_row_line` advances the observed row count by
one. -/
theorem parse_row_line_observed {opts : TabOpts} {file : Chars}
    {st : TabularParser.TabState} {line : Chars} {ln : Nat} {st2 : TabularParser.TabState}
    (h : TabularParser.parse_row_line opts file st line ln = Except.ok st2) :
    st2.observed_rows = st.observed_rows + 1 := by
  simp only [TabularParser.parse_row_line] at h
  obtain ⟨c, hc, hf⟩ := except_map_eq_ok h
  have hr := ingest_rows_eq hc
  subst hf
  simpa [TabularParser.TabState.core] using hr

/-- The observed row count never decreases along `parse_rows`. -/
theorem parse_rows_observed_mono (opts : TabOpts) (file : Chars) (bi : Int) :
    ∀ (lines : List Chars) (ln : Nat) (st stF : TabularParser.TabState),
      TabularParser.parse_rows opts file bi lines ln st = Except.ok stF →
      st.observed_rows ≤ stF.observed_rows := by
  intro lines
  induction lines with
  | nil =>
      intro ln st stF h
      obtain rfl := Except.ok.inj h
      exact Nat.le_refl _
  | cons l rest ih =>
      intro ln st stF h
      simp only [TabularParser.parse_rows] at h
      split at h
      · exact Except.noConfusion h
      · split at h
        · exact ih _ _ _ h
        split at h
        · exact ih _ _ _ h
        split at h
        · obtain rfl := Except.ok.inj h; exact Nat.le_refl _
        · split at h
          · exact Except.noConfusion h
          · rename_i st2 hp
            have h1 := parse_row_line_observed hp
            have h2 := ih _ _ _ h
            omega

/-- One data line, simulated: given aligned states and room in the
batch, the streamer processes the line to an aligned state (and to the
identical error when the one-shot parser fails). -/
theorem stream_data_step (opts : TabOpts) (bs : Nat) (file : Chars)
    (st : TabularParser.TabState) (ss : RowStreamer.StreamState) (l : Chars) (ln : Nat)
    (st2 : TabularParser.TabState)
    (hrel : simRel st ss)
    (hc1 : ¬ ctrim (l.drop (RowStreamer.indentRS l)) = [])
    (hc2 : ¬ isCommentTrimmed opts (ctrim (l.drop (RowStreamer.indentRS l))) = true)
    (hp : TabularParser.parse_row_line opts file st
        (if opts.allow_comments then rowStripComment (ctrim (l.drop (RowStreamer.indentRS l)))
         else ctrim (l.drop (RowStreamer.indentRS l))) ln = Except.ok st2)
    (hbs : st2.observed_rows < bs) :
    ∃ ss2, RowStreamer.streamLine opts bs file ss l ln = Except.ok ss2 ∧ simRel st2 ss2 := by
  obtain ⟨hcore, hobs, hdecl, hbat⟩ := hrel
  simp only [TabularParser.parse_row_line] at hp
  obtain ⟨c, hc, hf⟩ := except_map_eq_ok hp
  have hrows : c.rows = st.core.rows + 1 := ingest_rows_eq hc
  have hst2 : st2.observed_rows = c.rows := by subst hf; rfl
  have hnf : ¬ bs ≤ c.rows := by omega
  refine ⟨{ field_names := c.field_names, declared_rows := ss.declared_rows,
            observed_rows := ss.observed_rows + 1, batch_columns := c.cols,
            batch_rows := c.rows, min_fields := c.min_fields, max_fields := c.max_fields,
            schema_expansions := c.schema_expansions, batches := ss.batches }, ?_, ?_⟩
  · simp only [RowStreamer.streamLine, hc1, hc2, if_false, ite_false, hcore, hc,
      Except.map, hnf]
    simp
  · subst hf
    refine ⟨rfl, ?_, hdecl, hbat⟩
    have : st.core.rows = st.observed_rows := rfl
    simp only [hobs]
    omega

/-- The stream loop simulates `parse_rows` line by line while the total
row count stays below the batch size (so no flush fires). -/
theorem sim_lines (opts : TabOpts) (bs : Nat) (file : Chars) :
    ∀ (lines : List Chars) (ln : Nat) (st stF : TabularParser.TabState)
      (ss : RowStreamer.StreamState),
      simRel st ss → (∀ l ∈ lines, '\t' ∉ l) →
      TabularParser.parse_rows opts file (-1) lines ln st = Except.ok stF →
      stF.observed_rows < bs →
      ∃ ssF, RowStreamer.streamLines opts bs file lines ln ss = Except.ok ssF ∧
        simRel stF ssF := by
  intro lines
  induction lines with
  | nil =>
      intro ln st stF ss hrel htab h hb
      obtain rfl := Except.ok.inj h
      exact ⟨ss, rfl, hrel⟩
  | cons l rest ih =>
      intro ln st stF ss hrel htab h hb
      have htl : '\t' ∉ l := htab l (List.mem_cons_self l rest)
      have htr : ∀ x ∈ rest, '\t' ∉ x := fun x hx => htab x (List.mem_cons_of_mem l hx)
      simp only [TabularParser.parse_rows, indent_eq_of_no_tab opts.strict ln l htl] at h
      simp only [RowStreamer.streamLines]
      split at h
      case isTrue hcv =>
        have hsl : RowStreamer.streamLine opts bs file ss l ln = Except.ok ss := by
          simp [RowStreamer.streamLine, hcv]
        rw [hsl]
        exact ih (ln + 1) st stF ss hrel htr h hb
      case isFalse hcv =>
        split at h
        case isTrue hcm =>
          have hsl : RowStreamer.streamLine opts bs file ss l ln = Except.ok ss := by
            simp [RowStreamer.streamLine, hcv, hcm]
          rw [hsl]
          exact ih (ln + 1) st stF ss hrel htr h hb
        case isFalse hcm =>
          split at h
          case isTrue hded => exact absurd hded.1 (by decide)
          case isFalse hded =>
            cases hp : TabularParser.parse_row_line opts file st
                (if opts.allow_comments then
                  rowStripComment (ctrim (l.drop (RowStreamer.indentRS l)))
                 else ctrim (l.drop (RowStreamer.indentRS l))) ln with
            | error e => rw [hp] at h; exact Except.noConfusion h
            | ok st2 =>
                rw [hp] at h
                have hb2 : st2.observed_rows < bs :=
                  Nat.lt_of_le_of_lt (parse_rows_observed_mono opts file (-1) rest (ln + 1)
                    st2 stF h) hb
                obtain ⟨ss2, hsl, hrel2⟩ :=
                  stream_data_step opts bs file st ss l ln st2 hrel hcv hcm hp hb2
                rw [hsl]
                exact ih (ln + 1) st2 stF ss2 hrel2 htr h hb

/-- The keyless header scans agree: when the one-shot scan finds a
candidate header line that parses, the streamer's scan (which only
accepts parsing candidates) finds the same line with the same parse. -/
theorem scan_sim (opts : TabOpts) :
    ∀ (lines : List Chars) (ln : Nat) (header : Chars) (hLn : Nat) (rest : List Chars)
      (d : Nat) (names : List Chars),
      TabularParser.scanHeader opts lines ln = some (header, hLn, rest) →
      parseHeaderCore 0 header = (d, some names) →
      RowStreamer.scanHeaderRS opts lines ln 0 = some (d, names, rest, hLn + 1) := by
  intro lines
  induction lines with
  | nil =>
      intro ln header hLn rest d names h _
      exact Option.noConfusion h
  | cons l tl ih =>
      intro ln header hLn rest d names h hph
      simp only [TabularParser.scanHeader] at h
      simp only [RowStreamer.scanHeaderRS]
      split at h
      case isTrue hc =>
        rw [if_pos hc]
        exact ih _ _ _ _ _ _ h hph
      case isFalse hc =>
        rw [if_neg hc]
        split at h
        case isTrue hcm =>
          rw [if_pos hcm]
          exact ih _ _ _ _ _ _ h hph
        case isFalse hcm =>
          rw [if_neg hcm]
          split at h
          case isTrue hcand =>
            simp only [Option.some.injEq, Prod.mk.injEq] at h
            obtain ⟨h1, h2, h3⟩ := h
            subst h1; subst h2; subst h3
            rw [if_pos hcand, hph]
          case isFalse hcand =>
            rw [if_neg hcand]
            exact ih _ _ _ _ _ _ h hph

/-- The keyed searches agree when the key line carries an inline header
that parses. -/
theorem key_sim_inline (opts : TabOpts) (target : Chars) :
    ∀ (lines : List Chars) (ln : Nat) (value : Chars) (vln : Nat) (rest : List Chars)
      (nextLn : Nat) (d : Nat) (names : List Chars),
      TabularParser.findKeyLoop opts target lines ln =
        some (some (value, vln), rest, nextLn) →
      parseHeaderCore 0 value = (d, some names) →
      RowStreamer.findKeyRS opts target lines ln 0 =
        some (some (d, names), d, rest, nextLn) := by
  intro lines
  induction lines with
  | nil =>
      intro ln value vln rest nextLn d names h _
      exact Option.noConfusion h
  | cons l tl ih =>
      intro ln value vln rest nextLn d names h hph
      simp only [TabularParser.findKeyLoop] at h
      simp only [RowStreamer.findKeyRS]
      split at h
      case isTrue hc =>
        rw [if_pos hc]; exact ih _ _ _ _ _ _ _ h hph
      case isFalse hc =>
        rw [if_neg hc]
        split at h
        case isTrue hcm =>
          rw [if_pos hcm]; exact ih _ _ _ _ _ _ _ h hph
        case isFalse hcm =>
          rw [if_neg hcm]
          split at h
          case h_1 before after hspan =>
            split at h
            case isTrue hkey =>
              rw [if_pos hkey]
              split at h
              case isTrue hval =>
                simp only [Option.some.injEq, Prod.mk.injEq] at h
                obtain ⟨⟨h1, h2⟩, h3, h4⟩ := h
                subst h1; subst h2; subst h3; subst h4
                rw [if_pos hval, hph]
              case isFalse hval =>
                simp only [Option.some.injEq, Prod.mk.injEq] at h
                exact absurd h.1 (by simp)
            case isFalse hkey =>
              rw [if_neg hkey]; exact ih _ _ _ _ _ _ _ h hph
          case h_2 hspan =>
            exact ih _ _ _ _ _ _ _ h hph

/-- The keyed searches agree when the key line has no usable inline
header (the one-shot search breaks to the scan below, having never
touched the declared count; the streamer does the same). -/
theorem key_sim_break (opts : TabOpts) (target : Chars) :
    ∀ (lines : List Chars) (ln : Nat) (rest : List Chars) (nextLn : Nat),
      TabularParser.findKeyLoop opts target lines ln = some (none, rest, nextLn) →
      RowStreamer.findKeyRS opts target lines ln 0 = some (none, 0, rest, nextLn) := by
  intro lines
  induction lines with
  | nil => intro ln rest nextLn h; exact Option.noConfusion h
  | cons l tl ih =>
      intro ln rest nextLn h
      simp only [TabularParser.findKeyLoop] at h
      simp only [RowStreamer.findKeyRS]
      split at h
      case isTrue hc => rw [if_pos hc]; exact ih _ _ _ h
      case isFalse hc =>
        rw [if_neg hc]
        split at h
        case isTrue hcm => rw [if_pos hcm]; exact ih _ _ _ h
        case isFalse hcm =>
          rw [if_neg hcm]
          split at h
          case h_1 before after hspan =>
            split at h
            case isTrue hkey =>
              rw [if_pos hkey]
              split at h
              case isTrue hval =>
                simp only [Option.some.injEq, Prod.mk.injEq] at h
                exact absurd h.1 (by simp)
              case isFalse hval =>
                simp only [Option.some.injEq, Prod.mk.injEq] at h
                obtain ⟨_, h2, h3⟩ := h
                subst h2; subst h3
                rw [if_neg hval]
            case isFalse hkey =>
              rw [if_neg hkey]; exact ih _ _ _ h
          case h_2 hspan =>
            exact ih _ _ _ h

/-- In the keyed search, the continuation line number of an inline
match is the key line's successor. -/
theorem key_inline_next (opts : TabOpts) (target : Chars) :
    ∀ (lines : List Chars) (ln : Nat) (value : Chars) (vln : Nat) (rest : List Chars)
      (nextLn : Nat),
      TabularParser.findKeyLoop opts target lines ln =
        some (some (value, vln), rest, nextLn) →
      nextLn = vln + 1 := by
  intro lines
  induction lines with
  | nil => intro ln value vln rest nextLn h; exact Option.noConfusion h
  | cons l tl ih =>
      intro ln value vln rest nextLn h
      simp only [TabularParser.findKeyLoop] at h
      split at h
      · exact ih _ _ _ _ _ h
      split at h
      · exact ih _ _ _ _ _ h
      split at h
      case h_1 before after hspan =>
        split at h
        case isTrue hkey =>
          split at h
          case isTrue hval =>
            simp only [Option.some.injEq, Prod.mk.injEq] at h
            obtain ⟨⟨_, h2⟩, _, h4⟩ := h
            omega
          case isFalse hval =>
            simp only [Option.some.injEq, Prod.mk.injEq] at h
            exact absurd h.1 (by simp)
        case isFalse hkey => exact ih _ _ _ _ _ h
      case h_2 hspan => exact ih _ _ _ _ _ h

/-- When the one-shot header location and header parse both succeed,
the streamer locates and parses the same header, and its ingestion
starts on the same remaining lines with the same numbering. -/
theorem find_header_sim (opts : TabOpts) (file : Chars) (lines : List Chars)
    (header : Chars) (hLn : Nat) (rest : List Chars) (d : Nat) (names : List Chars)
    (cols : List ColBuilder)
    (hfa : TabularParser.find_tabular_array opts file lines = Except.ok (header, hLn, rest))
    (hph : TabularParser.parse_header opts header = some (d, names, cols)) :
    RowStreamer.find_tabular_header opts file lines = Except.ok (d, names, rest, hLn + 1) := by
  have hcore : parseHeaderCore 0 header = (d, some names) := by
    simp only [TabularParser.parse_header] at hph
    split at hph
    case h_1 d2 names2 heq =>
      simp only [Option.some.injEq, Prod.mk.injEq] at hph
      obtain ⟨h1, h2, _⟩ := hph
      subst h1; subst h2
      exact heq
    case h_2 => exact Option.noConfusion hph
  simp only [TabularParser.find_tabular_array] at hfa
  simp only [RowStreamer.find_tabular_header]
  cases hkey : opts.key with
  | none =>
      rw [hkey] at hfa
      dsimp only at hfa
      cases hscan : TabularParser.scanHeader opts lines 1 with
      | none => rw [hscan] at hfa; exact Except.noConfusion hfa
      | some r =>
          obtain ⟨a, b, c⟩ := r
          rw [hscan] at hfa
          simp only [Except.ok.injEq, Prod.mk.injEq] at hfa
          obtain ⟨h1, h2, h3⟩ := hfa
          subst h1; subst h2; subst h3
          rw [scan_sim opts lines 1 a b c d names hscan hcore]
  | some target =>
      rw [hkey] at hfa
      dsimp only at hfa
      cases hfind : TabularParser.findKeyLoop opts target lines 1 with
      | none => rw [hfind] at hfa; exact Except.noConfusion hfa
      | some r =>
          obtain ⟨inl, rest2, nl⟩ := r
          cases inl with
          | some hl =>
              obtain ⟨value, vln⟩ := hl
              rw [hfind] at hfa
              dsimp only at hfa
              simp only [Except.ok.injEq, Prod.mk.injEq] at hfa
              obtain ⟨h1, h2, h3⟩ := hfa
              subst h1; subst h2; subst h3
              have hnl : nl = vln + 1 :=
                key_inline_next opts target lines 1 value vln rest2 nl hfind
              dsimp only
              rw [key_sim_inline opts target lines 1 value vln rest2 nl d names hfind hcore]
              rw [hnl]
          | none =>
              rw [hfind] at hfa
              dsimp only at hfa
              cases hscan : TabularParser.scanHeader opts rest2 nl with
              | none => rw [hscan] at hfa; exact Except.noConfusion hfa
              | some r2 =>
                  obtain ⟨a, b, c⟩ := r2
                  rw [hscan] at hfa
                  simp only [Except.ok.injEq, Prod.mk.injEq] at hfa
                  obtain ⟨h1, h2, h3⟩ := hfa
                  subst h1; subst h2; subst h3
                  dsimp only
                  rw [key_sim_break opts target lines 1 rest2 nl hfind]
                  dsimp only
                  rw [scan_sim opts rest2 nl a b c d names hscan hcore]

/-- The scan returns a suffix of its input lines. -/
theorem scanHeader_rest_subset (opts : TabOpts) :
    ∀ (lines : List Chars) (ln : Nat) (h : Chars) (hLn : Nat) (rest : List Chars),
      TabularParser.scanHeader opts lines ln = some (h, hLn, rest) → rest ⊆ lines := by
  intro lines
  induction lines with
  | nil => intro ln h hLn rest hs; exact Option.noConfusion hs
  | cons l tl ih =>
      intro ln h hLn rest hs
      simp only [TabularParser.scanHeader] at hs
      split at hs
      · exact List.Subset.trans (ih _ _ _ _ hs) (List.subset_cons_self l tl)
      split at hs
      · exact List.Subset.trans (ih _ _ _ _ hs) (List.subset_cons_self l tl)
      split at hs
      · simp only [Option.some.injEq, Prod.mk.injEq] at hs
        obtain ⟨_, _, h3⟩ := hs
        subst h3
        exact List.subset_cons_self l tl
      · exact List.Subset.trans (ih _ _ _ _ hs) (List.subset_cons_self l tl)

/-- The keyed search returns a suffix of its input lines. -/
theorem findKeyLoop_rest_subset (opts : TabOpts) (target : Chars) :
    ∀ (lines : List Chars) (ln : Nat) (res : Option (Chars × Nat)) (rest : List Chars)
      (nl : Nat),
      TabularParser.findKeyLoop opts target lines ln = some (res, rest, nl) →
      rest ⊆ lines := by
  intro lines
  induction lines with
  | nil => intro ln res rest nl hs; exact Option.noConfusion hs
  | cons l tl ih =>
      intro ln res rest nl hs
      simp only [TabularParser.findKeyLoop] at hs
      split at hs
      · exact List.Subset.trans (ih _ _ _ _ hs) (List.subset_cons_self l tl)
      split at hs
      · exact List.Subset.trans (ih _ _ _ _ hs) (List.subset_cons_self l tl)
      split at hs
      case h_1 before after hspan =>
        split at hs
        case isTrue hkey =>
          split at hs <;>
          · simp only [Option.some.injEq, Prod.mk.injEq] at hs
            obtain ⟨_, h2, _⟩ := hs
            subst h2
            exact List.subset_cons_self l tl
        case isFalse hkey =>
          exact List.Subset.trans (ih _ _ _ _ hs) (List.subset_cons_self l tl)
      case h_2 hspan =>
        exact List.Subset.trans (ih _ _ _ _ hs) (List.subset_cons_self l tl)

/-- The located header's remaining lines are a subset of the input
lines. -/
theorem find_tabular_rest_subset (opts : TabOpts) (file : Chars) (lines : List Chars)
    (header : Chars) (hLn : Nat) (rest : List Chars)
    (hfa : TabularParser.find_tabular_array opts file lines =
      Except.ok (header, hLn, rest)) : rest ⊆ lines := by
  simp only [TabularParser.find_tabular_array] at hfa
  cases hkey : opts.key with
  | none =>
      rw [hkey] at hfa
      dsimp only at hfa
      cases hscan : TabularParser.scanHeader opts lines 1 with
      | none => rw [hscan] at hfa; exact Except.noConfusion hfa
      | some r =>
          obtain ⟨a, b, c⟩ := r
          rw [hscan] at hfa
          simp only [Except.ok.injEq, Prod.mk.injEq] at hfa
          obtain ⟨_, _, h3⟩ := hfa
          subst h3
          exact scanHeader_rest_subset opts lines 1 a b c hscan
  | some target =>
      rw [hkey] at hfa
      dsimp only at hfa
      cases hfind : TabularParser.findKeyLoop opts target lines 1 with
      | none => rw [hfind] at hfa; exact Except.noConfusion hfa
      | some r =>
          obtain ⟨inl, rest2, nl⟩ := r
          cases inl with
          | some hl =>
              rw [hfind] at hfa
              dsimp only at hfa
              simp only [Except.ok.injEq, Prod.mk.injEq] at hfa
              obtain ⟨_, _, h3⟩ := hfa
              subst h3
              exact findKeyLoop_rest_subset opts target lines 1 (some hl) rest2 nl hfind
          | none =>
              rw [hfind] at hfa
              dsimp only at hfa
              cases hscan : TabularParser.scanHeader opts rest2 nl with
              | none => rw [hscan] at hfa; exact Except.noConfusion hfa
              | some r2 =>
                  obtain ⟨a, b, c⟩ := r2
                  rw [hscan] at hfa
                  simp only [Except.ok.injEq, Prod.mk.injEq] at hfa
                  obtain ⟨_, _, h3⟩ := hfa
                  subst h3
                  exact List.Subset.trans
                    (scanHeader_rest_subset opts rest2 nl a b c hscan)
                    (findKeyLoop_rest_subset opts target lines 1 none rest2 nl hfind)

/-- The header parse's builders are exactly the freshly created,
caller-typed columns for its names. -/
theorem parse_header_cols (opts : TabOpts) (header : Chars) (declared : Nat)
    (names : List Chars) (cols : List ColBuilder)
    (h : TabularParser.parse_header opts header = some (declared, names, cols)) :
    cols = applyColTypes opts.col_types (names.map ColBuilder.fresh) := by
  simp only [TabularParser.parse_header] at h
  split at h
  case h_1 d ns heq =>
    simp only [Option.some.injEq, Prod.mk.injEq] at h
    obtain ⟨h1, h2, h3⟩ := h
    subst h2
    exact h3.symm
  case h_2 => exact Option.noConfusion h

/-- C5 counterexample: on a ragged input with `batch_size = 1`, both
reads succeed, but the batch emitted before the schema expansion lacks
the later column `V3`, so concatenating the streamed rows does not
reproduce `read_table`'s rows (whose first row carries `V3 = NA`). -/
theorem claim5_counterexample :
    ((TabularParser.run {} [] ["[2]\x7ba,b\x7d:".data, " 1, 2".data, " 3, 4, 5".data]).map
        fun t => t.df.rows) ≠
      ((RowStreamer.run {} 1 [] ["[2]\x7ba,b\x7d:".data, " 1, 2".data, " 3, 4, 5".data]).map
        fun s => (s.batches.map Batch.rows).flatten) ∧
    ((TabularParser.run {} [] ["[2]\x7ba,b\x7d:".data, " 1, 2".data, " 3, 4, 5".data]).map
        fun t => t.df.nrow) = Except.ok 2 ∧
    ((RowStreamer.run {} 1 [] ["[2]\x7ba,b\x7d:".data, " 1, 2".data, " 3, 4, 5".data]).map
        fun s => s.batches.length) = Except.ok 2 := by
  decide

/-- C5 as amended: the streamed batches' concatenated rows equal the
one-shot read's rows whenever the whole input fits in fewer rows than
one batch (so no mid-stream flush occurs).  With multiple batches the
sequences can differ: an already-emitted batch cannot contain columns
added by a later ragged expansion, and per-batch type inference restarts
at every flush (see the counterexample). -/
theorem claim5_amended (opts : TabOpts) (bs : Nat) (file : Chars) (lines : List Chars)
    (t : TabularParser.TabResult)
    (htab : ∀ l ∈ lines, '\t' ∉ l)
    (hok : TabularParser.run opts file lines = Except.ok t)
    (hlt : t.df.nrow < bs) :
    ∃ s, RowStreamer.run opts bs file lines = Except.ok s ∧
      (s.batches.map Batch.rows).flatten = t.df.rows := by
  simp only [TabularParser.run] at hok
  cases hfa : TabularParser.find_tabular_array opts file lines with
  | error e => rw [hfa] at hok; exact Except.noConfusion hok
  | ok r =>
  obtain ⟨header, hLn, rest⟩ := r
  rw [hfa] at hok
  dsimp only at hok
  cases hph : TabularParser.parse_header opts header with
  | none => rw [hph] at hok; exact Except.noConfusion hok
  | some p =>
  obtain ⟨declared, names, cols⟩ := p
  rw [hph] at hok
  dsimp only at hok
  obtain rfl := parse_header_cols opts header declared names cols hph
  cases hpr : TabularParser.parse_rows opts file (-1) rest (hLn + 1)
      { field_names := names,
        columns := applyColTypes opts.col_types (names.map ColBuilder.fresh),
        declared_rows := declared } with
  | error e => rw [hpr] at hok; exact Except.noConfusion hok
  | ok st =>
  rw [hpr] at hok
  dsimp only at hok
  split at hok
  case isTrue hnm => exact Except.noConfusion hok
  case isFalse hnm =>
  obtain rfl := Except.ok.inj hok
  have hb : st.observed_rows < bs := by simpa [build_dataframe] using hlt
  have htabrest : ∀ l ∈ rest, '\t' ∉ l := fun l hl =>
    htab l (find_tabular_rest_subset opts file lines header hLn rest hfa hl)
  obtain ⟨ssF, hsl, hcoreF, hobsF, hdeclF, hbatF⟩ :=
    sim_lines opts bs file rest (hLn + 1)
      { field_names := names,
        columns := applyColTypes opts.col_types (names.map ColBuilder.fresh),
        declared_rows := declared } st
      { field_names := names, declared_rows := declared,
        batch_columns := applyColTypes opts.col_types (names.map ColBuilder.fresh) }
      ⟨rfl, rfl, rfl, rfl⟩ htabrest hpr hb
  have hcols : ssF.batch_columns = st.columns := congrArg IngestCore.cols hcoreF
  have hrows : ssF.batch_rows = st.observed_rows := congrArg IngestCore.rows hcoreF
  have hfh := find_header_sim opts file lines header hLn rest declared names
    (applyColTypes opts.col_types (names.map ColBuilder.fresh)) hfa hph
  simp only [RowStreamer.run, hfh, hsl]
  by_cases hpos : 0 < ssF.batch_rows
  · rw [if_pos hpos]
    dsimp only
    rw [hdeclF, hobsF, if_neg hnm]
    refine ⟨_, rfl, ?_⟩
    dsimp only
    simp only [hbatF, hcols, hrows, List.nil_append, List.map_cons, List.map_nil,
      List.flatten_cons, List.flatten_nil, List.append_nil, build_dataframe]
  · rw [if_neg hpos]
    rw [hdeclF, hobsF, if_neg hnm]
    refine ⟨_, rfl, ?_⟩
    have hz : st.observed_rows = 0 := by omega
    simp [hbatF, build_dataframe, Batch.rows, hz]

/-- C5 witness: on the well-formed two-line table `[1]{a}:` / ` 7` with
`batch_size = 5` (one batch suffices), the streamer succeeds and its
concatenated batch rows are exactly the one-shot read's single row. -/
theorem claim5_witness :
    ∃ s, RowStreamer.run {} 5 [] ["[1]\x7ba\x7d:".data, " 7".data] = Except.ok s ∧
      (s.batches.map Batch.rows).flatten =
        [[(['a'], ColType.INTEGER, Cell.i 7)]] := by
  cases ht : TabularParser.run {} [] ["[1]\x7ba\x7d:".data, " 7".data] with
  | error e =>
      have h6 : ((TabularParser.run {} [] ["[1]\x7ba\x7d:".data, " 7".data]).map
          fun t => t.df.rows) = Except.ok [[(['a'], ColType.INTEGER, Cell.i 7)]] := by
        decide
      rw [ht] at h6
      exact Except.noConfusion h6
  | ok t =>
      have h6 : ((TabularParser.run {} [] ["[1]\x7ba\x7d:".data, " 7".data]).map
          fun t => t.df.rows) = Except.ok [[(['a'], ColType.INTEGER, Cell.i 7)]] := by
        decide
      have h7 : ((TabularParser.run {} [] ["[1]\x7ba\x7d:".data, " 7".data]).map
          fun t => t.df.nrow) = Except.ok 1 := by decide
      rw [ht] at h6 h7
      simp only [Except.map] at h6 h7
      obtain ⟨s, hs, hr⟩ := claim5_amended {} 5 [] ["[1]\x7ba\x7d:".data, " 7".data] t
        (by decide) ht (by rw [Except.ok.inj h7]; decide)
      exact ⟨s, hs, hr.trans (Except.ok.inj h6)⟩

/-! ## The DOM parser's value nodes and tabular rows (toon_parser.cpp). -/

/-- A DOM node (toon_parser.hpp:33): the parser's value tree.  The
kind-tagged C++ struct with its per-kind payload fields becomes an
inductive; doubles carry their provenance value. -/
inductive Node : Type
  | N_NULL : Node
  | N_BOOL (b : Bool) : Node
  | N_INT (v : Int) : Node
  | N_DOUBLE (d : DV) : Node
  | N_STRING (s : Chars) : Node
  | N_ARRAY (items : List Node) : Node
  | N_OBJECT (items : List (Chars × Node)) : Node

namespace Parser

/-- `Parser::parse_null` (toon_parser.cpp:313). -/
def parse_null (text : Chars) : Bool := text = "null".data

/-- `Parser::parse_bool` (toon_parser.cpp:317). -/
def parse_bool (text : Chars) : Option Bool :=
  if text = "true".data then some true
  else if text = "false".data then some false
  else none

/-- One hexadecimal digit's value. -/
def hexVal (c : Char) : Option Nat :=
  if '0' ≤ c ∧ c ≤ '9' then some (c.toNat - '0'.toNat)
  else if 'a' ≤ c ∧ c ≤ 'f' then some (c.toNat - 'a'.toNat + 10)
  else if 'A' ≤ c ∧ c ≤ 'F' then some (c.toNat - 'A'.toNat + 10)
  else none

/-- Base-16 `from_chars` over exactly four characters: parses the
longest hex-digit prefix, failing only when the first character is not
a hex digit. -/
def fromCharsHex4 (h1 h2 h3 h4 : Char) : Option Nat :=
  match hexVal h1 with
  | none => none
  | some v1 =>
      match hexVal h2 with
      | none => some v1
      | some v2 =>
          match hexVal h3 with
          | none => some (v1 * 16 + v2)
          | some v3 =>
              match hexVal h4 with
              | none => some (v1 * 256 + v2 * 16 + v3)
              | some v4 => some (v1 * 4096 + v2 * 256 + v3 * 16 + v4)

/-- The inline UTF-8 encoding of a BMP code point used by the `\u`
escape (toon_parser.cpp:396-409). -/
def utf8Enc (cp : Nat) : Chars :=
  if cp < 0x80 then [Char.ofNat cp]
  else if cp < 0x800 then
    [Char.ofNat (0xC0 ||| (cp >>> 6)), Char.ofNat (0x80 ||| (cp &&& 0x3F))]
  else
    [Char.ofNat (0xE0 ||| (cp >>> 12)), Char.ofNat (0x80 ||| ((cp >>> 6) &&& 0x3F)),
     Char.ofNat (0x80 ||| (cp &&& 0x3F))]

/-- The body of `Parser::parse_quoted_string`'s loop (toon_parser.cpp:378-432)
over the text between the outer quotes: a backslash with a following
character inside the span starts an escape; `\u` takes four in-span hex
characters and emits the UTF-8 bytes of the parsed prefix; failed or
truncated escapes are fatal in strict mode and literal otherwise (the
backslash is kept and scanning resumes at the next character). -/
def pqsGo (strict : Bool) : Chars → Option Chars
  | [] => some []
  | '\\' :: '"' :: rest => (pqsGo strict rest).map (fun r => '"' :: r)
  | '\\' :: '\\' :: rest => (pqsGo strict rest).map (fun r => '\\' :: r)
  | '\\' :: 'n' :: rest => (pqsGo strict rest).map (fun r => '\n' :: r)
  | '\\' :: 'r' :: rest => (pqsGo strict rest).map (fun r => '\r' :: r)
  | '\\' :: 't' :: rest => (pqsGo strict rest).map (fun r => '\t' :: r)
  | '\\' :: t1@('u' :: h1 :: h2 :: h3 :: h4 :: rest2) =>
      match fromCharsHex4 h1 h2 h3 h4 with
      | some cp => (pqsGo strict rest2).map (fun r => utf8Enc cp ++ r)
      | none =>
          if strict then none
          else (pqsGo strict t1).map (fun r => '\\' :: r)
  | '\\' :: t2@('u' :: _) =>
      if strict then none
      else (pqsGo strict t2).map (fun r => '\\' :: r)
  | '\\' :: t3@(_ :: _) =>
      if strict then none
      else (pqsGo strict t3).map (fun r => '\\' :: r)
  | c :: rest => (pqsGo strict rest).map (fun r => c :: r)

/-- `Parser::parse_quoted_string` (toon_parser.cpp:371): at least two
characters, a double quote at both ends, then the escape loop over the
inner span. -/
def parse_quoted_string (strict : Bool) (text : Chars) : Option Chars :=
  if text.length < 2 then none
  else
    match text with
    | '"' :: rest =>
        if rest.getLast? = some '"' then pqsGo strict rest.dropLast else none
    | _ => none

/-- `Parser::parse_primitive` (toon_parser.cpp:438): trim, then try
null, booleans, a quoted string when the text starts with `"` (in
non-strict mode an ill-formed quoted string falls back to the raw
text), a 32-bit integer, a double, and finally the raw text in
non-strict mode; `none` is the C++ nullptr ("not a primitive"). -/
def parse_primitive (strict : Bool) (text0 : Chars) : Option Node :=
  let text := ctrim text0
  if text = [] then none
  else if parse_null text then some Node.N_NULL
  else
    match parse_bool text with
    | some b => some (Node.N_BOOL b)
    | none =>
        if text.head? = some '"' then
          match parse_quoted_string strict text with
          | some s => some (Node.N_STRING s)
          | none => if !strict then some (Node.N_STRING text) else none
        else
          match parse_integer text with
          | some v => some (Node.N_INT v)
          | none =>
              match parse_number strict text with
              | some d => some (Node.N_DOUBLE d)
              | none => if !strict then some (Node.N_STRING text) else none

/-- The row-object construction in the tabular branch of
`Parser::parse_array` (toon_parser.cpp:939-945): the loop
`for i < fields.size() && i < header.fields.size()` pairs header names
with row fields positionally, each field parsed as a primitive with a
raw-string fallback; iteration stops at the shorter list, so extra row
fields are dropped without any further action. -/
def tabularRowLoop (strict : Bool) : List Chars → List Chars → List (Chars × Node)
  | f :: fs, h :: hs =>
      (h, match parse_primitive strict f with
          | some v => v
          | none => Node.N_STRING f) :: tabularRowLoop strict fs hs
  | _, _ => []

/-- The loop state of the tabular branch of `Parser::parse_array`
(toon_parser.cpp:907-956): the accumulated array items, the row
counter, and the parser's warning list. -/
structure DomArrState where
  items : List Node
  rows_seen : Nat
  warnings : List Warning

/-- One data-row iteration of the tabular loop (toon_parser.cpp:936-948):
split the content at unquoted delimiters, build the row object from the
header names and the fields, append it and count the row.  The header
is never modified and the iteration pushes no warning (the only tabular
warning, `n_mismatch`, is decided after the loop from the row count). -/
def tabularRowStep (strict : Bool) (delim : Char) (headerFields : List Chars)
    (st : DomArrState) (content : Chars) : DomArrState :=
  let fields := cppSplitRow delim content
  let row_obj := Node.N_OBJECT (tabularRowLoop strict fields headerFields)
  { st with items := st.items ++ [row_obj], rows_seen := st.rows_seen + 1 }

end Parser

/-- The row loop pairs names and fields up to the shorter list: the
object's length is the minimum of the two lengths and its keys are the
header names taken up to the field count. -/
theorem tabularRowLoop_spec (strict : Bool) : ∀ (fs hs : List Chars),
    (Parser.tabularRowLoop strict fs hs).length = min fs.length hs.length ∧
    (Parser.tabularRowLoop strict fs hs).map Prod.fst = hs.take fs.length := by
  intro fs
  induction fs with
  | nil =>
      intro hs
      cases hs <;> simp [Parser.tabularRowLoop]
  | cons f fs ih =>
      intro hs
      cases hs with
      | nil => simp [Parser.tabularRowLoop]
      | cons h hs =>
          have := ih hs
          simp [Parser.tabularRowLoop, this.1, this.2]
          omega

/-- C10 (confirmed): a tabular-array row with more fields than the
header silently drops the extra fields: the appended row object pairs
header names with fields positionally, has exactly
`min(fields, header fields)` entries — here all the header names — and
the step leaves the warning list untouched and the header unchanged (no
schema expansion: the keys are exactly the header's names). -/
theorem claim10_extra_fields_dropped (strict : Bool) (delim : Char)
    (hf : List Chars) (st : Parser.DomArrState) (content : Chars)
    (hgt : hf.length < (cppSplitRow delim content).length) :
    ∃ entries,
      (Parser.tabularRowStep strict delim hf st content).items =
        st.items ++ [Node.N_OBJECT entries] ∧
      entries.length = min (cppSplitRow delim content).length hf.length ∧
      entries.map Prod.fst = hf ∧
      (Parser.tabularRowStep strict delim hf st content).warnings = st.warnings ∧
      (Parser.tabularRowStep strict delim hf st content).rows_seen = st.rows_seen + 1 := by
  refine ⟨Parser.tabularRowLoop strict (cppSplitRow delim content) hf, rfl, ?_, ?_, rfl, rfl⟩
  · exact (tabularRowLoop_spec strict (cppSplitRow delim content) hf).1
  · rw [(tabularRowLoop_spec strict (cppSplitRow delim content) hf).2]
    exact List.take_of_length_le (Nat.le_of_lt hgt)

/-- C10 witness: the row `1, 2, 3` against the two-name header `a,b`
drops the third field, giving a two-entry object with keys `a`, `b` and
no warning. -/
theorem claim10_witness :
    ([['a'], ['b']] : List Chars).length < (cppSplitRow ',' "1, 2, 3".data).length ∧
    ∃ entries,
      (Parser.tabularRowStep true ',' [['a'], ['b']]
          { items := [], rows_seen := 0, warnings := [] } "1, 2, 3".data).items =
        [] ++ [Node.N_OBJECT entries] ∧
      entries.length = min (cppSplitRow ',' "1, 2, 3".data).length
        ([['a'], ['b']] : List Chars).length ∧
      entries.map Prod.fst = [['a'], ['b']] ∧
      (Parser.tabularRowStep true ',' [['a'], ['b']]
          { items := [], rows_seen := 0, warnings := [] } "1, 2, 3".data).warnings = [] ∧
      (Parser.tabularRowStep true ',' [['a'], ['b']]
          { items := [], rows_seen := 0, warnings := [] } "1, 2, 3".data).rows_seen = 0 + 1 :=
  ⟨by decide,
   claim10_extra_fields_dropped true ',' [['a'], ['b']]
     { items := [], rows_seen := 0, warnings := [] } "1, 2, 3".data (by decide)⟩

/-! ## The DOM parser's line classifier (toon_parser.cpp). -/

/-- `ParseOptions` (toon_parser.hpp:58) with its defaults. -/
structure ParseOptions where
  strict : Bool := true
  simplify : Bool := true
  allow_comments : Bool := true
  allow_duplicate_keys : Bool := true
  warn : Bool := true
deriving DecidableEq, Repr

/-- `LineType` (toon_parser.hpp:74). -/
inductive LineType : Type
  | EMPTY | COMMENT | LIST_ITEM | KEY_VALUE | KEY_NESTED
  | ARRAY_HEADER | TABULAR_HEADER | RAW_VALUE
deriving DecidableEq, Repr

/-- `TabularHeader` (toon_parser.hpp:66) with its defaults. -/
structure TabularHeader where
  declared_count : Nat := 0
  fields : List Chars := []
  delimiter : Char := ','
  is_tabular : Bool := false
deriving DecidableEq, Repr

/-- `LineInfo` (toon_parser.hpp:84). -/
structure LineInfo where
  type : LineType := LineType.EMPTY
  indent : Nat := 0
  content : Chars := []
  key : Chars := []
  value : Chars := []
  tabular : TabularHeader := {}
  line_no : Nat := 0
deriving DecidableEq, Repr

namespace Parser

/-- `Parser::count_indent` (toon_parser.cpp:67): count leading spaces,
a tab is fatal in strict mode (thrown with line number 0) and counts
one otherwise. -/
def count_indent (strict : Bool) : Chars → Except CppError Nat
  | [] => Except.ok 0
  | c :: rest =>
      if c = ' ' then (count_indent strict rest).map (· + 1)
      else if c = '\t' then
        if strict then
          Except.error
            { msg := "Tab characters not allowed in indentation (strict mode)".data }
        else (count_indent strict rest).map (· + 1)
      else Except.ok 0

/-- `Parser::is_comment_line` (toon_parser.cpp:101). -/
def is_comment_line (content : Chars) : Bool :=
  match ctrim content with
  | [] => false
  | '#' :: _ => true
  | '/' :: '/' :: _ => true
  | _ => false

/-- Whether the previous character exists and is whitespace (the
`i > 0 && isspace(content[i-1])` guard of the comment stripper). -/
def prevIsSpace : Option Char → Bool
  | some p => cIsSpace p
  | none => false

/-- The scan of `Parser::strip_trailing_comment` (toon_parser.cpp:109):
find the first `#`, or `//`, outside a string and preceded by
whitespace; `some prefix` is the text before it, `none` means no
trailing comment. -/
def stcGo : Chars → Option Char → Bool → Bool → Option Chars
  | [], _, _, _ => none
  | c :: rest, prev, inStr, esc =>
      if esc then (stcGo rest (some c) inStr false).map (c :: ·)
      else if c = '\\' && inStr then (stcGo rest (some c) inStr true).map (c :: ·)
      else if c = '"' then (stcGo rest (some c) (!inStr) false).map (c :: ·)
      else if !inStr && c = '#' && prevIsSpace prev then some []
      else if !inStr && c = '/' && rest.head? = some '/' && prevIsSpace prev then some []
      else (stcGo rest (some c) inStr false).map (c :: ·)

/-- `Parser::strip_trailing_comment` (toon_parser.cpp:109). -/
def strip_trailing_comment (allow_comments : Bool) (content : Chars) : Chars :=
  if !allow_comments then content
  else
    match stcGo content none false false with
    | some pre => trimRight pre
    | none => content

/-- The unquoted-colon scan of `Parser::classify_line`
(toon_parser.cpp:192-218): `some (before, after)` splits at the first
colon outside a string. -/
def keySplit : Chars → Bool → Bool → Option (Chars × Chars)
  | [], _, _ => none
  | c :: rest, inStr, esc =>
      if esc then (keySplit rest inStr false).map (fun p => (c :: p.1, p.2))
      else if c = '\\' && inStr then (keySplit rest inStr true).map (fun p => (c :: p.1, p.2))
      else if c = '"' then (keySplit rest (!inStr) false).map (fun p => (c :: p.1, p.2))
      else if !inStr && c = ':' then some ([], rest)
      else (keySplit rest inStr false).map (fun p => (c :: p.1, p.2))

/-- `Parser::parse_array_header` (toon_parser.cpp:246): `[N]` with an
optional digit run (a count that would overflow `size_t` leaves the
default 0), then an optional `{field,...}` block that makes the header
tabular; fields are comma-split, trimmed, empties dropped.  The
trailing-colon check is a no-op in the source. -/
def parse_array_header (text : Chars) : TabularHeader :=
  match text with
  | '[' :: afterBracket =>
      let ds := afterBracket.takeWhile cIsDigit
      let declared := if ds ≠ [] ∧ digitsVal ds < 2 ^ 64 then digitsVal ds else 0
      let afterNum := afterBracket.dropWhile cIsDigit
      match afterNum with
      | ']' :: afterClose =>
          match afterClose with
          | '\x7b' :: afterBrace =>
              if afterBrace.contains '\x7d' then
                let inner := afterBrace.takeWhile (· ≠ '\x7d')
                let fields := ((splitOnChar ',' inner).map ctrim).filter (· ≠ [])
                { declared_count := declared, fields := fields, is_tabular := true }
              else { declared_count := declared, is_tabular := true }
          | _ => { declared_count := declared }
      | _ => { declared_count := declared }
  | _ => {}

/-- `Parser::classify_line` (toon_parser.cpp:151): indent, then empty,
comment-only, list item, array header, key/value (splitting at the
first unquoted colon, unquoting the key, empty rest making the key
nested), or raw value. -/
def classify_line (opts : ParseOptions) (line : Chars) (lineNo : Nat) :
    Except CppError LineInfo :=
  (count_indent opts.strict line).bind fun ind =>
    let content := line.drop ind
    if content = [] then
      Except.ok { type := LineType.EMPTY, indent := ind, content := content, line_no := lineNo }
    else if opts.allow_comments && is_comment_line content then
      Except.ok { type := LineType.COMMENT, indent := ind, content := content, line_no := lineNo }
    else
      let c2 := strip_trailing_comment opts.allow_comments content
      match c2 with
      | '-' :: ' ' :: restListItem =>
          Except.ok { type := LineType.LIST_ITEM, indent := ind, content := content,
                      value := ctrim restListItem, line_no := lineNo }
      | _ =>
          if c2.head? = some '[' then
            let header := parse_array_header c2
            Except.ok { type := if header.is_tabular then LineType.TABULAR_HEADER
                          else LineType.ARRAY_HEADER,
                        indent := ind, content := content, tabular := header,
                        line_no := lineNo }
          else
            match keySplit c2 false false with
            | some (before, after) =>
                let key0 := ctrim before
                let key :=
                  if 2 ≤ key0.length ∧ key0.head? = some '"' ∧ key0.getLast? = some '"' then
                    (key0.drop 1).dropLast
                  else key0
                let after2 := ctrim after
                if after2 = [] then
                  Except.ok { type := LineType.KEY_NESTED, indent := ind, content := content,
                              key := key, line_no := lineNo }
                else
                  Except.ok { type := LineType.KEY_VALUE, indent := ind, content := content,
                              key := key, value := after2, line_no := lineNo }
            | none =>
                Except.ok { type := LineType.RAW_VALUE, indent := ind, content := content,
                            value := ctrim c2, line_no := lineNo }

end Parser

/-- The line iteration of `BufferedReader::next_line` over string input
(toon_io.cpp:59): split at newlines; a trailing newline produces no
final empty line; a line's trailing `\r` is removed (`handle_crlf`). -/
def splitLinesRaw : Chars → List Chars
  | [] => []
  | c :: rest =>
      if c = '\n' then [] :: splitLinesRaw rest
      else
        match splitLinesRaw rest with
        | [] => [[c]]
        | l :: ls => (c :: l) :: ls

/-- Remove one trailing carriage return (`handle_crlf`). -/
def stripCR (l : Chars) : Chars :=
  if l.getLast? = some '\r' then l.dropLast else l

/-- The lines a `BufferedReader` yields for a string input. -/
def splitLines (s : Chars) : List Chars :=
  (splitLinesRaw s).map stripCR

/-- The reader-plus-peek state threaded through the DOM parser: the
remaining lines, the 1-based number of the last delivered line, and the
`has_peeked_`/`peeked_line_` pair (toon_parser.hpp). -/
structure PState where
  lines : List Chars
  line_no : Nat := 0
  has_peeked : Bool := false
  peeked : LineInfo := {}
  warnings : List Warning := []
deriving DecidableEq, Repr

/-- `BufferedReader::next_line`: pop the next line, if any. -/
def PState.next_line (st : PState) : Option (Chars × Nat × PState) :=
  match st.lines with
  | [] => none
  | l :: rest =>
      some (l, st.line_no + 1,
        { st with lines := rest, line_no := st.line_no + 1 })

namespace Parser

/-- `Parser::error` (toon_parser.cpp:528). -/
def perror (msg : Chars) (line : Nat) : CppError :=
  { msg := msg, line := line }

mutual

/-- `Parser::parse_value` (toon_parser.cpp:590).  The `while(true)`
skip loop re-enters the function (its state is entirely in the reader
and peek), so every iteration and every nested call spends one unit of
fuel; the driver passes more fuel than any run can use, so the
fuel-exhausted error is unreachable from it. -/
def parse_value (fuel : Nat) (opts : ParseOptions) (st : PState) (parent_indent : Int) :
    Except CppError (Option Node × PState) :=
  match fuel with
  | 0 => Except.error { msg := "parser fuel exhausted".data }
  | fuel + 1 =>
    if st.has_peeked then
      let st1 := { st with has_peeked := false }
      if st1.peeked.type = LineType.EMPTY ∨ st1.peeked.type = LineType.COMMENT then
        parse_value fuel opts st1 parent_indent
      else
        let info := st1.peeked
        if (info.indent : Int) ≤ parent_indent then
          Except.ok (none, { st1 with has_peeked := true })
        else
          match info.type with
          | LineType.KEY_VALUE | LineType.KEY_NESTED =>
              (parse_object fuel opts st1 parent_indent info).map
                fun r => (some r.1, r.2)
          | LineType.LIST_ITEM =>
              if info.value ≠ [] then
                match parse_primitive opts.strict info.value with
                | some _ =>
                    (parse_array fuel opts st1 parent_indent {}).map
                      fun r => (some r.1, r.2)
                | none =>
                    let pk := { info with type := LineType.RAW_VALUE, value := info.value, indent := info.indent + 2 }
                    let st2 := { st1 with has_peeked := true, peeked := pk }
                    (parse_value fuel opts st2 (info.indent : Int)).bind fun r =>
                      (parse_array fuel opts r.2 parent_indent {}).map
                        fun r2 => (some r2.1, r2.2)
              else
                (parse_value fuel opts st1 (info.indent : Int)).bind fun r =>
                  (parse_array fuel opts r.2 parent_indent {}).map
                    fun r2 => (some r2.1, r2.2)
          | LineType.ARRAY_HEADER | LineType.TABULAR_HEADER =>
              (parse_array fuel opts st1 parent_indent info.tabular).map
                fun r => (some r.1, r.2)
          | LineType.RAW_VALUE =>
              match parse_primitive opts.strict info.value with
              | some p => Except.ok (some p, st1)
              | none =>
                  Except.error (perror ("Invalid value: ".data ++ info.value) info.line_no)
          | _ => Except.ok (none, st1)
    else
      match st.next_line with
      | none => Except.ok (none, st)
      | some (line, ln, st1) =>
          (classify_line opts line ln).bind fun info =>
            if info.type = LineType.EMPTY ∨ info.type = LineType.COMMENT then
              parse_value fuel opts st1 parent_indent
            else if (info.indent : Int) ≤ parent_indent then
              Except.ok (none, { st1 with has_peeked := true, peeked := info })
            else
              match info.type with
              | LineType.KEY_VALUE | LineType.KEY_NESTED =>
                  (parse_object fuel opts { st1 with peeked := info } parent_indent
                      info).map fun r => (some r.1, r.2)
              | LineType.LIST_ITEM =>
                  let first :=
                    if info.value ≠ [] then
                      match parse_primitive opts.strict info.value with
                      | some v => Except.ok ([v], st1)
                      | none => Except.ok ([Node.N_STRING info.value], st1)
                    else
                      (parse_value fuel opts st1 (info.indent : Int)).map fun r =>
                        ([r.1.getD Node.N_NULL], r.2)
                  first.bind fun r =>
                    (parse_list_items fuel opts r.2 parent_indent (info.indent : Int)
                        r.1).map fun r2 => (some (Node.N_ARRAY r2.1), r2.2)
              | LineType.ARRAY_HEADER | LineType.TABULAR_HEADER =>
                  (parse_array fuel opts { st1 with has_peeked := true, peeked := info }
                      parent_indent info.tabular).map fun r => (some r.1, r.2)
              | LineType.RAW_VALUE =>
                  match parse_primitive opts.strict info.value with
                  | some p => Except.ok (some p, st1)
                  | none => Except.error (perror ("Invalid value: ".data ++ info.value) ln)
              | _ => Except.ok (none, st1)

/-- The `while` loop continuing a non-peeked list (toon_parser.cpp:708-746). -/
def parse_list_items (fuel : Nat) (opts : ParseOptions) (st : PState)
    (parent_indent : Int) (list_indent : Int) (acc : List Node) :
    Except CppError (List Node × PState) :=
  match fuel with
  | 0 => Except.error { msg := "parser fuel exhausted".data }
  | fuel + 1 =>
    match st.next_line with
    | none => Except.ok (acc, st)
    | some (line, ln, st1) =>
        (classify_line opts line ln).bind fun info =>
          if info.type = LineType.EMPTY ∨ info.type = LineType.COMMENT then
            parse_list_items fuel opts st1 parent_indent list_indent acc
          else if (info.indent : Int) ≤ parent_indent then
            Except.ok (acc, { st1 with has_peeked := true, peeked := info })
          else if info.type ≠ LineType.LIST_ITEM ∨ (info.indent : Int) ≠ list_indent then
            Except.ok (acc, { st1 with has_peeked := true, peeked := info })
          else
            if info.value ≠ [] then
              let item :=
                match parse_primitive opts.strict info.value with
                | some v => v
                | none => Node.N_STRING info.value
              parse_list_items fuel opts st1 parent_indent list_indent (acc ++ [item])
            else
              (parse_value fuel opts st1 (info.indent : Int)).bind fun r =>
                parse_list_items fuel opts r.2 parent_indent list_indent
                  (acc ++ [r.1.getD Node.N_NULL])

/-- The `process_key_value` lambda of `Parser::parse_object`
(toon_parser.cpp:784-834), returning the updated items, seen-key set,
duplicate counts and state. -/
def process_key_value (fuel : Nat) (opts : ParseOptions) (st : PState) (kv : LineInfo)
    (items : List (Chars × Node)) (seen : List Chars) (dups : List (Chars × Nat)) :
    Except CppError (List (Chars × Node) × List Chars × List (Chars × Nat) × PState) :=
  match fuel with
  | 0 => Except.error { msg := "parser fuel exhausted".data }
  | fuel + 1 =>
    let key := kv.key
    (if seen.contains key then
      if !opts.allow_duplicate_keys then
        Except.error (perror ("Duplicate key: ".data ++ key) kv.line_no)
      else
        let dups2 :=
          if opts.warn then
            if dups.any (fun p => p.1 = key) then
              dups.map fun p => if p.1 = key then (p.1, p.2 + 1) else p
            else dups ++ [(key, 1)]
          else dups
        Except.ok (items.eraseP (fun p => p.1 = key), dups2)
    else Except.ok (items, dups)).bind fun r =>
      let items1 := r.1
      let dups1 := r.2
      let seen1 := if seen.contains key then seen else key :: seen
      (if kv.type = LineType.KEY_VALUE then
        match parse_primitive opts.strict kv.value with
        | some v => Except.ok (v, st)
        | none =>
            if kv.value.head? = some '[' then
              let header := parse_array_header kv.value
              if 0 < header.declared_count ∨ header.is_tabular then
                let ptype := if header.is_tabular then LineType.TABULAR_HEADER
                  else LineType.ARRAY_HEADER
                let pk := { st.peeked with type := ptype, tabular := header, indent := kv.indent + 2 }
                let st2 := { st with has_peeked := true, peeked := pk }
                parse_array fuel opts st2 (kv.indent : Int) header
              else Except.ok (Node.N_STRING kv.value, st)
            else Except.ok (Node.N_STRING kv.value, st)
      else
        (parse_value fuel opts st (kv.indent : Int)).map fun r2 =>
          (r2.1.getD Node.N_NULL, r2.2)).map fun r2 =>
        (items1 ++ [(key, r2.1)], seen1, dups1, r2.2)

/-- The key-value loop of `Parser::parse_object` (toon_parser.cpp:840-875)
plus the duplicate-key warning emission (877-887); the C++ iterates an
`unordered_map` whose order is unspecified, here modelled in first-seen
order. -/
def parse_object_loop (fuel : Nat) (opts : ParseOptions) (st : PState)
    (parent_indent : Int) (obj_indent : Nat) (items : List (Chars × Node))
    (seen : List Chars) (dups : List (Chars × Nat)) :
    Except CppError (Node × PState) :=
  match fuel with
  | 0 => Except.error { msg := "parser fuel exhausted".data }
  | fuel + 1 =>
    let finish := fun (stF : PState) =>
      let parts : List Chars :=
        dups.map fun p => p.1 ++ " (".data ++ natDec (p.2 + 1) ++ " times)".data
      let dupMsg : Chars :=
        "Duplicate keys found: ".data ++ (List.intersperse ", ".data parts).flatten
      let warns2 :=
        if opts.warn ∧ dups ≠ [] then
          stF.warnings ++ [{ category := "duplicate_key".data, message := dupMsg }]
        else stF.warnings
      Except.ok (Node.N_OBJECT items, { stF with warnings := warns2 })
    let step := fun (info : LineInfo) (st1 : PState) =>
      if info.type = LineType.EMPTY ∨ info.type = LineType.COMMENT then
        parse_object_loop fuel opts st1 parent_indent obj_indent items seen dups
      else if (info.indent : Int) ≤ parent_indent then
        finish { st1 with has_peeked := true, peeked := info }
      else if info.indent ≠ obj_indent then
        finish { st1 with has_peeked := true, peeked := info }
      else if info.type ≠ LineType.KEY_VALUE ∧ info.type ≠ LineType.KEY_NESTED then
        finish { st1 with has_peeked := true, peeked := info }
      else
        (process_key_value fuel opts st1 info items seen dups).bind fun r =>
          parse_object_loop fuel opts r.2.2.2 parent_indent obj_indent r.1 r.2.1
            r.2.2.1
    if st.has_peeked then
      step st.peeked { st with has_peeked := false }
    else
      match st.next_line with
      | none => finish st
      | some (line, ln, st1) =>
          (classify_line opts line ln).bind fun info => step info st1

/-- `Parser::parse_object` (toon_parser.cpp:771): process the first
key (from the caller's peeked line info), then loop. -/
def parse_object (fuel : Nat) (opts : ParseOptions) (st : PState)
    (parent_indent : Int) (firstInfo : LineInfo) :
    Except CppError (Node × PState) :=
  match fuel with
  | 0 => Except.error { msg := "parser fuel exhausted".data }
  | fuel + 1 =>
    (process_key_value fuel opts st firstInfo [] [] []).bind fun r =>
      parse_object_loop fuel opts r.2.2.2 parent_indent firstInfo.indent r.1 r.2.1
        r.2.2.1

/-- The tabular-row loop of `Parser::parse_array` (toon_parser.cpp:910-949). -/
def parse_array_tab (fuel : Nat) (opts : ParseOptions) (st : PState)
    (parent_indent : Int) (header : TabularHeader) (arr_indent : Int)
    (items : List Node) (rows : Nat) :
    Except CppError (List Node × Nat × PState) :=
  match fuel with
  | 0 => Except.error { msg := "parser fuel exhausted".data }
  | fuel + 1 =>
    match st.next_line with
    | none => Except.ok (items, rows, st)
    | some (line, ln, st1) =>
        (classify_line opts line ln).bind fun info =>
          if info.type = LineType.EMPTY ∨ info.type = LineType.COMMENT then
            parse_array_tab fuel opts st1 parent_indent header arr_indent items rows
          else
            let arr_indent2 := if arr_indent < 0 then (info.indent : Int) else arr_indent
            if (info.indent : Int) ≤ parent_indent then
              Except.ok (items, rows, { st1 with has_peeked := true, peeked := info })
            else if (info.indent : Int) < arr_indent2 then
              Except.ok (items, rows, { st1 with has_peeked := true, peeked := info })
            else
              let fields := cppSplitRow header.delimiter info.content
              let row := Node.N_OBJECT (tabularRowLoop opts.strict fields header.fields)
              parse_array_tab fuel opts st1 parent_indent header arr_indent2
                (items ++ [row]) (rows + 1)

/-- The non-tabular item loop of `Parser::parse_array`
(toon_parser.cpp:959-1033), handling a peeked line first. -/
def parse_array_items (fuel : Nat) (opts : ParseOptions) (st : PState)
    (parent_indent : Int) (arr_indent : Int) (items : List Node) :
    Except CppError (List Node × PState) :=
  match fuel with
  | 0 => Except.error { msg := "parser fuel exhausted".data }
  | fuel + 1 =>
    let step := fun (info : LineInfo) (st1 : PState) =>
      if info.type = LineType.EMPTY ∨ info.type = LineType.COMMENT then
        parse_array_items fuel opts st1 parent_indent arr_indent items
      else
        let arr_indent2 :=
          if arr_indent < 0 ∧ info.type = LineType.LIST_ITEM then (info.indent : Int)
          else arr_indent
        if (info.indent : Int) ≤ parent_indent then
          Except.ok (items, { st1 with has_peeked := true, peeked := info })
        else if info.type = LineType.LIST_ITEM ∧ (info.indent : Int) = arr_indent2 then
          if info.value ≠ [] then
            let item :=
              match parse_primitive opts.strict info.value with
              | some v => v
              | none => Node.N_STRING info.value
            parse_array_items fuel opts st1 parent_indent arr_indent2 (items ++ [item])
          else
            (parse_value fuel opts st1 (info.indent : Int)).bind fun r =>
              parse_array_items fuel opts r.2 parent_indent arr_indent2
                (items ++ [r.1.getD Node.N_NULL])
        else
          Except.ok (items, { st1 with has_peeked := true, peeked := info })
    if st.has_peeked then
      step st.peeked { st with has_peeked := false }
    else
      match st.next_line with
      | none => Except.ok (items, st)
      | some (line, ln, st1) =>
          (classify_line opts line ln).bind fun info => step info st1

/-- `Parser::parse_array` (toon_parser.cpp:892): consume a peeked
header line, then either the tabular-row loop with its `n_mismatch`
warning or the list-item loop with its own count check. -/
def parse_array (fuel : Nat) (opts : ParseOptions) (st : PState)
    (parent_indent : Int) (header : TabularHeader) :
    Except CppError (Node × PState) :=
  match fuel with
  | 0 => Except.error { msg := "parser fuel exhausted".data }
  | fuel + 1 =>
    let st0 :=
      if st.has_peeked ∧ (st.peeked.type = LineType.ARRAY_HEADER ∨
          st.peeked.type = LineType.TABULAR_HEADER) then
        { st with has_peeked := false }
      else st
    if header.is_tabular then
      (parse_array_tab fuel opts st0 parent_indent header (-1) [] 0).map fun r =>
        let stF := r.2.2
        let stW :=
          if opts.warn ∧ 0 < header.declared_count ∧ r.2.1 ≠ header.declared_count then
            { stF with warnings := stF.warnings ++
                [{ category := "n_mismatch".data,
                   message := "Declared [".data ++ natDec header.declared_count ++
                     "] but observed ".data ++ natDec r.2.1 ++
                     " rows; using observed.".data }] }
          else stF
        (Node.N_ARRAY r.1, stW)
    else
      (parse_array_items fuel opts st0 parent_indent (-1) []).map fun r =>
        let stF := r.2
        let stW :=
          if opts.warn ∧ 0 < header.declared_count ∧ r.1.length ≠ header.declared_count then
            { stF with warnings := stF.warnings ++
                [{ category := "n_mismatch".data,
                   message := "Declared [".data ++ natDec header.declared_count ++
                     "] but observed ".data ++ natDec r.1.length ++
                     " items; using observed.".data }] }
          else stF
        (Node.N_ARRAY r.1, stW)

end

/-- `Parser::parse_string` (toon_parser.cpp:544): a fresh parse of the
whole text from line 1 with no surrounding indent.  The fuel bound
exceeds what any run over these lines can spend. -/
def parse_string (opts : ParseOptions) (text : Chars) :
    Except CppError (Option Node × PState) :=
  parse_value (4 * (splitLines text).length + 8) opts
    { lines := splitLines text } (-1)

end Parser

/-! ## The encoder over R values (toon_encoder.cpp). -/

/-- An R value as the encoder sees it: `R_NilValue` or an atomic or
generic vector, `none` entries standing for the type's NA.  Doubles
carry the abstract `RDouble`.  Class-carrying variants (factors,
`Date`, `POSIXct`, `data.frame`) are outside this embedding:
`encode_value`'s early dispatches for them never fire on these
values, so the plain `TYPEOF` switch is what remains. -/
inductive RValue : Type
  | nilR : RValue
  | lglV (xs : List (Option Bool)) : RValue
  | intV (xs : List (Option Int)) : RValue
  | dblV (xs : List RDouble) : RValue
  | strV (xs : List (Option Chars)) : RValue
  | vecV (items : List RValue) (names : Option (List Chars)) : RValue

/-- `Rf_xlength`. -/
def RValue.xlength : RValue → Nat
  | .nilR => 0
  | .lglV xs => xs.length
  | .intV xs => xs.length
  | .dblV xs => xs.length
  | .strV xs => xs.length
  | .vecV items _ => items.length

mutual
/-- The generic-vector nesting depth; the encoder's fuel bound. -/
def RValue.vdepth : RValue → Nat
  | .vecV items _ => RValue.vdepthL items + 1
  | _ => 0
def RValue.vdepthL : List RValue → Nat
  | [] => 0
  | x :: xs => max (RValue.vdepth x) (RValue.vdepthL xs)
end

namespace Encoder

/-- `EncodeOptions` (toon_encoder.h) with its defaults. -/
structure EncodeOptions where
  pretty : Bool := true
  indent : Nat := 2
  strict : Bool := true
  canonical : Bool := false
deriving DecidableEq, Repr

/-- `Encoder::write_indent` (toon_encoder.cpp:13). -/
def write_indent (opts : EncodeOptions) (depth : Nat) : Chars :=
  if opts.pretty ∧ 0 < depth then List.replicate (depth * opts.indent) ' ' else []

/-- `Encoder::write_newline` (toon_encoder.cpp:21). -/
def write_newline (opts : EncodeOptions) : Chars :=
  if opts.pretty then ['\n'] else []

/-- One lowercase hex digit. -/
def hexChar (n : Nat) : Char :=
  if n < 10 then Char.ofNat ('0'.toNat + n) else Char.ofNat ('a'.toNat + (n - 10))

/-- One character of `WriteBuffer::append_escaped_string`
(toon_io.cpp:151): the five named escapes, `\u00xx` for remaining
control characters, the character itself otherwise. -/
def escapeChar (c : Char) : Chars :=
  if c = '"' then ['\\', '"']
  else if c = '\\' then ['\\', '\\']
  else if c = '\n' then ['\\', 'n']
  else if c = '\r' then ['\\', 'r']
  else if c = '\t' then ['\\', 't']
  else if c.toNat < 0x20 then
    ['\\', 'u', '0', '0', hexChar (c.toNat / 16), hexChar (c.toNat % 16)]
  else [c]

/-- `WriteBuffer::append_escaped_string` (toon_io.cpp:151). -/
def escapeString (s : Chars) : Chars :=
  '"' :: (s.map escapeChar).flatten ++ ['"']

/-- `Encoder::encode_logical` (toon_encoder.cpp:50): a length-1 vector
inline (`null` for NA), otherwise a `[n]:` block of list items. -/
def encode_logical (opts : EncodeOptions) (xs : List (Option Bool)) (depth : Nat) : Chars :=
  let cell := fun (x : Option Bool) =>
    match x with
    | none => "null".data
    | some b => if b then "true".data else "false".data
  match xs with
  | [x] => cell x
  | _ =>
      '[' :: natDec xs.length ++ "]:".data ++ write_newline opts ++
        (xs.map fun x => write_indent opts 1 ++ "- ".data ++ cell x ++
          write_newline opts).flatten

/-- `Encoder::encode_integer` (toon_encoder.cpp:81). -/
def encode_integer (opts : EncodeOptions) (xs : List (Option Int)) (depth : Nat) : Chars :=
  let cell := fun (x : Option Int) =>
    match x with
    | none => "null".data
    | some v => intDec v
  match xs with
  | [x] => cell x
  | _ =>
      '[' :: natDec xs.length ++ "]:".data ++ write_newline opts ++
        (xs.map fun x => write_indent opts 1 ++ "- ".data ++ cell x ++
          write_newline opts).flatten

/-- `Encoder::encode_double` (toon_encoder.cpp:112) through its
`format_double` lambda (which throws on NaN/Inf in strict mode). -/
def encode_double (opts : EncodeOptions) (xs : List RDouble) (depth : Nat) :
    Except CppError Chars :=
  match xs with
  | [x] => format_double opts.strict x
  | _ =>
      (xs.mapM fun x => format_double opts.strict x).map fun cells =>
        '[' :: natDec xs.length ++ "]:".data ++ write_newline opts ++
          (cells.map fun c => write_indent opts 1 ++ "- ".data ++ c ++
            write_newline opts).flatten

/-- `Encoder::encode_string` (toon_encoder.cpp:156). -/
def encode_string (opts : EncodeOptions) (xs : List (Option Chars)) (depth : Nat) : Chars :=
  let cell := fun (x : Option Chars) =>
    match x with
    | none => "null".data
    | some s => escapeString s
  match xs with
  | [x] => cell x
  | _ =>
      '[' :: natDec xs.length ++ "]:".data ++ write_newline opts ++
        (xs.map fun x => write_indent opts 1 ++ "- ".data ++ cell x ++
          write_newline opts).flatten

/-- Lexicographic byte comparison, `std::string::operator<`. -/
def charsLt : Chars → Chars → Bool
  | [], [] => false
  | [], _ :: _ => true
  | _ :: _, [] => false
  | a :: as, b :: bs =>
      if a.toNat < b.toNat then true
      else if b.toNat < a.toNat then false
      else charsLt as bs

/-- The `is_complex` test of `Encoder::encode_list`
(toon_encoder.cpp:249): a nonempty generic vector, or any length-2+
vector that is not a character vector. -/
def is_complex (v : RValue) : Bool :=
  (match v with | RValue.vecV items _ => 0 < items.length | _ => false) ||
  (1 < v.xlength && (match v with | RValue.strV _ => false | _ => true))

/-- The `needs_quotes` test for an object key (toon_encoder.cpp:236). -/
def key_needs_quotes (name : Chars) : Bool :=
  name = [] || name.contains ':' || name.contains ' ' || name.contains '"'

/-- The item loop of `Encoder::encode_vector` (toon_encoder.cpp:196);
`ev` is the recursive `encode_value` at the caller's remaining fuel. -/
def encode_vec_items (opts : EncodeOptions)
    (ev : RValue → Nat → Except CppError Chars) :
    List RValue → Nat → Except CppError Chars
  | [], _ => Except.ok []
  | x :: rest, depth =>
      (ev x (depth + 1)).bind fun s =>
        (encode_vec_items opts ev rest depth).map fun srest =>
          write_indent opts (depth + 1) ++ "- ".data ++ s ++ write_newline opts ++ srest

/-- `Encoder::encode_vector` (toon_encoder.cpp:188). -/
def encode_vector (opts : EncodeOptions)
    (ev : RValue → Nat → Except CppError Chars) (items : List RValue)
    (depth : Nat) : Except CppError Chars :=
  (encode_vec_items opts ev items depth).map fun body =>
    '[' :: natDec items.length ++ "]:".data ++ write_newline opts ++ body

/-- The key/value loop of `Encoder::encode_list` (toon_encoder.cpp:228):
quoted key when needed, `": "`, the value inline with a trailing
newline, or on the next lines when complex. -/
def encode_obj_items (opts : EncodeOptions)
    (ev : RValue → Nat → Except CppError Chars) :
    List (Chars × RValue) → Nat → Except CppError Chars
  | [], _ => Except.ok []
  | (name, val) :: rest, depth =>
      (ev val (depth + 1)).bind fun s =>
        (encode_obj_items opts ev rest depth).map fun srest =>
          (if 0 < depth then write_indent opts depth else []) ++
            (if key_needs_quotes name then escapeString name else name) ++
            ": ".data ++
            (if is_complex val then write_newline opts ++ s
             else s ++ write_newline opts) ++ srest

/-- `Encoder::encode_list` (toon_encoder.cpp:204): without matching
names an unnamed list is an array; otherwise the key/value pairs, in
byte-sorted key order when canonical (`std::sort`; the embedding's
insertion sort agrees wherever keys are distinct, the unstable C++
sort being unspecified on ties). -/
def encode_list (opts : EncodeOptions)
    (ev : RValue → Nat → Except CppError Chars) (items : List RValue)
    (names : Option (List Chars)) (depth : Nat) : Except CppError Chars :=
  match names with
  | none => encode_vector opts ev items depth
  | some nms =>
      if nms.length ≠ items.length then encode_vector opts ev items depth
      else
        let pairs := nms.zip items
        let sorted :=
          if opts.canonical then
            List.insertionSort (fun a b => charsLt a.1 b.1 = true) pairs
          else pairs
        encode_obj_items opts ev sorted depth

/-- `Encoder::encode_value` (toon_encoder.cpp:358) on the class-free
fragment: the `TYPEOF` switch.  Fuel is spent only when descending
into a generic vector; the driver supplies the vector depth, so the
fuel-exhausted error is unreachable from it. -/
def encode_value (opts : EncodeOptions) : Nat → RValue → Nat → Except CppError Chars
  | _, RValue.nilR, _ => Except.ok "null".data
  | _, RValue.lglV xs, depth => Except.ok (encode_logical opts xs depth)
  | _, RValue.intV xs, depth => Except.ok (encode_integer opts xs depth)
  | _, RValue.dblV xs, depth => encode_double opts xs depth
  | _, RValue.strV xs, depth => Except.ok (encode_string opts xs depth)
  | 0, RValue.vecV _ _, _ => Except.error { msg := "encoder fuel exhausted".data }
  | fuel + 1, RValue.vecV items names, depth =>
      encode_list opts (fun y d => encode_value opts fuel y d) items names depth

/-- `Encoder::encode` (toon_encoder.cpp:531) with fuel covering the
value's full vector depth. -/
def encode (opts : EncodeOptions) (x : RValue) : Except CppError Chars :=
  encode_value opts (RValue.vdepth x) x 0

end Encoder

/-! ## `node_to_sexp` (toonlite.cpp:14). -/

/-- `NodeKind` (toon_parser.hpp:22). -/
inductive NodeKind : Type
  | N_NULL | N_BOOL | N_INT | N_DOUBLE | N_STRING | N_ARRAY | N_OBJECT
deriving DecidableEq, Repr

def Node.kind : Node → NodeKind
  | .N_NULL => NodeKind.N_NULL
  | .N_BOOL _ => NodeKind.N_BOOL
  | .N_INT _ => NodeKind.N_INT
  | .N_DOUBLE _ => NodeKind.N_DOUBLE
  | .N_STRING _ => NodeKind.N_STRING
  | .N_ARRAY _ => NodeKind.N_ARRAY
  | .N_OBJECT _ => NodeKind.N_OBJECT

/-- The `bool_val` field (default `false` outside `N_BOOL`). -/
def Node.bool_val : Node → Bool
  | .N_BOOL b => b
  | _ => false

/-- The `int_val` field (default 0 outside `N_INT`). -/
def Node.int_val : Node → Int
  | .N_INT v => v
  | _ => 0

/-- The `string_val` field (default empty outside `N_STRING`). -/
def Node.string_val : Node → Chars
  | .N_STRING s => s
  | _ => []

/-- `static_cast<int>` of an `int64_t` (two's-complement wrap) as an R
integer cell: the NA sentinel bit pattern reads back as NA. -/
def toRInt (v : Int) : Option Int :=
  let w := (v + 2 ^ 31) % 2 ^ 32 - 2 ^ 31
  if w = -(2 ^ 31) then none else some w

/-- The same-primitive-kind scan of `node_to_sexp`'s array case
(toonlite.cpp:52-70): returns `(all_primitive, all_same, first_kind)`;
an array or object item stops the scan. -/
def simplifyScanGo : List Node → NodeKind → Bool → Bool × Bool × NodeKind
  | [], fk, asame => (true, asame, fk)
  | item :: rest, fk, asame =>
      if item.kind = NodeKind.N_ARRAY ∨ item.kind = NodeKind.N_OBJECT then
        (false, asame, fk)
      else if item.kind ≠ fk ∧ item.kind ≠ NodeKind.N_NULL then
        if fk = NodeKind.N_NULL then simplifyScanGo rest item.kind asame
        else simplifyScanGo rest fk false
      else simplifyScanGo rest fk asame

/-- The element loop of the generic-list case (toonlite.cpp:134-137);
`f` is the recursive conversion at the caller's remaining fuel. -/
def node_list_to_sexp (f : Node → Option RValue) : List Node → Option (List RValue)
  | [] => some []
  | n :: rest =>
      (f n).bind fun v => (node_list_to_sexp f rest).map fun vs => v :: vs

/-- The element loop of the object case (toonlite.cpp:145-150). -/
def node_pairs_to_sexp (f : Node → Option RValue) :
    List (Chars × Node) → Option (List RValue)
  | [] => some []
  | p :: rest =>
      (f p.2).bind fun v => (node_pairs_to_sexp f rest).map fun vs => v :: vs

/-- `node_to_sexp` (toonlite.cpp:14).  Doubles depend on IEEE printing
semantics outside this embedding, so the translation is defined on the
double-free fragment and returns `none` on a double (and when fuel for
the nested recursion runs out, which the drivers' bounds prevent). -/
def node_to_sexp (simplify : Bool) (fuel : Nat) (node : Node) : Option RValue :=
  match node with
  | Node.N_NULL => some RValue.nilR
  | Node.N_BOOL b => some (RValue.lglV [some b])
  | Node.N_INT v => some (RValue.intV [toRInt v])
  | Node.N_DOUBLE _ => none
  | Node.N_STRING s => some (RValue.strV [some s])
  | Node.N_ARRAY items =>
      let generic : Option RValue :=
        match fuel with
        | 0 => none
        | fuel + 1 =>
            (node_list_to_sexp (node_to_sexp simplify fuel) items).map fun vs =>
              RValue.vecV vs none
      if simplify ∧ 0 < items.length then
        let scan := simplifyScanGo items (items.headD Node.N_NULL).kind true
        if scan.1 ∧ scan.2.1 then
          match scan.2.2 with
          | NodeKind.N_BOOL =>
              some (RValue.lglV (items.map fun it =>
                if it.kind = NodeKind.N_NULL then none else some it.bool_val))
          | NodeKind.N_INT =>
              some (RValue.intV (items.map fun it =>
                if it.kind = NodeKind.N_NULL then none else toRInt it.int_val))
          | NodeKind.N_DOUBLE => none
          | NodeKind.N_STRING =>
              some (RValue.strV (items.map fun it =>
                if it.kind = NodeKind.N_NULL then none else some it.string_val))
          | _ => generic
        else generic
      else generic
  | Node.N_OBJECT its =>
      match fuel with
      | 0 => none
      | fuel + 1 =>
          (node_pairs_to_sexp (node_to_sexp simplify fuel) its).map fun vs =>
            RValue.vecV vs (some (its.map Prod.fst))

mutual
/-- A fuel bound covering a node's full nesting depth. -/
def Node.ndepth : Node → Nat
  | .N_ARRAY items => Node.ndepthL items + 1
  | .N_OBJECT its => Node.ndepthP its + 1
  | _ => 0
def Node.ndepthL : List Node → Nat
  | [] => 0
  | n :: rest => max (Node.ndepth n) (Node.ndepthL rest)
def Node.ndepthP : List (Chars × Node) → Nat
  | [] => 0
  | p :: rest => max (Node.ndepth p.2) (Node.ndepthP rest)
end

/-- The round trip `to_toon(from_toon(text), canonical = TRUE)`
(toonlite.cpp:171-204 then the encoder): parse with the default
options, convert with `simplify`, re-encode canonically.  A null parse
is the `Failed to parse TOON` error; a double anywhere leaves the
embedding's fragment. -/
def reencode_canonical (text : Chars) : Except CppError Chars :=
  (Parser.parse_string {} text).bind fun r =>
    match r.1 with
    | none => Except.error { msg := "Failed to parse TOON".data }
    | some nd =>
        match node_to_sexp true (Node.ndepth nd + 1) nd with
        | some t2 => Encoder.encode { canonical := true } t2
        | none => Except.error { msg := "outside the double-free fragment".data }

/-- C1 counterexample: canonical encoding is not idempotent.  The
value `list(a = list())` (no doubles, no strings) canonically encodes
to `a: [0]:\n\n`; re-parsing takes the inline value `[0]:` as a plain
string, because `parse_array_header` reports `declared_count = 0` and
not tabular, so `process_key_value` falls back to
`Node::make_string`; re-encoding then yields the different text
`a: "[0]:"\n`. -/
theorem claim1_counterexample :
    Encoder.encode { canonical := true }
        (RValue.vecV [RValue.vecV [] none] (some [['a']])) =
      Except.ok "a: [0]:\n\n".data ∧
    reencode_canonical "a: [0]:\n\n".data = Except.ok "a: \"[0]:\"\n".data ∧
    ("a: \"[0]:\"\n".data : Chars) ≠ "a: [0]:\n\n".data := by
  decide

/-! ## Claim C1: idempotence of canonical encoding. -/

/-- A key whose characters survive the line classifier untouched: no
whitespace or control characters, none of the characters the colon
scan, the comment stripper, the key unquoter or the encoder's
`needs_quotes` react to, and a first character that cannot start a
list item or an array header. -/
def safeKeyChar (c : Char) : Bool :=
  '!' ≤ c && c ≠ ':' && c ≠ '"' && c ≠ '#' && c ≠ '/' && c ≠ '\\'

def safeKey (k : Chars) : Bool :=
  k ≠ [] && k.head? ≠ some '[' && k.head? ≠ some '-' && k.all safeKeyChar

/-- A string character the escaper emits verbatim inside quotes. -/
def safeStrChar (c : Char) : Bool :=
  ' ' ≤ c && c ≠ '"' && c ≠ '\\'

/-- The scalar values of the amended claim: `NULL`, or a length-one
logical, in-range non-sentinel integer, or safe-character string
vector (an NA entry encodes as `null`, like `NULL`). -/
def safeScalar : RValue → Bool
  | RValue.nilR => true
  | RValue.lglV [_] => true
  | RValue.intV [none] => true
  | RValue.intV [some n] => decide (-(2 ^ 31) < n) && decide (n < 2 ^ 31)
  | RValue.strV [none] => true
  | RValue.strV [some s0] => s0.all safeStrChar
  | _ => false

/-- The inline text the encoder emits for such a scalar. -/
def scalarText : RValue → Chars
  | RValue.lglV [some b] => if b then "true".data else "false".data
  | RValue.intV [some n] => intDec n
  | RValue.strV [some s0] => Encoder.escapeString s0
  | _ => "null".data

/-- The node such a scalar's text parses back to. -/
def scalarNode : RValue → Node
  | RValue.lglV [some b] => Node.N_BOOL b
  | RValue.intV [some n] => Node.N_INT n
  | RValue.strV [some s0] => Node.N_STRING s0
  | _ => Node.N_NULL

/-- The value `node_to_sexp` then rebuilds: NA scalars collapse to
`NULL`, everything else returns to itself. -/
def roundVal : RValue → RValue
  | RValue.lglV [some b] => RValue.lglV [some b]
  | RValue.intV [some n] => RValue.intV [some n]
  | RValue.strV [some s0] => RValue.strV [some s0]
  | _ => RValue.nilR

/-- One object line of the canonical encoding, without its newline. -/
def lineText (p : Chars × RValue) : Chars :=
  p.1 ++ ": ".data ++ scalarText p.2

/-- The encoder options of the canonical round trip. -/
def canonOpts : Encoder.EncodeOptions := { canonical := true }

/-- A digit character's code. -/
theorem decDigit_toNat (d : Nat) (h : d < 10) : (decDigit d).toNat = 48 + d := by
  interval_cases d <;> decide

/-- Digit characters are digits. -/
theorem cIsDigit_decDigit (d : Nat) (h : d < 10) : cIsDigit (decDigit d) = true := by
  interval_cases d <;> decide

/-- The digit expansion consists of digits. -/
theorem decDigitsGo_digits : ∀ (fuel n : Nat), n < fuel →
    ∀ c ∈ decDigitsGo fuel n, cIsDigit c = true := by
  intro fuel
  induction fuel with
  | zero => intro n h; omega
  | succ fuel ih =>
      intro n h c hc
      simp only [decDigitsGo] at hc
      split at hc
      · next h10 =>
          simp only [List.mem_singleton] at hc
          subst hc
          exact cIsDigit_decDigit n h10
      · next h10 =>
          rw [List.mem_append] at hc
          cases hc with
          | inl hmem =>
              exact ih (n / 10) (by omega) c hmem
          | inr hmem =>
              simp only [List.mem_singleton] at hmem
              subst hmem
              exact cIsDigit_decDigit (n % 10) (Nat.mod_lt n (by omega))

theorem natDec_digits (n : Nat) : ∀ c ∈ natDec n, cIsDigit c = true :=
  decDigitsGo_digits (n + 1) n (Nat.lt_succ_self n)

/-- The digit expansion is nonempty. -/
theorem decDigitsGo_ne_nil (fuel n : Nat) (h : n < fuel) : decDigitsGo fuel n ≠ [] := by
  cases fuel with
  | zero => omega
  | succ fuel =>
      simp only [decDigitsGo]
      split
      · exact List.cons_ne_nil _ _
      · exact List.append_ne_nil_of_right_ne_nil _ (List.cons_ne_nil _ _)

theorem natDec_ne_nil (n : Nat) : natDec n ≠ [] :=
  decDigitsGo_ne_nil (n + 1) n (Nat.lt_succ_self n)

/-- The accumulated value of an extra trailing digit. -/
theorem digitsVal_append_one (a : Chars) (c : Char) :
    digitsVal (a ++ [c]) = 10 * digitsVal a + (c.toNat - 48) := by
  simp [digitsVal, List.foldl_append]

/-- Reading back the digit expansion returns the number. -/
theorem digitsVal_decDigitsGo : ∀ (fuel n : Nat), n < fuel →
    digitsVal (decDigitsGo fuel n) = n := by
  intro fuel
  induction fuel with
  | zero => intro n h; omega
  | succ fuel ih =>
      intro n h
      simp only [decDigitsGo]
      split
      · next h10 =>
          simp [digitsVal, decDigit_toNat n h10]
      · next h10 =>
          rw [digitsVal_append_one, ih (n / 10) (by omega),
            decDigit_toNat (n % 10) (Nat.mod_lt n (by omega))]
          omega

theorem digitsVal_natDec (n : Nat) : digitsVal (natDec n) = n :=
  digitsVal_decDigitsGo (n + 1) n (Nat.lt_succ_self n)

/-- A digit character is not any specific non-digit character. -/
theorem digit_char_ne (c : Char) (h : cIsDigit c = true) (d : Char)
    (hd : d.toNat < 48 ∨ 57 < d.toNat) : c ≠ d := by
  intro he
  subst he
  simp only [cIsDigit, Bool.and_eq_true, decide_eq_true_eq] at h
  have g1 : 48 ≤ c.toNat := h.1
  have g2 : c.toNat ≤ 57 := h.2
  omega

/-- `std::from_chars` inverts `std::to_string` on the 32-bit range. -/
theorem fromCharsI64_intDec (n : Int) (h1 : -(2 ^ 31) < n) (h2 : n < 2 ^ 31) :
    fromCharsI64 (intDec n) = some n := by
  by_cases hn : n < 0
  · simp only [intDec, if_pos hn]
    have hcond : natDec n.natAbs ≠ [] ∧ (natDec n.natAbs).all cIsDigit = true ∧
        digitsVal (natDec n.natAbs) ≤ 2 ^ 63 := by
      refine ⟨natDec_ne_nil _, ?_, ?_⟩
      · rw [List.all_eq_true]
        exact natDec_digits _
      · rw [digitsVal_natDec]
        omega
    simp only [fromCharsI64]
    rw [if_pos trivial, if_pos hcond, digitsVal_natDec]
    congr 1
    omega
  · simp only [intDec, if_neg hn]
    obtain ⟨c, t, hct⟩ : ∃ c t, natDec n.toNat = c :: t := by
      cases hnd : natDec n.toNat with
      | nil => exact absurd hnd (natDec_ne_nil _)
      | cons c t => exact ⟨c, t, rfl⟩
    have hcdig : cIsDigit c = true := by
      have := natDec_digits n.toNat c
      rw [hct] at this
      exact this (List.mem_cons_self c t)
    have hcne : c ≠ '-' := digit_char_ne c hcdig '-' (by decide)
    rw [hct]
    have hall : (c :: t).all cIsDigit = true := by
      rw [← hct, List.all_eq_true]
      exact natDec_digits _
    have hval : digitsVal (c :: t) = n.toNat := by
      rw [← hct, digitsVal_natDec]
    simp only [fromCharsI64]
    rw [if_neg hcne, if_pos ⟨hall, by rw [hval]; omega⟩, hval]
    congr 1
    omega

/-- A character at or above `!` is not whitespace. -/
theorem not_space_of_33 (c : Char) (h : 33 ≤ c.toNat) : cIsSpace c = false := by
  simp only [cIsSpace, Bool.or_eq_false_iff, decide_eq_false_iff_not]
  refine ⟨⟨⟨⟨⟨?_, ?_⟩, ?_⟩, ?_⟩, ?_⟩, ?_⟩
  · intro he; subst he; exact absurd h (by decide)
  · intro he; subst he; exact absurd h (by decide)
  · intro he; subst he; exact absurd h (by decide)
  · omega
  · omega
  · intro he; subst he; exact absurd h (by decide)

/-- A digit is not whitespace. -/
theorem not_space_of_digit (c : Char) (h : cIsDigit c = true) : cIsSpace c = false := by
  simp only [cIsDigit, Bool.and_eq_true, decide_eq_true_eq] at h
  have h1 : 48 ≤ c.toNat := h.1
  exact not_space_of_33 c (by omega)

theorem dropWhile_eq_self_of (p : Char → Bool) (l : Chars)
    (h : ∀ c ∈ l, p c = false) : l.dropWhile p = l := by
  cases l with
  | nil => rfl
  | cons c t => simp [List.dropWhile_cons, h c (List.mem_cons_self c t)]

theorem trimRight_eq_self (l : Chars) (h : ∀ c ∈ l, cIsSpace c = false) :
    trimRight l = l := by
  simp only [trimRight]
  rw [dropWhile_eq_self_of _ _ (fun c hc => h c (List.mem_reverse.mp hc)),
    List.reverse_reverse]

theorem ctrim_eq_self (l : Chars) (h : ∀ c ∈ l, cIsSpace c = false) : ctrim l = l := by
  rw [ctrim, trimLeft, dropWhile_eq_self_of _ _ h, trimRight_eq_self _ h]

theorem ctrim_space_cons_all (l : Chars) (hne : l ≠ [])
    (h : ∀ c ∈ l, cIsSpace c = false) : ctrim (' ' :: l) = l := by
  rw [ctrim, trimLeft, List.dropWhile_cons]
  simp only [show cIsSpace ' ' = true from rfl, if_true]
  rw [← trimLeft, show trimLeft l = l from
    by rw [trimLeft]; exact dropWhile_eq_self_of _ _ h, trimRight_eq_self _ h]

theorem trimRight_concat (l : Chars) (d : Char) (hd : cIsSpace d = false) :
    trimRight (l ++ [d]) = l ++ [d] := by
  rw [trimRight, List.reverse_concat, List.dropWhile_cons, hd]
  simp [List.reverse_concat]

theorem ctrim_quoted (s : Chars) :
    ctrim ('"' :: s ++ ['"']) = '"' :: s ++ ['"'] := by
  have h1 : trimLeft ('"' :: s ++ ['"']) = '"' :: s ++ ['"'] := by
    simp [trimLeft, List.dropWhile_cons, cIsSpace]
  rw [ctrim, h1, show ('"' :: s ++ ['"'] : Chars) = ('"' :: s) ++ ['"'] from rfl,
    trimRight_concat _ _ (by decide)]

theorem ctrim_space_quoted (s : Chars) :
    ctrim (' ' :: '"' :: s ++ ['"']) = '"' :: s ++ ['"'] := by
  have h1 : trimLeft (' ' :: '"' :: s ++ ['"']) = '"' :: s ++ ['"'] := by
    simp [trimLeft, List.dropWhile_cons, cIsSpace]
  rw [ctrim, h1, show ('"' :: s ++ ['"'] : Chars) = ('"' :: s) ++ ['"'] from rfl,
    trimRight_concat _ _ (by decide)]

/-- Characters of an integer's decimal text. -/
theorem intDec_chars (n : Int) : ∀ c ∈ intDec n, cIsDigit c = true ∨ c = '-' := by
  intro c hc
  simp only [intDec] at hc
  split at hc
  · cases hc with
    | head => exact Or.inr rfl
    | tail _ hm => exact Or.inl (natDec_digits _ c hm)
  · exact Or.inl (natDec_digits _ c hc)

theorem intDec_nonspace (n : Int) : ∀ c ∈ intDec n, cIsSpace c = false := by
  intro c hc
  cases intDec_chars n c hc with
  | inl h => exact not_space_of_digit c h
  | inr h => subst h; decide

theorem intDec_ne_nil (n : Int) : intDec n ≠ [] := by
  simp only [intDec]
  split
  · exact List.cons_ne_nil _ _
  · exact natDec_ne_nil _

/-- A safe string character is emitted verbatim by the escaper. -/
theorem escapeChar_safe (c : Char) (h : safeStrChar c = true) :
    Encoder.escapeChar c = [c] := by
  simp only [safeStrChar, Bool.and_eq_true, decide_eq_true_eq] at h
  obtain ⟨⟨hge, hq⟩, hb⟩ := h
  have h32 : 32 ≤ c.toNat := hge
  simp only [Encoder.escapeChar]
  rw [if_neg hq, if_neg hb, if_neg ?hn, if_neg ?hr, if_neg ?ht, if_neg ?hc]
  case hn => intro he; subst he; exact absurd h32 (by decide)
  case hr => intro he; subst he; exact absurd h32 (by decide)
  case ht => intro he; subst he; exact absurd h32 (by decide)
  case hc => omega

/-- Flattening the escapes of a safe string is the identity. -/
theorem escape_flatten (s : Chars) (h : ∀ c ∈ s, safeStrChar c = true) :
    (s.map Encoder.escapeChar).flatten = s := by
  induction s with
  | nil => rfl
  | cons c t ih =>
      simp only [List.map_cons, List.flatten_cons,
        escapeChar_safe c (h c (List.mem_cons_self c t))]
      rw [ih (fun d hd => h d (List.mem_cons_of_mem c hd))]
      rfl

/-- Escaping a safe string just wraps it in quotes. -/
theorem escapeString_safe (s : Chars) (h : ∀ c ∈ s, safeStrChar c = true) :
    Encoder.escapeString s = '"' :: s ++ ['"'] := by
  rw [Encoder.escapeString, escape_flatten s h]

theorem contains_eq_false_of {α : Type} [BEq α] [LawfulBEq α] (l : List α) (d : α)
    (h : ∀ c ∈ l, c ≠ d) : l.contains d = false := by
  rw [Bool.eq_false_iff]
  intro hc
  simp only [List.contains] at hc
  exact h d (List.mem_of_elem_eq_true hc) rfl

/-- The head of an integer's decimal text. -/
theorem intDec_head (n : Int) :
    ∃ c t, intDec n = c :: t ∧ (cIsDigit c = true ∨ c = '-') := by
  obtain ⟨c, t, hct⟩ : ∃ c t, intDec n = c :: t := by
    cases hx : intDec n with
    | nil => exact absurd hx (intDec_ne_nil n)
    | cons c t => exact ⟨c, t, rfl⟩
  exact ⟨c, t, hct, intDec_chars n c (hct ▸ List.mem_cons_self c t)⟩

theorem intDec_ne_word (n : Int) (w : Chars) (c0 : Char) (hw : w.head? = some c0)
    (hc0 : c0.toNat < 48 ∨ 57 < c0.toNat) (hc0m : c0 ≠ '-') : intDec n ≠ w := by
  obtain ⟨c, t, hct, hcd⟩ := intDec_head n
  intro he
  rw [hct] at he
  subst he
  simp only [List.head?_cons, Option.some.injEq] at hw
  subst hw
  cases hcd with
  | inl h => exact digit_char_ne c h c hc0 rfl
  | inr h => exact hc0m h

theorem parse_bool_none (x : Chars) (h1 : x ≠ "true".data) (h2 : x ≠ "false".data) :
    Parser.parse_bool x = none := by
  simp [Parser.parse_bool, h1, h2]

/-- `Parser::parse_integer` inverts `std::to_string` in the accepted
range. -/
theorem parse_integer_intDec (n : Int) (h1 : -(2 ^ 31) < n) (h2 : n < 2 ^ 31) :
    Parser.parse_integer (intDec n) = some n := by
  have hdot : (intDec n).contains '.' = false :=
    contains_eq_false_of _ _ (fun c hc => by
      cases intDec_chars n c hc with
      | inl h => exact digit_char_ne c h '.' (by decide)
      | inr h => subst h; decide)
  have he1 : (intDec n).contains 'e' = false :=
    contains_eq_false_of _ _ (fun c hc => by
      cases intDec_chars n c hc with
      | inl h => exact digit_char_ne c h 'e' (by decide)
      | inr h => subst h; decide)
  have he2 : (intDec n).contains 'E' = false :=
    contains_eq_false_of _ _ (fun c hc => by
      cases intDec_chars n c hc with
      | inl h => exact digit_char_ne c h 'E' (by decide)
      | inr h => subst h; decide)
  simp only [Parser.parse_integer, if_neg (intDec_ne_nil n), hdot, he1, he2,
    Bool.or_self, Bool.or_false, Bool.false_or, if_false, Bool.false_eq_true,
    fromCharsI64_intDec n h1 h2]
  rw [if_pos ⟨h1, by omega⟩]

/-- `parse_primitive` on an integer's decimal text. -/
theorem parse_primitive_intDec (n : Int) (h1 : -(2 ^ 31) < n) (h2 : n < 2 ^ 31) :
    Parser.parse_primitive true (intDec n) = some (Node.N_INT n) := by
  have hctr : ctrim (intDec n) = intDec n := ctrim_eq_self _ (intDec_nonspace n)
  have hnull : Parser.parse_null (intDec n) = false := by
    simp [Parser.parse_null,
      intDec_ne_word n "null".data 'n' (by decide) (by decide) (by decide)]
  have hbool : Parser.parse_bool (intDec n) = none :=
    parse_bool_none _ (intDec_ne_word n "true".data 't' (by decide) (by decide) (by decide))
      (intDec_ne_word n "false".data 'f' (by decide) (by decide) (by decide))
  have hq : (intDec n).head? ≠ some '"' := by
    obtain ⟨c, t, hct, hcd⟩ := intDec_head n
    rw [hct, List.head?_cons]
    intro he
    obtain rfl := Option.some.inj he
    cases hcd with
    | inl h => exact digit_char_ne _ h '"' (by decide) rfl
    | inr h => exact absurd h (by decide)
  simp only [Parser.parse_primitive, hctr, if_neg (intDec_ne_nil n), hnull, hbool,
    Bool.false_eq_true, if_false, if_neg hq, parse_integer_intDec n h1 h2]

/-- The quote-loop body is the identity on backslash-free text. -/
theorem pqsGo_no_escape (strict : Bool) :
    ∀ s : Chars, (∀ c ∈ s, c ≠ '\\') → Parser.pqsGo strict s = some s := by
  intro s
  induction s with
  | nil => intro _; simp [Parser.pqsGo]
  | cons c t ih =>
      intro h
      have hcb : c ≠ '\\' := h c (List.mem_cons_self c t)
      have ht := ih (fun d hd => h d (List.mem_cons_of_mem c hd))
      rw [Parser.pqsGo.eq_def]
      split
      · rename_i heq; exact absurd heq (List.cons_ne_nil c t)
      · rename_i heq; rw [List.cons.injEq] at heq; exact absurd heq.1 hcb
      · rename_i heq; rw [List.cons.injEq] at heq; exact absurd heq.1 hcb
      · rename_i heq; rw [List.cons.injEq] at heq; exact absurd heq.1 hcb
      · rename_i heq; rw [List.cons.injEq] at heq; exact absurd heq.1 hcb
      · rename_i heq; rw [List.cons.injEq] at heq; exact absurd heq.1 hcb
      · rename_i heq; rw [List.cons.injEq] at heq; exact absurd heq.1 hcb
      · rename_i heq; rw [List.cons.injEq] at heq; exact absurd heq.1 hcb
      · rename_i heq; rw [List.cons.injEq] at heq; exact absurd heq.1 hcb
      · rename_i c2 t2 heq
        rw [List.cons.injEq] at heq
        obtain ⟨he1, he2⟩ := heq
        subst he1
        subst he2
        rw [ht]
        rfl

/-- Safe string characters are not backslashes. -/
theorem safeStrChar_ne_bs (c : Char) (h : safeStrChar c = true) : c ≠ '\\' := by
  simp only [safeStrChar, Bool.and_eq_true, decide_eq_true_eq] at h
  exact h.2

/-- `parse_quoted_string` inverts the escaper on safe strings. -/
theorem parse_quoted_string_safe (s : Chars) (h : ∀ c ∈ s, safeStrChar c = true) :
    Parser.parse_quoted_string true ('"' :: s ++ ['"']) = some s := by
  have hlast : ('"' :: s ++ ['"'] : Chars) = '"' :: (s ++ ['"']) := rfl
  simp only [Parser.parse_quoted_string]
  rw [if_neg ?hlen]
  case hlen =>
    simp only [List.length_cons, List.length_append, List.length_singleton]
    omega
  have hgl : (s ++ ['"'] : Chars).getLast? = some '"' := by
    rw [List.getLast?_concat]
  split
  · rename_i rest heq
    injection heq with he1 he2
    subst he2
    simp only [List.append_eq]
    rw [hgl, if_pos rfl, List.dropLast_concat]
    exact pqsGo_no_escape true s (fun c hc => safeStrChar_ne_bs c (h c hc))
  · rename_i hne
    exact absurd rfl (hne (s ++ ['"']))

/-- `parse_primitive` on a safely escaped string. -/
theorem parse_primitive_str (s : Chars) (h : ∀ c ∈ s, safeStrChar c = true) :
    Parser.parse_primitive true (Encoder.escapeString s) = some (Node.N_STRING s) := by
  rw [escapeString_safe s h]
  have hctr := ctrim_quoted s
  have hnull : Parser.parse_null ('"' :: s ++ ['"']) = false := by
    simp [Parser.parse_null]
  have hbool : Parser.parse_bool ('"' :: s ++ ['"']) = none := by
    apply parse_bool_none <;> simp
  simp only [Parser.parse_primitive, hctr, hnull, hbool, Bool.false_eq_true, if_false,
    parse_quoted_string_safe s h]
  simp

theorem parse_primitive_null :
    Parser.parse_primitive true "null".data = some Node.N_NULL := by rfl

theorem parse_primitive_true :
    Parser.parse_primitive true "true".data = some (Node.N_BOOL true) := by rfl

theorem parse_primitive_false :
    Parser.parse_primitive true "false".data = some (Node.N_BOOL false) := by rfl

/-- `parse_primitive` recovers every safe scalar's node from its
inline text. -/
theorem parse_primitive_scalar (v : RValue) (h : safeScalar v = true) :
    Parser.parse_primitive true (scalarText v) = some (scalarNode v) := by
  match v, h with
  | RValue.nilR, _ => exact parse_primitive_null
  | RValue.lglV [none], _ => exact parse_primitive_null
  | RValue.lglV [some b], _ =>
      cases b
      · exact parse_primitive_false
      · exact parse_primitive_true
  | RValue.intV [none], _ => exact parse_primitive_null
  | RValue.intV [some n], h =>
      simp only [safeScalar, Bool.and_eq_true, decide_eq_true_eq] at h
      exact parse_primitive_intDec n h.1 h.2
  | RValue.strV [none], _ => exact parse_primitive_null
  | RValue.strV [some s0], h =>
      simp only [safeScalar, List.all_eq_true] at h
      exact parse_primitive_str s0 h

theorem safeKeyChar_elim (c : Char) (h : safeKeyChar c = true) :
    33 ≤ c.toNat ∧ c ≠ ':' ∧ c ≠ '"' ∧ c ≠ '#' ∧ c ≠ '/' ∧ c ≠ '\\' := by
  simp only [safeKeyChar, Bool.and_eq_true, decide_eq_true_eq] at h
  exact ⟨h.1.1.1.1.1, h.1.1.1.1.2, h.1.1.1.2, h.1.1.2, h.1.2, h.2⟩

theorem count_indent_head (st : Bool) (c : Char) (r : Chars) (h1 : c ≠ ' ')
    (h2 : c ≠ '\t') : Parser.count_indent st (c :: r) = Except.ok 0 := by
  simp [Parser.count_indent, h1, h2]

theorem trimRight_head (c : Char) (r : Chars) (hc : cIsSpace c = false) :
    ∃ t, trimRight (c :: r) = c :: t := by
  rw [trimRight, List.reverse_cons]
  rw [List.dropWhile_append]
  split
  · rename_i hemp
    simp only [List.dropWhile_cons, hc, Bool.false_eq_true, if_false]
    exact ⟨[], rfl⟩
  · rename_i hemp
    rw [List.reverse_append, List.reverse_cons, List.reverse_nil, List.nil_append]
    exact ⟨_, rfl⟩

theorem ctrim_head (c : Char) (r : Chars) (hc : cIsSpace c = false) :
    ∃ t, ctrim (c :: r) = c :: t := by
  rw [ctrim, trimLeft, List.dropWhile_cons]
  simp only [hc, Bool.false_eq_true, if_false]
  exact trimRight_head c r hc

theorem is_comment_false (c : Char) (r : Chars) (hc : cIsSpace c = false)
    (h1 : c ≠ '#') (h2 : c ≠ '/') : Parser.is_comment_line (c :: r) = false := by
  obtain ⟨t, ht⟩ := ctrim_head c r hc
  rw [Parser.is_comment_line, ht]
  split
  · rename_i heq
    exact absurd heq (List.cons_ne_nil c t)
  · rename_i heq
    injection heq with hh _
    first
      | exact absurd hh h1
      | exact absurd hh.symm h1
  · rename_i heq
    injection heq with hh _
    first
      | exact absurd hh h2
      | exact absurd hh.symm h2
  · rfl

/-- The comment scan finds nothing among characters that can neither
start nor quote a comment. -/
theorem stcGo_plain : ∀ (xs : Chars) (prev : Option Char),
    (∀ c ∈ xs, c ≠ '#' ∧ c ≠ '/' ∧ c ≠ '"' ∧ c ≠ '\\') →
    Parser.stcGo xs prev false false = none := by
  intro xs
  induction xs with
  | nil => intro _ _; rfl
  | cons c t ih =>
      intro prev h
      obtain ⟨hh, hs, hq, hb⟩ := h c (List.mem_cons_self c t)
      simp [Parser.stcGo, hq, hb, hh, hs,
        ih (some c) (fun d hd => h d (List.mem_cons_of_mem c hd))]

/-- The comment scan finds nothing inside a quoted span of safe
characters followed by the closing quote. -/
theorem stcGo_inStr : ∀ (s : Chars) (prev : Option Char),
    (∀ c ∈ s, c ≠ '"' ∧ c ≠ '\\') →
    Parser.stcGo (s ++ ['"']) prev true false = none := by
  intro s
  induction s with
  | nil =>
      intro prev _
      simp [Parser.stcGo]
  | cons c t ih =>
      intro prev h
      obtain ⟨hq, hb⟩ := h c (List.mem_cons_self c t)
      simp [List.cons_append, Parser.stcGo, hq, hb,
        ih (some c) (fun d hd => h d (List.mem_cons_of_mem c hd))]

/-- The colon scan splits a safe key from the rest of the line. -/
theorem keySplit_safe : ∀ (k : Chars), (∀ c ∈ k, c ≠ ':' ∧ c ≠ '"') →
    ∀ (after : Chars), Parser.keySplit (k ++ ':' :: after) false false = some (k, after) := by
  intro k
  induction k with
  | nil =>
      intro _ after
      simp [Parser.keySplit]
  | cons c t ih =>
      intro h after
      obtain ⟨hcol, hq⟩ := h c (List.mem_cons_self c t)
      simp [List.cons_append, Parser.keySplit, hq, hcol,
        ih (fun d hd => h d (List.mem_cons_of_mem c hd)) after]

/-- Case analysis on a safe scalar's inline text. -/
theorem scalarText_cases (v : RValue) (h : safeScalar v = true) :
    (scalarText v = "null".data ∨ scalarText v = "true".data ∨
      scalarText v = "false".data ∨ ∃ n : Int, scalarText v = intDec n) ∨
    ∃ s0, (∀ c ∈ s0, safeStrChar c = true) ∧ scalarText v = '"' :: s0 ++ ['"'] := by
  match v, h with
  | RValue.nilR, _ => exact Or.inl (Or.inl rfl)
  | RValue.lglV [none], _ => exact Or.inl (Or.inl rfl)
  | RValue.lglV [some b], _ =>
      cases b
      · exact Or.inl (Or.inr (Or.inr (Or.inl rfl)))
      · exact Or.inl (Or.inr (Or.inl rfl))
  | RValue.intV [none], _ => exact Or.inl (Or.inl rfl)
  | RValue.intV [some n], _ => exact Or.inl (Or.inr (Or.inr (Or.inr ⟨n, rfl⟩)))
  | RValue.strV [none], _ => exact Or.inl (Or.inl rfl)
  | RValue.strV [some s0], h =>
      refine Or.inr ⟨s0, ?_, ?_⟩
      · simp only [safeScalar, List.all_eq_true] at h
        exact h
      · exact escapeString_safe s0 (by simp only [safeScalar, List.all_eq_true] at h; exact h)

/-- The inline text of a safe scalar: nonempty, trim-invariant also
after a leading space, invisible to the comment scan, and free of
newlines and carriage returns. -/
theorem scalarText_props (v : RValue) (h : safeScalar v = true) :
    scalarText v ≠ [] ∧
    ctrim (scalarText v) = scalarText v ∧
    ctrim (' ' :: scalarText v) = scalarText v ∧
    (∀ prev, Parser.stcGo (scalarText v) prev false false = none) ∧
    (∀ c ∈ scalarText v, c ≠ '\n' ∧ c ≠ '\r') := by
  rcases scalarText_cases v h with hw | ⟨s0, hs0, hq⟩
  · have hplain : ∀ (w : Chars), (∀ c ∈ w, cIsSpace c = false) →
        (∀ c ∈ w, c ≠ '#' ∧ c ≠ '/' ∧ c ≠ '"' ∧ c ≠ '\\') → w ≠ [] →
        (∀ c ∈ w, c ≠ '\n' ∧ c ≠ '\r') →
        scalarText v = w →
        scalarText v ≠ [] ∧ ctrim (scalarText v) = scalarText v ∧
        ctrim (' ' :: scalarText v) = scalarText v ∧
        (∀ prev, Parser.stcGo (scalarText v) prev false false = none) ∧
        (∀ c ∈ scalarText v, c ≠ '\n' ∧ c ≠ '\r') := by
      intro w hns hcl hne hnl hw
      rw [hw]
      exact ⟨hne, ctrim_eq_self w hns, ctrim_space_cons_all w hne hns,
        fun prev => stcGo_plain w prev hcl, hnl⟩
    rcases hw with hw | hw | hw | ⟨n, hw⟩
    · exact hplain _ (by decide) (by decide) (by decide) (by decide) hw
    · exact hplain _ (by decide) (by decide) (by decide) (by decide) hw
    · exact hplain _ (by decide) (by decide) (by decide) (by decide) hw
    · refine hplain _ (intDec_nonspace n) ?_ (intDec_ne_nil n) ?_ hw
      · intro c hc
        rcases intDec_chars n c hc with hd | hd
        · exact ⟨digit_char_ne c hd '#' (by decide), digit_char_ne c hd '/' (by decide),
            digit_char_ne c hd '"' (by decide), digit_char_ne c hd '\\' (by decide)⟩
        · subst hd; exact ⟨by decide, by decide, by decide, by decide⟩
      · intro c hc
        rcases intDec_chars n c hc with hd | hd
        · exact ⟨digit_char_ne c hd '\n' (by decide), digit_char_ne c hd '\r' (by decide)⟩
        · subst hd; exact ⟨by decide, by decide⟩
  · have hsq : ∀ c ∈ s0, c ≠ '"' ∧ c ≠ '\\' := by
      intro c hc
      have := hs0 c hc
      simp only [safeStrChar, Bool.and_eq_true, decide_eq_true_eq] at this
      exact ⟨this.1.2, this.2⟩
    rw [hq]
    refine ⟨by simp, ctrim_quoted s0, ctrim_space_quoted s0, ?_, ?_⟩
    · intro prev
      simp only [Parser.stcGo, Bool.not_false]
      rw [if_neg (by simp), if_neg (by simp), if_pos (by simp)]
      rw [show s0.append ['"'] = s0 ++ ['"'] from rfl, stcGo_inStr s0 (some '"') hsq]
      rfl
    · intro c hc
      rcases List.mem_cons.mp hc with rfl | hc2
      · exact ⟨by decide, by decide⟩
      · rcases List.mem_append.mp hc2 with hc3 | hc3
        · have := hs0 c hc3
          simp only [safeStrChar, Bool.and_eq_true, decide_eq_true_eq] at this
          have h32 : 32 ≤ c.toNat := this.1.1
          constructor
          · intro he; subst he; exact absurd h32 (by decide)
          · intro he; subst he; exact absurd h32 (by decide)
        · simp only [List.mem_singleton] at hc3
          subst hc3
          exact ⟨by decide, by decide⟩

/-- The comment scan finds nothing on a safe-key/scalar line. -/
theorem stcGo_key_line : ∀ (k : Chars),
    (∀ c ∈ k, c ≠ '#' ∧ c ≠ '/' ∧ c ≠ '"' ∧ c ≠ '\\') →
    ∀ (prev : Option Char) (text : Chars),
    (∀ p2, Parser.stcGo text p2 false false = none) →
    Parser.stcGo (k ++ ':' :: ' ' :: text) prev false false = none := by
  intro k
  induction k with
  | nil =>
      intro _ prev text htext
      simp [Parser.stcGo, htext]
  | cons c kt ih =>
      intro h prev text htext
      obtain ⟨hh, hs, hq, hb⟩ := h c (List.mem_cons_self c kt)
      simp [Parser.stcGo, hh, hs, hq, hb,
        ih (fun d hd => h d (List.mem_cons_of_mem c hd)) (some c) text htext]

/-- The classifier on one line of the canonical flat-object encoding:
a `KEY_VALUE` line with zero indent, the key itself and the scalar's
inline text. -/
theorem classify_line_kv (k : Chars) (v : RValue) (ln : Nat)
    (hk : safeKey k = true) (hv : safeScalar v = true) :
    Parser.classify_line {} (lineText (k, v)) ln =
      Except.ok { type := LineType.KEY_VALUE, indent := 0, content := lineText (k, v),
                  key := k, value := scalarText v, line_no := ln } := by
  simp only [safeKey, Bool.and_eq_true, decide_eq_true_eq, List.all_eq_true] at hk
  obtain ⟨⟨⟨hne, hnb⟩, hnd⟩, hall⟩ := hk
  obtain ⟨kc, kt, hkct⟩ : ∃ kc kt, k = kc :: kt := by
    cases hx : k with
    | nil => exact absurd hx hne
    | cons a b => exact ⟨a, b, rfl⟩
  have hkc := safeKeyChar_elim kc (hall kc (by rw [hkct]; exact List.mem_cons_self kc kt))
  obtain ⟨tne, tctr, tctrsp, tstc, tnl⟩ := scalarText_props v hv
  have hline : lineText (k, v) = k ++ ':' :: ' ' :: scalarText v := by
    simp [lineText]
  have hkcsp : cIsSpace kc = false := not_space_of_33 kc hkc.1
  have hkcspace : kc ≠ ' ' := by
    intro he; subst he; exact absurd hkc.1 (by decide)
  have hkctab : kc ≠ '\t' := by
    intro he; subst he; exact absurd hkc.1 (by decide)
  have hcons : lineText (k, v) = kc :: (kt ++ ':' :: ' ' :: scalarText v) := by
    rw [hline, hkct, List.cons_append]
  have hkchars : ∀ c ∈ k, c ≠ '#' ∧ c ≠ '/' ∧ c ≠ '"' ∧ c ≠ '\\' := by
    intro c hc
    have := safeKeyChar_elim c (hall c hc)
    exact ⟨this.2.2.2.1, this.2.2.2.2.1, this.2.2.1, this.2.2.2.2.2⟩
  have hstrip : Parser.strip_trailing_comment true (lineText (k, v)) = lineText (k, v) := by
    rw [Parser.strip_trailing_comment]
    simp only [Bool.not_true, Bool.false_eq_true, if_false]
    rw [hline, stcGo_key_line k hkchars none (scalarText v) tstc]
  rw [Parser.classify_line, hcons, count_indent_head true kc _ hkcspace hkctab]
  simp only [Except.bind, List.drop_zero]
  rw [if_neg (List.cons_ne_nil _ _)]
  have hcomment : Parser.is_comment_line (kc :: (kt ++ ':' :: ' ' :: scalarText v)) = false := by
    refine is_comment_false kc _ hkcsp hkc.2.2.2.1 hkc.2.2.2.2.1
  simp only [hcomment, Bool.true_and, Bool.and_false, Bool.false_eq_true, if_false]
  rw [← hcons]
  simp only [hstrip]
  rw [hcons]
  split
  · rename_i restLI heq
    injection heq with hh _
    refine absurd hh ?_
    intro he
    exact hnd (by rw [hkct, he]; rfl)
  · rename_i hnli
    rw [show (kc :: (kt ++ ':' :: ' ' :: scalarText v)).head? = some kc from rfl]
    rw [if_neg ?hbr]
    case hbr =>
      intro he
      obtain rfl := Option.some.inj he
      exact hnb (by rw [hkct]; rfl)
    rw [← List.cons_append, ← hkct, keySplit_safe k
      (fun c hc => ⟨(safeKeyChar_elim c (hall c hc)).2.1,
        (safeKeyChar_elim c (hall c hc)).2.2.1⟩) (' ' :: scalarText v)]
    simp only []
    rw [ctrim_eq_self k (fun c hc => not_space_of_33 c (safeKeyChar_elim c (hall c hc)).1)]
    rw [tctrsp, if_neg tne, if_neg ?hqk]
    case hqk =>
      intro hcond
      have h2 := hcond.2.1
      rw [hkct] at h2
      simp only [List.head?_cons, Option.some.injEq] at h2
      exact hkc.2.2.1 h2

theorem splitLinesRaw_append (l : Chars) (rest : Chars) (h : ∀ c ∈ l, c ≠ '\n') :
    splitLinesRaw (l ++ '\n' :: rest) = l :: splitLinesRaw rest := by
  induction l with
  | nil => simp [splitLinesRaw]
  | cons c t ih =>
      have hc : c ≠ '\n' := h c (List.mem_cons_self c t)
      rw [List.cons_append, splitLinesRaw]
      simp only [hc, if_false]
      rw [ih (fun d hd => h d (List.mem_cons_of_mem c hd))]

theorem stripCR_id (l : Chars) (h : ∀ c ∈ l, c ≠ '\r') : stripCR l = l := by
  rw [stripCR]
  split
  · rename_i hg
    exact absurd rfl (h '\r' (List.mem_of_getLast?_eq_some hg))
  · rfl

/-- Splitting the concatenation of newline-terminated lines recovers
the lines. -/
theorem splitLines_of_lines : ∀ (ls : List Chars),
    (∀ l ∈ ls, ∀ c ∈ l, c ≠ '\n' ∧ c ≠ '\r') →
    splitLines ((ls.map (fun l => l ++ ['\n'])).flatten) = ls := by
  intro ls
  induction ls with
  | nil => intro _; rfl
  | cons l rest ih =>
      intro h
      have h1 := h l (List.mem_cons_self l rest)
      rw [List.map_cons, List.flatten_cons, List.append_assoc, List.singleton_append,
        splitLines, splitLinesRaw_append l _ (fun c hc => (h1 c hc).1), List.map_cons,
        stripCR_id l (fun c hc => (h1 c hc).2)]
      have := ih (fun l2 hl2 => h l2 (List.mem_cons_of_mem l hl2))
      rw [splitLines] at this
      rw [this]

/-- A safe scalar needs no nesting. -/
theorem is_complex_scalar (v : RValue) (h : safeScalar v = true) :
    Encoder.is_complex v = false := by
  match v, h with
  | RValue.nilR, _ => rfl
  | RValue.lglV [x], _ => cases x <;> rfl
  | RValue.intV [none], _ => rfl
  | RValue.intV [some n], _ => rfl
  | RValue.strV [none], _ => rfl
  | RValue.strV [some s0], _ => rfl

/-- A safe scalar encodes inline to its text, at any fuel and depth. -/
theorem encode_value_scalar (fuel depth : Nat) (v : RValue) (h : safeScalar v = true) :
    Encoder.encode_value canonOpts fuel v depth = Except.ok (scalarText v) := by
  match v, h with
  | RValue.nilR, _ => simp [Encoder.encode_value, scalarText]
  | RValue.lglV [x], _ =>
      cases x <;> simp [Encoder.encode_value, Encoder.encode_logical, scalarText]
  | RValue.intV [none], _ =>
      simp [Encoder.encode_value, Encoder.encode_integer, scalarText]
  | RValue.intV [some n], _ =>
      simp [Encoder.encode_value, Encoder.encode_integer, scalarText]
  | RValue.strV [none], _ =>
      simp [Encoder.encode_value, Encoder.encode_string, scalarText]
  | RValue.strV [some s0], _ =>
      simp [Encoder.encode_value, Encoder.encode_string, scalarText]

/-- A safe key is written unquoted. -/
theorem key_needs_quotes_safe (k : Chars) (h : safeKey k = true) :
    Encoder.key_needs_quotes k = false := by
  simp only [safeKey, Bool.and_eq_true, decide_eq_true_eq, List.all_eq_true] at h
  obtain ⟨⟨⟨hne, _⟩, _⟩, hall⟩ := h
  simp only [Encoder.key_needs_quotes, Bool.or_eq_false_iff, decide_eq_false_iff_not]
  refine ⟨⟨⟨hne, ?_⟩, ?_⟩, ?_⟩
  · exact contains_eq_false_of _ _ (fun c hc => (safeKeyChar_elim c (hall c hc)).2.1)
  · refine contains_eq_false_of _ _ (fun c hc => ?_)
    have := (safeKeyChar_elim c (hall c hc)).1
    intro he; subst he; exact absurd this (by decide)
  · exact contains_eq_false_of _ _ (fun c hc => (safeKeyChar_elim c (hall c hc)).2.2.1)

/-- The object loop writes one `key: value` line per scalar pair. -/
theorem encode_obj_items_scalars (fuel : Nat) : ∀ (items : List (Chars × RValue)),
    (∀ p ∈ items, safeKey p.1 = true ∧ safeScalar p.2 = true) →
    Encoder.encode_obj_items canonOpts
        (fun y d => Encoder.encode_value canonOpts fuel y d) items 0 =
      Except.ok ((items.map (fun p => lineText p ++ ['\n'])).flatten) := by
  intro items
  induction items with
  | nil => intro _; rfl
  | cons p rest ih =>
      intro h
      obtain ⟨hk, hv⟩ := h p (List.mem_cons_self p rest)
      obtain ⟨name, val⟩ := p
      rw [Encoder.encode_obj_items, encode_value_scalar fuel 1 val hv]
      rw [show (Except.ok (scalarText val) : Except CppError Chars).bind
        (fun s => (Encoder.encode_obj_items canonOpts
          (fun y d => Encoder.encode_value canonOpts fuel y d) rest 0).map
          (fun srest => (if 0 < 0 then Encoder.write_indent canonOpts 0 else []) ++
            (if Encoder.key_needs_quotes name then Encoder.escapeString name else name) ++
            ": ".data ++
            (if Encoder.is_complex val then Encoder.write_newline canonOpts ++ s
             else s ++ Encoder.write_newline canonOpts) ++ srest)) =
        (Encoder.encode_obj_items canonOpts
          (fun y d => Encoder.encode_value canonOpts fuel y d) rest 0).map
          (fun srest => (if 0 < 0 then Encoder.write_indent canonOpts 0 else []) ++
            (if Encoder.key_needs_quotes name then Encoder.escapeString name else name) ++
            ": ".data ++
            (if Encoder.is_complex val then Encoder.write_newline canonOpts ++ scalarText val
             else scalarText val ++ Encoder.write_newline canonOpts) ++ srest) from rfl]
      rw [ih (fun q hq => h q (List.mem_cons_of_mem (name, val) hq))]
      simp only [Except.map, key_needs_quotes_safe name hk, is_complex_scalar val hv,
        Bool.false_eq_true, if_false, Nat.lt_irrefl, List.nil_append]
      rw [List.map_cons, List.flatten_cons]
      congr 1
      simp [lineText, Encoder.write_newline, canonOpts, List.append_assoc]

/-- An insertion sort of an already strictly sorted list is the
identity. -/
theorem insertionSort_pairwise_eq {α : Type} (r : α → α → Prop) [DecidableRel r] :
    ∀ (l : List α), List.Pairwise r l → List.insertionSort r l = l := by
  intro l
  induction l with
  | nil => intro _; rfl
  | cons a t ih =>
      intro h
      rw [List.insertionSort, ih (List.Pairwise.of_cons h)]
      cases t with
      | nil => rfl
      | cons b t2 =>
          rw [List.orderedInsert, if_pos ((List.pairwise_cons.mp h).1 b
            (List.mem_cons_self b t2))]

theorem zip_fst_snd {α β : Type} : ∀ (l : List (α × β)),
    (l.map Prod.fst).zip (l.map Prod.snd) = l := by
  intro l
  induction l with
  | nil => rfl
  | cons p t ih => simp [ih]

/-- The canonical encoding of a flat object of safe scalars, with its
keys already in canonical order: one `key: value` line per pair. -/
theorem encode_flat_object (items : List (Chars × RValue))
    (hsorted : List.Pairwise (fun a b => Encoder.charsLt a.1 b.1 = true) items)
    (hsafe : ∀ p ∈ items, safeKey p.1 = true ∧ safeScalar p.2 = true) :
    Encoder.encode canonOpts
        (RValue.vecV (items.map Prod.snd) (some (items.map Prod.fst))) =
      Except.ok ((items.map (fun p => lineText p ++ ['\n'])).flatten) := by
  rw [Encoder.encode]
  rw [show RValue.vdepth (RValue.vecV (items.map Prod.snd) (some (items.map Prod.fst))) =
    RValue.vdepthL (items.map Prod.snd) + 1 from rfl]
  rw [show Encoder.encode_value canonOpts (RValue.vdepthL (items.map Prod.snd) + 1)
      (RValue.vecV (items.map Prod.snd) (some (items.map Prod.fst))) 0 =
    Encoder.encode_list canonOpts (fun y d => Encoder.encode_value canonOpts
      (RValue.vdepthL (items.map Prod.snd)) y d) (items.map Prod.snd)
      (some (items.map Prod.fst)) 0 from rfl]
  rw [Encoder.encode_list]
  simp only [List.length_map, ne_eq, not_true_eq_false, if_false, zip_fst_snd,
    show canonOpts.canonical = true from rfl, if_true]
  rw [insertionSort_pairwise_eq _ items hsorted]
  exact encode_obj_items_scalars (RValue.vdepthL (items.map Prod.snd)) items hsafe

theorem lineText_no_nl (p : Chars × RValue) (hk : safeKey p.1 = true)
    (hv : safeScalar p.2 = true) : ∀ c ∈ lineText p, c ≠ '\n' ∧ c ≠ '\r' := by
  intro c hc
  simp only [lineText, List.append_assoc, List.mem_append] at hc
  rcases hc with hc | hc | hc
  · simp only [safeKey, Bool.and_eq_true, decide_eq_true_eq, List.all_eq_true] at hk
    have h33 := (safeKeyChar_elim c (hk.2 c hc)).1
    constructor
    · intro he; subst he; exact absurd h33 (by decide)
    · intro he; subst he; exact absurd h33 (by decide)
  · rcases List.mem_cons.mp hc with rfl | hc3
    · exact ⟨by decide, by decide⟩
    · simp only [List.mem_singleton] at hc3
      subst hc3
      exact ⟨by decide, by decide⟩
  · exact (scalarText_props p.2 hv).2.2.2.2 c hc

/-- The object loop over the remaining flat lines collects the parsed
scalar pairs and stops cleanly at end of input. -/
theorem parse_object_loop_flat :
    ∀ (rest : List (Chars × RValue)) (fuel : Nat) (st : PState)
      (done : List (Chars × Node)) (seen : List Chars),
    rest.length + 1 ≤ fuel →
    st.lines = rest.map lineText →
    st.has_peeked = false →
    (∀ p ∈ rest, safeKey p.1 = true ∧ safeScalar p.2 = true) →
    (∀ p ∈ rest, p.1 ∉ seen) →
    List.Pairwise (fun a b => a.1 ≠ b.1) rest →
    ∃ stF, Parser.parse_object_loop fuel {} st (-1) 0 done seen [] =
      Except.ok (Node.N_OBJECT (done ++ rest.map (fun p => (p.1, scalarNode p.2))), stF) := by
  intro rest
  induction rest with
  | nil =>
      intro fuel st done seen hfuel hlines hpeek _ _ _
      cases fuel with
      | zero => omega
      | succ f =>
          simp only [List.map_nil] at hlines
          obtain ⟨ls, lnn, hp, pk, ws⟩ := st
          simp only at hlines hpeek
          subst hlines hpeek
          refine ⟨{ lines := [], line_no := lnn, has_peeked := false, peeked := pk, warnings := ws }, ?_⟩
          simp [Parser.parse_object_loop, PState.next_line]
  | cons p rest2 ih =>
      intro fuel st done seen hfuel hlines hpeek hsafe hseen hdist
      cases fuel with
      | zero => simp at hfuel
      | succ f =>
          obtain ⟨hkp, hvp⟩ := hsafe p (List.mem_cons_self p rest2)
          have hnl : st.next_line = some (lineText p, st.line_no + 1,
              { st with lines := rest2.map lineText, line_no := st.line_no + 1 }) := by
            rw [PState.next_line, hlines, List.map_cons]
          simp only [Parser.parse_object_loop, hpeek, Bool.false_eq_true, if_false, hnl]
          rw [classify_line_kv p.1 p.2 (st.line_no + 1) hkp hvp]
          simp only [Except.bind]
          rw [if_neg (by simp)]
          rw [if_neg (by simp)]
          rw [if_neg (by simp)]
          rw [if_neg (by simp)]
          cases f with
          | zero => simp only [List.length_cons] at hfuel; omega
          | succ f2 =>
              have hcont : seen.contains p.1 = false :=
                contains_eq_false_of seen p.1 (fun c hc => by
                  intro he; subst he; exact hseen p (List.mem_cons_self p rest2) hc)
              simp only [Parser.process_key_value, hcont, Bool.false_eq_true, if_false]
              rw [if_pos trivial, parse_primitive_scalar p.2 hvp]
              simp only [Except.bind, Except.map, Except.ok.injEq]
              obtain ⟨stF, hloop⟩ := ih (f2 + 1)
                { st with lines := rest2.map lineText, line_no := st.line_no + 1 }
                (done ++ [(p.1, scalarNode p.2)]) (p.1 :: seen)
                (by simp at hfuel ⊢; omega) rfl hpeek
                (fun q hq => hsafe q (List.mem_cons_of_mem p hq))
                (fun q hq => by
                  intro hmem
                  rcases List.mem_cons.mp hmem with he | hmem2
                  · exact (List.pairwise_cons.mp hdist).1 q hq he.symm
                  · exact hseen q (List.mem_cons_of_mem p hq) hmem2)
                (List.pairwise_cons.mp hdist).2
              refine ⟨stF, ?_⟩
              rw [hpeek] at hloop
              rw [hloop]
              simp [List.append_assoc]

/-- `parse_object` over the whole flat input. -/
theorem parse_object_flat (first : Chars × RValue) (rest : List (Chars × RValue))
    (fuel : Nat) (st : PState) (ln : Nat)
    (hfuel : rest.length + 3 ≤ fuel)
    (hlines : st.lines = rest.map lineText)
    (hpeek : st.has_peeked = false)
    (hsafe : ∀ p ∈ first :: rest, safeKey p.1 = true ∧ safeScalar p.2 = true)
    (hdist : List.Pairwise (fun a b => a.1 ≠ b.1) (first :: rest)) :
    ∃ stF, Parser.parse_object fuel {} st (-1)
      { type := LineType.KEY_VALUE, indent := 0, content := lineText first,
        key := first.1, value := scalarText first.2, line_no := ln } =
      Except.ok (Node.N_OBJECT ((first :: rest).map fun p => (p.1, scalarNode p.2)), stF) := by
  obtain ⟨hk1, hv1⟩ := hsafe first (List.mem_cons_self first rest)
  cases fuel with
  | zero => omega
  | succ f =>
  cases f with
  | zero => omega
  | succ f2 =>
  simp only [Parser.parse_object]
  simp only [Parser.process_key_value, List.contains, List.elem]
  rw [if_pos trivial, parse_primitive_scalar first.2 hv1]
  obtain ⟨stF, hloop⟩ := parse_object_loop_flat rest (f2 + 1) st
    [(first.1, scalarNode first.2)] [first.1] (by omega) hlines hpeek
    (fun q hq => hsafe q (List.mem_cons_of_mem first hq))
    (fun q hq => by
      intro hmem
      simp only [List.mem_singleton] at hmem
      exact (List.pairwise_cons.mp hdist).1 q hq hmem.symm)
    (List.pairwise_cons.mp hdist).2
  refine ⟨stF, ?_⟩
  simp [hloop, Except.bind, Except.map]

/-- `parse_value` on the flat input: the whole object. -/
theorem parse_value_flat (first : Chars × RValue) (rest : List (Chars × RValue))
    (fuel : Nat) (lnn : Nat)
    (hfuel : rest.length + 4 ≤ fuel)
    (hsafe : ∀ p ∈ first :: rest, safeKey p.1 = true ∧ safeScalar p.2 = true)
    (hdist : List.Pairwise (fun a b => a.1 ≠ b.1) (first :: rest)) :
    ∃ stF, Parser.parse_value fuel {}
        { lines := (first :: rest).map lineText, line_no := lnn } (-1) =
      Except.ok (some (Node.N_OBJECT ((first :: rest).map fun p => (p.1, scalarNode p.2))),
        stF) := by
  obtain ⟨hk1, hv1⟩ := hsafe first (List.mem_cons_self first rest)
  obtain ⟨k1, v1⟩ := first
  cases fuel with
  | zero => omega
  | succ f =>
  simp only [Parser.parse_value, Bool.false_eq_true, if_false]
  rw [show (PState.next_line { lines := ((k1, v1) :: rest).map lineText, line_no := lnn }) =
    some (lineText (k1, v1), lnn + 1,
      { lines := rest.map lineText, line_no := lnn + 1 }) from by
    rw [List.map_cons, PState.next_line]]
  dsimp only
  rw [classify_line_kv k1 v1 (lnn + 1) hk1 hv1]
  simp only [Except.bind]
  rw [if_neg (by simp)]
  rw [if_neg (by simp)]
  obtain ⟨stF, hobj⟩ := parse_object_flat (k1, v1) rest f
    { lines := rest.map lineText, line_no := lnn + 1, peeked := { type := LineType.KEY_VALUE, indent := 0, content := lineText (k1, v1), key := k1, value := scalarText v1, line_no := lnn + 1 } }
    (lnn + 1) (by omega) rfl rfl hsafe hdist
  refine ⟨stF, ?_⟩
  rw [hobj]
  rfl

/-- `parse_string` on the canonical flat encoding. -/
theorem parse_string_flat (first : Chars × RValue) (rest : List (Chars × RValue))
    (hsafe : ∀ p ∈ first :: rest, safeKey p.1 = true ∧ safeScalar p.2 = true)
    (hdist : List.Pairwise (fun a b => a.1 ≠ b.1) (first :: rest)) :
    ∃ stF, Parser.parse_string {}
        (((first :: rest).map (fun p => lineText p ++ ['\n'])).flatten) =
      Except.ok (some (Node.N_OBJECT ((first :: rest).map fun p => (p.1, scalarNode p.2))),
        stF) := by
  have hsplit : splitLines (((first :: rest).map (fun p => lineText p ++ ['\n'])).flatten) =
      (first :: rest).map lineText := by
    rw [show ((first :: rest).map (fun p => lineText p ++ ['\n'])) =
      (((first :: rest).map lineText).map (fun l => l ++ ['\n'])) from by
        rw [List.map_map]; rfl]
    exact splitLines_of_lines _ (fun l hl => by
      obtain ⟨p, hp, rfl⟩ := List.mem_map.mp hl
      exact lineText_no_nl p (hsafe p hp).1 (hsafe p hp).2)
  rw [Parser.parse_string, hsplit]
  exact parse_value_flat first rest _ 0 (by simp [List.length_map]; omega) hsafe hdist

/-- `<` on byte strings is irreflexive. -/
theorem charsLt_irrefl (a : Chars) : Encoder.charsLt a a = false := by
  induction a with
  | nil => rfl
  | cons c t ih => simp [Encoder.charsLt, ih]

theorem charsLt_ne (a b : Chars) (h : Encoder.charsLt a b = true) : a ≠ b := by
  intro he
  rw [he, charsLt_irrefl] at h
  exact Bool.false_ne_true h

/-- In-range non-sentinel integers survive the 32-bit wrap check. -/
theorem toRInt_id (n : Int) (h1 : -(2 ^ 31) < n) (h2 : n < 2 ^ 31) :
    toRInt n = some n := by
  unfold toRInt
  rw [Int.emod_eq_of_lt (by omega) (by omega)]
  rw [if_neg (by omega)]
  congr 1
  omega

/-- Converting the node a safe scalar parses back to recovers the
scalar, up to the NA-to-NULL collapse. -/
theorem node_to_sexp_scalar (simplify : Bool) (fuel : Nat) (v : RValue)
    (hv : safeScalar v = true) :
    node_to_sexp simplify fuel (scalarNode v) = some (roundVal v) := by
  match v, hv with
  | RValue.nilR, _ => simp only [scalarNode, node_to_sexp, roundVal]
  | RValue.lglV [none], _ => simp only [scalarNode, node_to_sexp, roundVal]
  | RValue.lglV [some b], _ => simp only [scalarNode, node_to_sexp, roundVal]
  | RValue.intV [none], _ => simp only [scalarNode, node_to_sexp, roundVal]
  | RValue.intV [some n], hv =>
      simp only [safeScalar, Bool.and_eq_true, decide_eq_true_eq] at hv
      simp only [scalarNode, node_to_sexp, roundVal, toRInt_id n hv.1 hv.2]
  | RValue.strV [none], _ => simp only [scalarNode, node_to_sexp, roundVal]
  | RValue.strV [some s0], _ => simp only [scalarNode, node_to_sexp, roundVal]

/-- The object-pair loop over the parsed flat object. -/
theorem node_pairs_scalars (fuel : Nat) (items : List (Chars × RValue))
    (hsafe : ∀ p ∈ items, safeKey p.1 = true ∧ safeScalar p.2 = true) :
    node_pairs_to_sexp (node_to_sexp true fuel)
        (items.map fun p => (p.1, scalarNode p.2)) =
      some (items.map fun p => roundVal p.2) := by
  induction items with
  | nil => rfl
  | cons p t ih =>
      simp only [List.map_cons, node_pairs_to_sexp]
      rw [node_to_sexp_scalar true fuel p.2 (hsafe p (List.mem_cons_self p t)).2]
      rw [ih (fun q hq => hsafe q (List.mem_cons_of_mem p hq))]
      rfl

/-- `node_to_sexp` on the parsed flat object rebuilds the named list. -/
theorem node_to_sexp_flat (fuel : Nat) (items : List (Chars × RValue))
    (hsafe : ∀ p ∈ items, safeKey p.1 = true ∧ safeScalar p.2 = true) :
    node_to_sexp true (fuel + 1)
        (Node.N_OBJECT (items.map fun p => (p.1, scalarNode p.2))) =
      some (RValue.vecV (items.map fun p => roundVal p.2)
        (some (items.map Prod.fst))) := by
  simp only [node_to_sexp]
  rw [node_pairs_scalars fuel items hsafe]
  simp [List.map_map, Function.comp]

/-- The NA-to-NULL collapse preserves scalar safety. -/
theorem safeScalar_roundVal (v : RValue) (hv : safeScalar v = true) :
    safeScalar (roundVal v) = true := by
  match v, hv with
  | RValue.nilR, _ => rfl
  | RValue.lglV [none], _ => rfl
  | RValue.lglV [some b], _ => rfl
  | RValue.intV [none], _ => rfl
  | RValue.intV [some n], hv => exact hv
  | RValue.strV [none], _ => rfl
  | RValue.strV [some s0], hv => exact hv

/-- The NA-to-NULL collapse does not change the encoded text. -/
theorem scalarText_roundVal (v : RValue) (hv : safeScalar v = true) :
    scalarText (roundVal v) = scalarText v := by
  match v, hv with
  | RValue.nilR, _ => rfl
  | RValue.lglV [none], _ => rfl
  | RValue.lglV [some b], _ => rfl
  | RValue.intV [none], _ => rfl
  | RValue.intV [some n], _ => rfl
  | RValue.strV [none], _ => rfl
  | RValue.strV [some s0], _ => rfl

/-- `node_to_sexp` at the round trip's own fuel bound. -/
theorem node_to_sexp_flat_depth (items : List (Chars × RValue))
    (hsafe : ∀ p ∈ items, safeKey p.1 = true ∧ safeScalar p.2 = true) :
    node_to_sexp true
        (Node.ndepth (Node.N_OBJECT (items.map fun p => (p.1, scalarNode p.2))) + 1)
        (Node.N_OBJECT (items.map fun p => (p.1, scalarNode p.2))) =
      some (RValue.vecV (items.map fun p => roundVal p.2)
        (some (items.map Prod.fst))) := by
  rw [show Node.ndepth (Node.N_OBJECT (items.map fun p => (p.1, scalarNode p.2))) =
    Node.ndepthP (items.map fun p => (p.1, scalarNode p.2)) + 1 from rfl]
  exact node_to_sexp_flat _ items hsafe

/-- C1 (amended): the canonical encoding is idempotent on flat named
lists of safe scalars.  For a nonempty list of key-value pairs whose
keys are distinct safe keys already in canonical byte order and whose
values are safe scalars (`NULL`, a length-one logical, in-range
non-sentinel integer or safe-character string, NA entries included),
`to_toon(x, canonical = TRUE)` succeeds and feeding its output through
`from_toon` and `to_toon(canonical = TRUE)` again returns the same
text.  On nested values idempotence fails: see
`claim1_counterexample`, where an empty-list value encodes to the
inline text `[0]:` that reparses as a plain string. -/
theorem claim1_amended (items : List (Chars × RValue))
    (hne : items ≠ [])
    (hsorted : List.Pairwise (fun a b => Encoder.charsLt a.1 b.1 = true) items)
    (hsafe : ∀ p ∈ items, safeKey p.1 = true ∧ safeScalar p.2 = true) :
    ∃ e1, Encoder.encode { canonical := true }
        (RValue.vecV (items.map Prod.snd) (some (items.map Prod.fst))) =
      Except.ok e1 ∧ reencode_canonical e1 = Except.ok e1 := by
  match items, hne with
  | first :: rest, _ =>
  have hsorted2 : List.Pairwise (fun a b => Encoder.charsLt a.1 b.1 = true)
      ((first :: rest).map fun p => (p.1, roundVal p.2)) := by
    rw [List.pairwise_map]
    exact hsorted
  have hsafe2 : ∀ p ∈ (first :: rest).map (fun p => (p.1, roundVal p.2)),
      safeKey p.1 = true ∧ safeScalar p.2 = true := by
    intro p hp
    obtain ⟨q, hq, rfl⟩ := List.mem_map.mp hp
    exact ⟨(hsafe q hq).1, safeScalar_roundVal q.2 (hsafe q hq).2⟩
  have henc2 := encode_flat_object ((first :: rest).map fun p => (p.1, roundVal p.2))
    hsorted2 hsafe2
  rw [show ((first :: rest).map fun p => (p.1, roundVal p.2)).map Prod.snd =
    (first :: rest).map (fun p => roundVal p.2) from by rw [List.map_map]; rfl] at henc2
  rw [show ((first :: rest).map fun p => (p.1, roundVal p.2)).map Prod.fst =
    (first :: rest).map Prod.fst from by rw [List.map_map]; rfl] at henc2
  have hline : ((first :: rest).map fun p => (p.1, roundVal p.2)).map
      (fun p => lineText p ++ ['\n']) =
      (first :: rest).map (fun p => lineText p ++ ['\n']) := by
    rw [List.map_map]
    refine List.map_congr_left ?_
    intro q hq
    show lineText (q.1, roundVal q.2) ++ ['\n'] = lineText q ++ ['\n']
    rw [show lineText (q.1, roundVal q.2) =
      q.1 ++ ": ".data ++ scalarText (roundVal q.2) from rfl,
      scalarText_roundVal q.2 (hsafe q hq).2]
    rfl
  rw [hline] at henc2
  refine ⟨((first :: rest).map (fun p => lineText p ++ ['\n'])).flatten, ?_, ?_⟩
  · rw [show ({ canonical := true } : Encoder.EncodeOptions) = canonOpts from rfl]
    exact encode_flat_object (first :: rest) hsorted hsafe
  · obtain ⟨stF, hps⟩ := parse_string_flat first rest hsafe
      (hsorted.imp fun h => charsLt_ne _ _ h)
    unfold reencode_canonical
    rw [hps]
    simp only [Except.bind]
    rw [node_to_sexp_flat_depth (first :: rest) hsafe]
    rw [show ({ canonical := true } : Encoder.EncodeOptions) = canonOpts from rfl]
    exact henc2

/-- The amended C1 theorem at `list(a = 1L, b = "hi")`. -/
theorem claim1_witness :
    ∃ e1, Encoder.encode { canonical := true }
        (RValue.vecV ([(['a'], RValue.intV [some 1]),
            (['b'], RValue.strV [some ['h', 'i']])].map Prod.snd)
          (some ([(['a'], RValue.intV [some 1]),
            (['b'], RValue.strV [some ['h', 'i']])].map Prod.fst))) =
      Except.ok e1 ∧ reencode_canonical e1 = Except.ok e1 :=
  claim1_amended [(['a'], RValue.intV [some 1]), (['b'], RValue.strV [some ['h', 'i']])]
    (List.cons_ne_nil _ _)
    (by simp [List.pairwise_cons]; decide)
    (by decide)

end Toonlite
